import Mathlib

set_option maxHeartbeats 2000000
set_option maxRecDepth 4000

/- Verification development for the paradrawing sketching kernel
   (`canvas.ts`).  The TypeScript source is shallowly embedded:

   * JS numbers are modelled as rationals (`ℚ`);
   * JS objects keyed by numeric ids (`ObjectMap`) are association lists.
     JS iterates integer-like keys in ascending numeric order; since ids are
     produced by a strictly increasing counter and entries are only ever
     added with fresh ids, insertion order coincides with ascending key
     order, so list order models JS iteration order.  Literal object
     expressions in the source are written here in ascending id order for
     the same reason;
   * a JS `Set` is a list in insertion order (elements unique by
     construction: `add` is a no-op on a member);
   * the residual / Jacobian closures built by `transformConstraints` are
     defunctionalised into `SolverEq` descriptors.  A descriptor records
     exactly what the TS closure captures (the operand ids resolved at build
     time); evaluation takes the final variable table `jacCol` as an
     argument, matching the TS closures, which read the shared mutable
     table only after the whole constraint walk has filled it;
   * the external SVD backend (`ml-matrix`) is an opaque parameter
     `SvdOracle` mapping the Jacobian rows and the right-hand side to a
     solution vector (the library contract is that the result has length
     equal to the column count of the Jacobian);
   * the throwing branches of `getVariable` are modelled with
     `Except String`; an exception unwinds out of `sendEvent` exactly as in
     JS (remaining data actions are skipped, listeners are not notified,
     mutations already performed are kept);
   * `Vec2D` is a pair; the TS source indexes points with `point[index]`
     where `index` is always the literal 0 or 1 at every call site, so the
     index is modelled as a `Nat` selecting the first or second component.

   The module-level mutable id counter (`generateID`) is threaded
   explicitly: functions that allocate ids take the current counter and
   return the new one. -/

abbrev ObjectID := Int

abbrev Vec2D := ℚ × ℚ

def vecGet (p : Vec2D) (index : Nat) : ℚ :=
  match index with
  | 0 => p.1
  | _ => p.2

def vecSet (p : Vec2D) (index : Nat) (v : ℚ) : Vec2D :=
  match index with
  | 0 => (v, p.2)
  | _ => (p.1, v)

def vecSub (a b : Vec2D) : Vec2D := (a.1 - b.1, a.2 - b.2)

def vecDot (a b : Vec2D) : ℚ := a.1 * b.1 + a.2 * b.2

def hitNode (p : Vec2D) (tol : ℚ) (mouse : Vec2D) : Bool :=
  let r := vecSub mouse p
  let normSq := vecDot r r
  decide (normSq < tol * tol)

def hitLineSegment (a b : Vec2D) (tol : ℚ) (mouse : Vec2D) : Bool :=
  let mouseFromA := vecSub mouse a
  let bFromA := vecSub b a
  let proj := vecDot mouseFromA bFromA
  let normSq := vecDot bFromA bFromA
  if normSq < 1 / 100 then false
  else if proj ≤ 0 ∧ proj * proj / normSq ≥ tol * tol then false
  else
    let tmp1 := proj - normSq
    if tmp1 ≥ 0 ∧ tmp1 * tmp1 / normSq ≥ tol * tol then false
    else
      let mouseFromANormSq := vecDot mouseFromA mouseFromA
      let prepDistSq := mouseFromANormSq - proj * proj / normSq
      if prepDistSq > tol * tol then false
      else true

inductive CanvasObjectData where
  | node (point : Vec2D)
  | fixedNode (point : Vec2D)
  | line (point1 point2 : ObjectID)
  | path (points : List ObjectID) (lines : List ObjectID)
  | text (point : ObjectID) (body : String)
  deriving DecidableEq, Repr

structure CanvasObject where
  id : ObjectID
  guide : Bool
  data : CanvasObjectData
  deriving DecidableEq, Repr

abbrev ObjectMap := List (ObjectID × CanvasObject)

def lookupObject : ObjectMap → ObjectID → Option CanvasObject
  | [], _ => none
  | e :: rest, k => if e.1 = k then some e.2 else lookupObject rest k

/-- `map[k] = v` on a JS object: replace in place if the key exists,
otherwise append (fresh numeric keys are larger than all existing ones, so
appending preserves ascending key order). -/
def setObject : ObjectMap → ObjectID → CanvasObject → ObjectMap
  | [], k, v => [(k, v)]
  | e :: rest, k, v => if e.1 = k then (k, v) :: rest else e :: setObject rest k v

/-- `Object.assign(target, src)`. -/
def objectAssign (target src : ObjectMap) : ObjectMap :=
  src.foldl (fun t e => setObject t e.1 e.2) target

/-- In-place update of the object stored under key `k`. -/
def updateAt (m : ObjectMap) (k : ObjectID) (f : CanvasObject → CanvasObject) : ObjectMap :=
  m.map (fun e => if e.1 = k then (e.1, f e.2) else e)

def pointLikeObject : CanvasObjectData → Bool
  | .node _ => true
  | .fixedNode _ => true
  | _ => false

/-- The `inc` set of `filterObjectMap`: the root ids plus, for each root
that is a `Path`, its `points` and `lines` (a JS `Set` modelled as a list;
only membership is ever consulted). -/
def filterInc (m : ObjectMap) (ids : List ObjectID) : List ObjectID :=
  ids.foldl
    (fun inc i =>
      match lookupObject m i with
      | none => inc
      | some obj =>
        match obj.data with
        | .path points lines => inc ++ points ++ lines
        | _ => inc)
    ids

def filterObjectMap (m : ObjectMap) (ids : List ObjectID) : ObjectMap :=
  let inc := filterInc m ids
  m.filter (fun e => decide (e.1 ∈ inc))

inductive Constraint where
  | perpendicular (line1 line2 : ObjectID)
  | parallel (line1 line2 : ObjectID)
  | coincident (object1 object2 : ObjectID)
  | horizontal (object : ObjectID)
  | vertical (object : ObjectID)
  | distance (dist : ℚ) (object1 : ObjectID) (object2 : Option ObjectID)
  deriving DecidableEq, Repr

inductive Button where
  | primary
  | secondary
  | auxiliary
  deriving DecidableEq, Repr

inductive Event where
  | mouseMove (point : Vec2D)
  | mouseDown (ctrl : Bool) (button : Button) (point : Vec2D)
  | mouseUp (ctrl : Bool) (button : Button) (point : Vec2D)
  | keyDown (key : String)
  | keyUp (key : String)
  | resizeView (viewWidth viewHeight : ℚ)
  | scaleView (scale : ℚ)
  | setViewOffset (offset : Vec2D)
  | addPerpendicularConstraint
  | addCoincidentConstraint
  | addHorizontalConstraint
  | addVerticalConstraint
  | addDistanceConstraint (dist : ℚ)
  | selectTextTool
  | setTextValue (val : String)
  | addObject (guide : Bool) (object : CanvasObjectData)
  deriving DecidableEq, Repr

inductive ToolKind where
  | selector
  | pen
  | text
  deriving DecidableEq, Repr

inductive DataActionBody where
  | addObject (map : ObjectMap)
  | addConstraint (constraint : Constraint)
  deriving DecidableEq, Repr

structure DataAction where
  id : ObjectID
  body : DataActionBody
  deriving DecidableEq, Repr

inductive ToolAction where
  | addNode (point : Vec2D)
  | updateNextNode (point : Vec2D)
  | selectTool (tool : ToolKind)
  | resizeView (width height : ℚ)
  | setViewOffset (offset : Vec2D)
  | startPan (point : Vec2D)
  | stopPan
  | updatePan
  | updateNextText (body : String) (point : Vec2D)
  | updateMousePoint (point : Vec2D)
  | addHistory (action : DataAction)
  | selectObject (objectID : ObjectID)
  | deselectObject (objectID : ObjectID)
  deriving DecidableEq, Repr

inductive Tool where
  | selector (selectedObjects : List ObjectID)
  | pen (tempObjectMap : ObjectMap) (tempObjectID : ObjectID) (nextObjectID : ObjectID)
  | text (tempObjectMap : ObjectMap) (nextObjectID : ObjectID)
  deriving DecidableEq, Repr

def Tool.kind : Tool → ToolKind
  | .selector _ => .selector
  | .pen _ _ _ => .pen
  | .text _ _ => .text

inductive HistoryNode where
  | mk (action : DataAction) (children : List HistoryNode)

/-- `cur` in the TS source is a pointer into the tree; it is modelled as the
path of child indices leading from the root to the pointed-at node. -/
structure ActionHistory where
  root : Option HistoryNode
  cur : Option (List Nat)

def listModify (f : α → α) : Nat → List α → List α
  | _, [] => []
  | 0, a :: l => f a :: l
  | n + 1, a :: l => a :: listModify f n l

def HistoryNode.pushAt (c : HistoryNode) : List Nat → HistoryNode → HistoryNode
  | [], .mk a ch => .mk a (ch ++ [c])
  | i :: p, .mk a ch => .mk a (listModify (fun child => HistoryNode.pushAt c p child) i ch)

def HistoryNode.childCountAt : List Nat → HistoryNode → Nat
  | [], .mk _ ch => ch.length
  | i :: p, .mk _ ch =>
    match ch.get? i with
    | some child => HistoryNode.childCountAt p child
    | none => 0

def appendHistory (h : ActionHistory) (action : DataAction) : ActionHistory :=
  let cur0 : Option (List Nat) :=
    match h.cur with
    | some p => some p
    | none => match h.root with
      | some _ => some []
      | none => none
  match cur0 with
  | none => { root := some (.mk action []), cur := some [] }
  | some p =>
    match h.root with
    | none => h
    | some r =>
      { root := some (HistoryNode.pushAt (.mk action []) p r),
        cur := some (p ++ [HistoryNode.childCountAt p r]) }

structure ViewBox where
  offset : Vec2D
  width : ℚ
  height : ℚ
  deriving DecidableEq, Repr

inductive PanState where
  | idle
  | panning (start : Vec2D)
  deriving DecidableEq, Repr

structure ToolState where
  tool : Tool
  history : ActionHistory
  mousePoint : Vec2D
  viewBox : ViewBox
  dataOrigin : Vec2D
  scale : ℚ
  pan : PanState

structure DataState where
  objects : ObjectMap
  constraints : List Constraint
  deriving DecidableEq, Repr

def transformViewportToSVG (state : ToolState) (point : Vec2D) : Vec2D :=
  (point.1 + state.viewBox.offset.1, point.2 + state.viewBox.offset.2)

def transformSVGToData (state : ToolState) (point : Vec2D) : Vec2D :=
  (point.1 - state.dataOrigin.1, state.dataOrigin.2 - point.2)

def transformViewportToData (state : ToolState) (point : Vec2D) : Vec2D :=
  transformSVGToData state (transformViewportToSVG state point)

def transformDataToSVG (state : ToolState) (point : Vec2D) : Vec2D :=
  (point.1 + state.dataOrigin.1, state.dataOrigin.2 - point.2)

/- ------------------------------------------------------------------ -/
/- Constraint solver (`transformConstraints` / `newtonSolve`)          -/
/- ------------------------------------------------------------------ -/

/-- The external SVD-based least-squares backend from `ml-matrix`:
given the Jacobian rows and the right-hand side column, it returns the
minimum-norm least-squares solution (its contract: the result has length
equal to the Jacobian's column count). -/
abbrev SvdOracle := List (List ℚ) → List ℚ → List ℚ

/-- The variable table built by the `addVariable` walk.  `jacCol` lists the
variable keys `(objectID, index)` in first-encounter order (a key's column
is its position); `xInit` is the initial value vector; `writes` records the
write-back closures as `(objectID, index, xi)` triples
(`obj.point[index] = x[xi]`). -/
structure SolverBuild where
  jacCol : List (ObjectID × Nat)
  xInit : List ℚ
  writes : List (ObjectID × Nat × Nat)
  deriving DecidableEq, Repr

def addVariable (objects : ObjectMap) (b : SolverBuild) (objectID : ObjectID) (index : Nat) : SolverBuild :=
  match lookupObject objects objectID with
  | none => b
  | some obj =>
    match obj.data with
    | .fixedNode _ => b
    | d =>
      if (objectID, index) ∈ b.jacCol then b
      else
        let b2 : SolverBuild := { b with jacCol := b.jacCol ++ [(objectID, index)] }
        match d with
        | .node point =>
          { b2 with
            xInit := b2.xInit ++ [vecGet point index],
            writes := b2.writes ++ [(objectID, index, b2.xInit.length)] }
        | _ => b2

def getVariable (objects : ObjectMap) (jacCol : List (ObjectID × Nat)) (x : List ℚ) (objectID : ObjectID) (index : Nat) : Except String (Int × ℚ) :=
  match lookupObject objects objectID with
  | none => .error "unknown object ID"
  | some obj =>
    match obj.data with
    | .fixedNode point => .ok (-1, vecGet point index)
    | _ =>
      match jacCol.findIdx? (fun e => decide (e = (objectID, index))) with
      | some col => .ok ((col : Int), x.getD col 0)
      | none => .error "unknown variable"

def setGrad (grad : List ℚ) (col : Int) (val : ℚ) : List ℚ :=
  if col = -1 then grad else grad.set col.toNat val

/-- Descriptor of one scalar equation: what the corresponding TS residual /
Jacobian-row closure pair captures.  `coincX`/`coincY` are the two rows of a
point-point coincidence; `coincPL` is the point-on-line cross product. -/
inductive SolverEq where
  | perp (p1 p2 p3 p4 : ObjectID)
  | dist (p1 p2 : ObjectID) (d : ℚ)
  | horiz (p1 p2 : ObjectID)
  | vert (p1 p2 : ObjectID)
  | coincX (p1 p2 : ObjectID)
  | coincY (p1 p2 : ObjectID)
  | coincPL (a1 a2 p : ObjectID)
  deriving DecidableEq, Repr

def evalResidual (objects : ObjectMap) (jacCol : List (ObjectID × Nat)) (eq : SolverEq) (x : List ℚ) : Except String ℚ :=
  match eq with
  | .perp p1 p2 p3 p4 => do
    let (_, p1x) ← getVariable objects jacCol x p1 0
    let (_, p1y) ← getVariable objects jacCol x p1 1
    let (_, p2x) ← getVariable objects jacCol x p2 0
    let (_, p2y) ← getVariable objects jacCol x p2 1
    let (_, p3x) ← getVariable objects jacCol x p3 0
    let (_, p3y) ← getVariable objects jacCol x p3 1
    let (_, p4x) ← getVariable objects jacCol x p4 0
    let (_, p4y) ← getVariable objects jacCol x p4 1
    pure ((p2x - p1x) * (p4x - p3x) + (p2y - p1y) * (p4y - p3y))
  | .dist p1 p2 d => do
    let (_, p1x) ← getVariable objects jacCol x p1 0
    let (_, p1y) ← getVariable objects jacCol x p1 1
    let (_, p2x) ← getVariable objects jacCol x p2 0
    let (_, p2y) ← getVariable objects jacCol x p2 1
    let dx := p2x - p1x
    let dy := p2y - p1y
    pure (dx * dx + dy * dy - d * d)
  | .horiz p1 p2 => do
    let (_, p1y) ← getVariable objects jacCol x p1 1
    let (_, p2y) ← getVariable objects jacCol x p2 1
    pure (p1y - p2y)
  | .vert p1 p2 => do
    let (_, p1x) ← getVariable objects jacCol x p1 0
    let (_, p2x) ← getVariable objects jacCol x p2 0
    pure (p1x - p2x)
  | .coincX p1 p2 => do
    let (_, p1x) ← getVariable objects jacCol x p1 0
    let (_, p2x) ← getVariable objects jacCol x p2 0
    pure (p1x - p2x)
  | .coincY p1 p2 => do
    let (_, p1y) ← getVariable objects jacCol x p1 1
    let (_, p2y) ← getVariable objects jacCol x p2 1
    pure (p1y - p2y)
  | .coincPL a1 a2 p => do
    let (_, a1x) ← getVariable objects jacCol x a1 0
    let (_, a1y) ← getVariable objects jacCol x a1 1
    let (_, a2x) ← getVariable objects jacCol x a2 0
    let (_, a2y) ← getVariable objects jacCol x a2 1
    let (_, px) ← getVariable objects jacCol x p 0
    let (_, py) ← getVariable objects jacCol x p 1
    let v1x := a2x - a1x
    let v1y := a2y - a1y
    let v2x := px - a1x
    let v2y := py - a1y
    pure (v1x * v2y - v1y * v2x)

def evalJacRow (objects : ObjectMap) (jacCol : List (ObjectID × Nat)) (eq : SolverEq) (x : List ℚ) (grad : List ℚ) : Except String (List ℚ) :=
  match eq with
  | .perp p1 p2 p3 p4 => do
    let (p1xCol, p1x) ← getVariable objects jacCol x p1 0
    let (p1yCol, p1y) ← getVariable objects jacCol x p1 1
    let (p2xCol, p2x) ← getVariable objects jacCol x p2 0
    let (p2yCol, p2y) ← getVariable objects jacCol x p2 1
    let (p3xCol, p3x) ← getVariable objects jacCol x p3 0
    let (p3yCol, p3y) ← getVariable objects jacCol x p3 1
    let (p4xCol, p4x) ← getVariable objects jacCol x p4 0
    let (p4yCol, p4y) ← getVariable objects jacCol x p4 1
    let g := setGrad grad p1xCol (p3x - p4x)
    let g := setGrad g p1yCol (p3y - p4y)
    let g := setGrad g p2xCol (p4x - p3x)
    let g := setGrad g p2yCol (p4y - p3y)
    let g := setGrad g p3xCol (p1x - p2x)
    let g := setGrad g p3yCol (p1y - p2y)
    let g := setGrad g p4xCol (p2x - p1x)
    let g := setGrad g p4yCol (p2y - p1y)
    pure g
  | .dist p1 p2 _ => do
    let (p1xCol, p1x) ← getVariable objects jacCol x p1 0
    let (p1yCol, p1y) ← getVariable objects jacCol x p1 1
    let (p2xCol, p2x) ← getVariable objects jacCol x p2 0
    let (p2yCol, p2y) ← getVariable objects jacCol x p2 1
    let g := setGrad grad p1xCol (-2 * (p2x - p1x))
    let g := setGrad g p1yCol (-2 * (p2y - p1y))
    let g := setGrad g p2xCol (2 * (p2x - p1x))
    let g := setGrad g p2yCol (2 * (p2y - p1y))
    pure g
  | .horiz p1 p2 => do
    let (p1yCol, _) ← getVariable objects jacCol x p1 1
    let (p2yCol, _) ← getVariable objects jacCol x p2 1
    let g := setGrad grad p1yCol 1
    let g := setGrad g p2yCol (-1)
    pure g
  | .vert p1 p2 => do
    let (p1xCol, _) ← getVariable objects jacCol x p1 0
    let (p2xCol, _) ← getVariable objects jacCol x p2 0
    let g := setGrad grad p1xCol 1
    let g := setGrad g p2xCol (-1)
    pure g
  | .coincX p1 p2 => do
    let (p1xCol, _) ← getVariable objects jacCol x p1 0
    let (p1yCol, _) ← getVariable objects jacCol x p1 1
    let (p2xCol, _) ← getVariable objects jacCol x p2 0
    let (p2yCol, _) ← getVariable objects jacCol x p2 1
    let g := setGrad grad p1xCol 1
    let g := setGrad g p1yCol 0
    let g := setGrad g p2xCol (-1)
    let g := setGrad g p2yCol 0
    pure g
  | .coincY p1 p2 => do
    let (p1xCol, _) ← getVariable objects jacCol x p1 0
    let (p1yCol, _) ← getVariable objects jacCol x p1 1
    let (p2xCol, _) ← getVariable objects jacCol x p2 0
    let (p2yCol, _) ← getVariable objects jacCol x p2 1
    let g := setGrad grad p1xCol 0
    let g := setGrad g p1yCol 1
    let g := setGrad g p2xCol 0
    let g := setGrad g p2yCol (-1)
    pure g
  | .coincPL a1 a2 p => do
    let (a1xCol, a1x) ← getVariable objects jacCol x a1 0
    let (a1yCol, a1y) ← getVariable objects jacCol x a1 1
    let (a2xCol, a2x) ← getVariable objects jacCol x a2 0
    let (a2yCol, a2y) ← getVariable objects jacCol x a2 1
    let (pxCol, px) ← getVariable objects jacCol x p 0
    let (pyCol, py) ← getVariable objects jacCol x p 1
    let g := setGrad grad a1xCol (a1y - py)
    let g := setGrad g a1yCol (a2y - a1y)
    let g := setGrad g a2xCol (py - a1y)
    let g := setGrad g a2yCol (a1x - px)
    let g := setGrad g pxCol (a1y - a2y)
    let g := setGrad g pyCol (a2x - a1x)
    pure g

/-- One constraint of the `for (const cons of constraints)` walk: the
`addVariable` calls followed by the `consFns` / `jacFns` pushes, with the
exact `continue` guards of the source. -/
def processConstraint (objects : ObjectMap) (acc : SolverBuild × List SolverEq) (cons : Constraint) : SolverBuild × List SolverEq :=
  let b := acc.1
  let eqs := acc.2
  match cons with
  | .perpendicular line1 line2 =>
    match lookupObject objects line1, lookupObject objects line2 with
    | some line1Obj, some line2Obj =>
      match line1Obj.data, line2Obj.data with
      | .line p1 p2, .line p3 p4 =>
        let b := addVariable objects b p1 0
        let b := addVariable objects b p1 1
        let b := addVariable objects b p2 0
        let b := addVariable objects b p2 1
        let b := addVariable objects b p3 0
        let b := addVariable objects b p3 1
        let b := addVariable objects b p4 0
        let b := addVariable objects b p4 1
        (b, eqs ++ [.perp p1 p2 p3 p4])
      | _, _ => (b, eqs)
    | _, _ => (b, eqs)
  | .parallel _ _ => (b, eqs)
  | .distance d o1 o2 =>
    match lookupObject objects o1 with
    | none => (b, eqs)
    | some obj1 =>
      let obj2 : Option CanvasObject :=
        match o2 with
        | some j => lookupObject objects j
        | none => none
      let isLine1 : Bool :=
        match obj1.data with
        | .line _ _ => true
        | _ => false
      if obj2.isNone && !isLine1 then (b, eqs)
      else if (match obj2 with
               | some o => !(pointLikeObject obj1.data && pointLikeObject o.data)
               | none => false) then (b, eqs)
      else
        let p1 : ObjectID :=
          match obj1.data with
          | .line q _ => q
          | _ => obj1.id
        let p2 : ObjectID :=
          match obj1.data with
          | .line _ q => q
          | _ =>
            match obj2 with
            | some o => o.id
            | none => -1
        let b := addVariable objects b p1 0
        let b := addVariable objects b p1 1
        let b := addVariable objects b p2 0
        let b := addVariable objects b p2 1
        (b, eqs ++ [.dist p1 p2 d])
  | .horizontal o =>
    match lookupObject objects o with
    | some obj =>
      match obj.data with
      | .line p1 p2 =>
        let b := addVariable objects b p1 1
        let b := addVariable objects b p2 1
        (b, eqs ++ [.horiz p1 p2])
      | _ => (b, eqs)
    | none => (b, eqs)
  | .vertical o =>
    match lookupObject objects o with
    | some obj =>
      match obj.data with
      | .line p1 p2 =>
        let b := addVariable objects b p1 0
        let b := addVariable objects b p2 0
        (b, eqs ++ [.vert p1 p2])
      | _ => (b, eqs)
    | none => (b, eqs)
  | .coincident o1 o2 =>
    match lookupObject objects o1, lookupObject objects o2 with
    | some obj1, some obj2 =>
      if pointLikeObject obj1.data && pointLikeObject obj2.data then
        let b := addVariable objects b obj1.id 0
        let b := addVariable objects b obj1.id 1
        let b := addVariable objects b obj2.id 0
        let b := addVariable objects b obj2.id 1
        (b, eqs ++ [.coincX obj1.id obj2.id, .coincY obj1.id obj2.id])
      else
        let pair : Option (CanvasObject × CanvasObject) :=
          match obj1.data, obj2.data with
          | .line _ _, _ => if pointLikeObject obj2.data then some (obj1, obj2) else none
          | _, .line _ _ => if pointLikeObject obj1.data then some (obj2, obj1) else none
          | _, _ => none
        match pair with
        | none => (b, eqs)
        | some (lineObj, pointObj) =>
          match lineObj.data with
          | .line a1 a2 =>
            let p := pointObj.id
            let b := addVariable objects b a1 0
            let b := addVariable objects b a1 1
            let b := addVariable objects b a2 0
            let b := addVariable objects b a2 1
            let b := addVariable objects b p 0
            let b := addVariable objects b p 1
            (b, eqs ++ [.coincPL a1 a2 p])
          | _ => (b, eqs)
    | _, _ => (b, eqs)

def buildSolver (objects : ObjectMap) (constraints : List Constraint) : SolverBuild × List SolverEq :=
  constraints.foldl (processConstraint objects) (⟨[], [], []⟩, [])

def newtonStepE (oracle : SvdOracle) (consFns : List (List ℚ → Except String ℚ)) (jacFns : List (List ℚ → List ℚ → Except String (List ℚ))) (x : List ℚ) : Except String (List ℚ) := do
  let jrows ← jacFns.mapM (fun g => g x (List.replicate x.length 0))
  let frows ← consFns.mapM (fun f => do pure (-(← f x)))
  let sol := oracle jrows frows
  pure (x.mapIdx (fun r xr => xr + sol.getD r 0))

def newtonIterE (oracle : SvdOracle) (consFns : List (List ℚ → Except String ℚ)) (jacFns : List (List ℚ → List ℚ → Except String (List ℚ))) : Nat → List ℚ → Except String (List ℚ)
  | 0, x => .ok x
  | n + 1, x => do newtonIterE oracle consFns jacFns n (← newtonStepE oracle consFns jacFns x)

def newtonSolve (oracle : SvdOracle) (consFns : List (List ℚ → Except String ℚ)) (jacFns : List (List ℚ → List ℚ → Except String (List ℚ))) (x : List ℚ) : Except String (List ℚ) :=
  newtonIterE oracle consFns jacFns 100 x

def setNodePoint (index : Nat) (v : ℚ) (obj : CanvasObject) : CanvasObject :=
  match obj.data with
  | .node point => { obj with data := .node (vecSet point index v) }
  | _ => obj

/-- Run the recorded write-back closures: `obj.point[index] = x[xi]` (the
closure is only ever created for a `Node`, and objects keep their kinds
during the solve, so the write target is a `Node`). -/
def applyWrites (objects : ObjectMap) (writes : List (ObjectID × Nat × Nat)) (x : List ℚ) : ObjectMap :=
  writes.foldl (fun m w => updateAt m w.1 (setNodePoint w.2.1 (x.getD w.2.2 0))) objects

def transformConstraints (oracle : SvdOracle) (objects : ObjectMap) (constraints : List Constraint) : Except String ObjectMap :=
  let be := buildSolver objects constraints
  match newtonSolve oracle (be.2.map (evalResidual objects be.1.jacCol)) (be.2.map (evalJacRow objects be.1.jacCol)) be.1.xInit with
  | .error e => .error e
  | .ok xf => .ok (applyWrites objects be.1.writes xf)

/- ------------------------------------------------------------------ -/
/- Data executor                                                       -/
/- ------------------------------------------------------------------ -/

structure ExecDataResult where
  dataState : DataState
  changed : Bool
  threw : Bool
  deriving DecidableEq, Repr

def executeDataAction (oracle : SvdOracle) (state : DataState) (action : DataAction) : ExecDataResult :=
  match action.body with
  | .addObject m => ⟨{ state with objects := objectAssign state.objects m }, true, false⟩
  | .addConstraint c =>
    let constraints2 := state.constraints ++ [c]
    match transformConstraints oracle state.objects constraints2 with
    | .ok objs => ⟨⟨objs, constraints2⟩, true, false⟩
    | .error _ => ⟨⟨state.objects, constraints2⟩, true, true⟩

/- ------------------------------------------------------------------ -/
/- Tool executor                                                       -/
/- ------------------------------------------------------------------ -/

structure ExecToolResult where
  toolState : ToolState
  changed : Bool
  nextID : ObjectID

/-- Append points / lines to the `Path` stored under key `k`
(`path.points.push(...)` / `path.lines.push(...)` on the object in the
map; a non-`Path` value is left unchanged, which never happens at the call
sites because the object has been matched as a `Path` just before). -/
def pushPath (m : ObjectMap) (k : ObjectID) (newPoints newLines : List ObjectID) : ObjectMap :=
  updateAt m k (fun o =>
    match o.data with
    | .path ps ls => { o with data := .path (ps ++ newPoints) (ls ++ newLines) }
    | _ => o)

/-- `node.point = v` on the object under key `k` (guarded on `Node` as in
the source's `if (nextPoint && nextPoint.kind === ObjectKind.Node)`). -/
def setNodeAt (m : ObjectMap) (k : ObjectID) (v : Vec2D) : ObjectMap :=
  updateAt m k (fun o =>
    match o.data with
    | .node _ => { o with data := .node v }
    | _ => o)

def executeToolAction (toolState : ToolState) (action : ToolAction) (nid : ObjectID) : ExecToolResult :=
  match action with
  | .addNode _ =>
    match toolState.tool with
    | .pen tempObjectMap tempObjectID nextObjectID =>
      match lookupObject tempObjectMap tempObjectID with
      | some tempObject =>
        match tempObject.data with
        | .path _ _ =>
          match lookupObject tempObjectMap nextObjectID with
          | some nextObj =>
            match nextObj.data with
            | .path nextPoints nextLines =>
              match nextPoints.getLast? with
              | none => ⟨toolState, false, nid⟩
              | some lastPointID =>
                let m1 := pushPath tempObjectMap tempObjectID [lastPointID] []
                let m2 :=
                  match nextLines.getLast? with
                  | some lastLineID => pushPath m1 tempObjectID [] [lastLineID]
                  | none => m1
                let nextPoint : CanvasObject :=
                  ⟨nid + 1, false, .node (transformViewportToData toolState toolState.mousePoint)⟩
                let nextLine : CanvasObject :=
                  ⟨nid + 2, false, .line lastPointID (nid + 1)⟩
                let m3 := setObject (setObject m2 nextPoint.id nextPoint) nextLine.id nextLine
                let m4 := pushPath m3 nextObjectID [nextPoint.id] [nextLine.id]
                ⟨{ toolState with tool := .pen m4 tempObjectID nextObjectID }, true, nid + 2⟩
            | _ => ⟨toolState, false, nid⟩
          | none => ⟨toolState, false, nid⟩
        | _ => ⟨toolState, false, nid⟩
      | none => ⟨toolState, false, nid⟩
    | _ => ⟨toolState, false, nid⟩
  | .updateNextNode point =>
    match toolState.tool with
    | .pen tempObjectMap tempObjectID nextObjectID =>
      match lookupObject tempObjectMap nextObjectID with
      | some nextObj =>
        match nextObj.data with
        | .path nextPoints _ =>
          match nextPoints.getLast? with
          | none => ⟨toolState, false, nid⟩
          | some lastID =>
            let m2 := setNodeAt tempObjectMap lastID (transformViewportToData toolState point)
            ⟨{ toolState with tool := .pen m2 tempObjectID nextObjectID }, true, nid⟩
        | _ => ⟨toolState, false, nid⟩
      | none => ⟨toolState, false, nid⟩
    | _ => ⟨toolState, false, nid⟩
  | .selectTool tk =>
    if toolState.tool.kind = tk then ⟨toolState, false, nid⟩
    else
      match tk with
      | .pen =>
        let pathObj : CanvasObject := ⟨nid + 1, false, .path [] []⟩
        let nextNode : CanvasObject :=
          ⟨nid + 2, false, .node (transformViewportToData toolState toolState.mousePoint)⟩
        let nextPath : CanvasObject := ⟨nid + 3, false, .path [nextNode.id] []⟩
        ⟨{ toolState with
            tool := .pen [(pathObj.id, pathObj), (nextNode.id, nextNode), (nextPath.id, nextPath)]
                     pathObj.id nextPath.id }, true, nid + 3⟩
      | .selector => ⟨{ toolState with tool := .selector [] }, true, nid⟩
      | .text =>
        let nextNode : CanvasObject :=
          ⟨nid + 1, false, .node (transformViewportToData toolState toolState.mousePoint)⟩
        let nextText : CanvasObject := ⟨nid + 2, false, .text nextNode.id ""⟩
        ⟨{ toolState with
            tool := .text [(nextNode.id, nextNode), (nextText.id, nextText)] nextText.id },
          true, nid + 2⟩
  | .resizeView w h =>
    ⟨{ toolState with
        viewBox := { toolState.viewBox with
          width := w / toolState.scale, height := h / toolState.scale } }, true, nid⟩
  | .setViewOffset o =>
    ⟨{ toolState with viewBox := { toolState.viewBox with offset := o } }, true, nid⟩
  | .startPan p =>
    ⟨{ toolState with pan := .panning (transformViewportToSVG toolState p) }, true, nid⟩
  | .stopPan => ⟨{ toolState with pan := .idle }, true, nid⟩
  | .updatePan =>
    match toolState.pan with
    | .panning start =>
      ⟨{ toolState with
          viewBox := { toolState.viewBox with
            offset := (start.1 - toolState.mousePoint.1, start.2 - toolState.mousePoint.2) } },
        true, nid⟩
    | .idle => ⟨toolState, false, nid⟩
  | .updateNextText body point =>
    match toolState.tool with
    | .text tempObjectMap nextObjectID =>
      match lookupObject tempObjectMap nextObjectID with
      | some textObj =>
        match textObj.data with
        | .text anchorID _ =>
          match lookupObject tempObjectMap anchorID with
          | some pointObj =>
            match pointObj.data with
            | .node _ =>
              let m1 := updateAt tempObjectMap nextObjectID (fun o =>
                match o.data with
                | .text a _ => { o with data := .text a body }
                | _ => o)
              let m2 := setNodeAt m1 anchorID (transformViewportToData toolState point)
              ⟨{ toolState with tool := .text m2 nextObjectID }, true, nid⟩
            | _ => ⟨toolState, false, nid⟩
          | none => ⟨toolState, false, nid⟩
        | _ => ⟨toolState, false, nid⟩
      | none => ⟨toolState, false, nid⟩
    | _ => ⟨toolState, false, nid⟩
  | .updateMousePoint p => ⟨{ toolState with mousePoint := p }, true, nid⟩
  | .addHistory a =>
    ⟨{ toolState with history := appendHistory toolState.history a }, true, nid⟩
  | .selectObject oid =>
    match toolState.tool with
    | .selector sel =>
      ⟨{ toolState with tool := .selector (if oid ∈ sel then sel else sel ++ [oid]) }, true, nid⟩
    | _ => ⟨toolState, false, nid⟩
  | .deselectObject oid =>
    match toolState.tool with
    | .selector sel =>
      if oid ∈ sel then
        ⟨{ toolState with tool := .selector (sel.filter (fun j => decide (j ≠ oid))) }, true, nid⟩
      else ⟨toolState, false, nid⟩
    | _ => ⟨toolState, false, nid⟩

/- ------------------------------------------------------------------ -/
/- Event → action translator (`generateAction`)                        -/
/- ------------------------------------------------------------------ -/

/-- The Selector's first-hit scan over `Object.values(dataState.objects)`.
The hit point is constant across the loop, so it is passed in once. -/
def hitScanAux (objects : ObjectMap) (hitPoint : Vec2D) : List (ObjectID × CanvasObject) → Option ObjectID
  | [] => none
  | (_, obj) :: rest =>
    match obj.data with
    | .node p =>
      if hitNode p 15 hitPoint then some obj.id else hitScanAux objects hitPoint rest
    | .fixedNode p =>
      if hitNode p 15 hitPoint then some obj.id else hitScanAux objects hitPoint rest
    | .line point1 point2 =>
      match lookupObject objects point1, lookupObject objects point2 with
      | some o1, some o2 =>
        match o1.data, o2.data with
        | .node p1, .node p2 =>
          if hitLineSegment p1 p2 10 hitPoint then some obj.id
          else hitScanAux objects hitPoint rest
        | _, _ => hitScanAux objects hitPoint rest
      | _, _ => hitScanAux objects hitPoint rest
    | _ => hitScanAux objects hitPoint rest

/-- Result of `generateAction`.  Besides the two action lists this carries
the tool state (mutated in place by the Pen-commit branch), the id counter
(advanced by `generateID()` calls), and the `console.log` diagnostics. -/
structure GenResult where
  toolActions : List ToolAction
  dataActions : List DataAction
  toolState : ToolState
  nextID : ObjectID
  log : List String

def generateAction (toolState : ToolState) (dataState : DataState) (event : Event) (nid : ObjectID) : GenResult :=
  let base : GenResult := ⟨[], [], toolState, nid, []⟩
  let g :=
    match event with
    | .mouseMove point =>
      let tas := [ToolAction.updateMousePoint point]
      let tas := tas ++
        (match toolState.pan with
         | .panning _ => [ToolAction.updatePan]
         | .idle => [])
      let tas := tas ++
        (match toolState.tool with
         | .pen _ _ _ => [ToolAction.updateNextNode point]
         | .text tempObjectMap nextObjectID =>
           match lookupObject tempObjectMap nextObjectID with
           | some textObj =>
             match textObj.data with
             | .text _ body => [ToolAction.updateNextText body point]
             | _ => []
           | none => []
         | .selector _ => [])
      { base with toolActions := tas }
    | .mouseDown ctrl button point =>
      if button = Button.secondary then
        match toolState.pan with
        | .idle => { base with toolActions := [ToolAction.startPan point] }
        | .panning _ => base
      else
        match toolState.tool with
        | .selector sel =>
          let hitPoint := transformViewportToData toolState point
          let hitObjID := hitScanAux dataState.objects hitPoint dataState.objects
          if ctrl then
            match hitObjID with
            | some oid => { base with toolActions := [ToolAction.deselectObject oid] }
            | none => base
          else
            match hitObjID with
            | some oid => { base with toolActions := [ToolAction.selectObject oid] }
            | none =>
              { base with toolActions := sel.map (fun oid => ToolAction.deselectObject oid) }
        | .pen _ _ _ => { base with toolActions := [ToolAction.addNode point] }
        | .text tempObjectMap _ =>
          { base with
            toolActions := [ToolAction.selectTool .selector],
            dataActions := [⟨nid + 1, .addObject tempObjectMap⟩],
            nextID := nid + 1 }
    | .mouseUp _ button _ =>
      if button = Button.secondary then
        match toolState.pan with
        | .panning _ => { base with toolActions := [ToolAction.stopPan] }
        | .idle => base
      else base
    | .keyDown key =>
      if key = "p" then { base with toolActions := [ToolAction.selectTool .pen] }
      else if key = "s" then { base with toolActions := [ToolAction.selectTool .selector] }
      else if key = "Enter" then
        match toolState.tool with
        | .pen tempObjectMap tempObjectID nextObjectID =>
          -- "Kind of a hack to do it here and mutate the object":
          -- filterObjectMap mutates the tool state's scratch map in place,
          -- and the emitted data action aliases the same (pruned) map.
          let pruned := filterObjectMap tempObjectMap [tempObjectID]
          { base with
            toolActions := [ToolAction.selectTool .selector],
            dataActions := [⟨nid + 1, .addObject pruned⟩],
            toolState := { toolState with tool := .pen pruned tempObjectID nextObjectID },
            nextID := nid + 1 }
        | _ => base
      else base
    | .keyUp _ => base
    | .resizeView w h => { base with toolActions := [ToolAction.resizeView w h] }
    | .scaleView _ => base
    | .setViewOffset o => { base with toolActions := [ToolAction.setViewOffset o] }
    | .selectTextTool => { base with toolActions := [ToolAction.selectTool .text] }
    | .setTextValue s =>
      { base with toolActions := [ToolAction.updateNextText s toolState.mousePoint] }
    | .addPerpendicularConstraint =>
      match toolState.tool with
      | .selector sel =>
        if sel.length ≠ 2 then
          { base with log := ["must select 2 objects to add constraints"] }
        else
          { base with
            dataActions :=
              [⟨nid + 1, .addConstraint (.perpendicular (sel.getD 0 0) (sel.getD 1 0))⟩],
            nextID := nid + 1 }
      | _ => base
    | .addCoincidentConstraint =>
      match toolState.tool with
      | .selector sel =>
        if sel.length ≠ 2 then
          { base with log := ["must select 2 objects to add constraints"] }
        else
          { base with
            dataActions :=
              [⟨nid + 1, .addConstraint (.coincident (sel.getD 0 0) (sel.getD 1 0))⟩],
            nextID := nid + 1 }
      | _ => base
    | .addHorizontalConstraint =>
      match toolState.tool with
      | .selector sel =>
        if sel.length ≠ 1 then
          { base with log := ["must select 1 object for the horizontal constraint"] }
        else
          { base with
            dataActions := [⟨nid + 1, .addConstraint (.horizontal (sel.getD 0 0))⟩],
            nextID := nid + 1 }
      | _ => base
    | .addVerticalConstraint =>
      match toolState.tool with
      | .selector sel =>
        if sel.length ≠ 1 then
          { base with log := ["must select 1 object for the vertical constraint"] }
        else
          { base with
            dataActions := [⟨nid + 1, .addConstraint (.vertical (sel.getD 0 0))⟩],
            nextID := nid + 1 }
      | _ => base
    | .addDistanceConstraint d =>
      match toolState.tool with
      | .selector sel =>
        if sel.length ≠ 1 ∧ sel.length ≠ 2 then
          { base with log := ["must select 1 line, or two points"] }
        else
          { base with
            dataActions :=
              [⟨nid + 1, .addConstraint (.distance d (sel.getD 0 0) (sel.get? 1))⟩],
            nextID := nid + 1 }
      | _ => base
    | .addObject guide objData =>
      let obj : CanvasObject := ⟨nid + 1, guide, objData⟩
      { base with
        dataActions := [⟨nid + 2, .addObject [(obj.id, obj)]⟩],
        nextID := nid + 2 }
  { g with toolActions := g.toolActions ++ g.dataActions.map (fun a => ToolAction.addHistory a) }

/- ------------------------------------------------------------------ -/
/- The Drawing façade                                                  -/
/- ------------------------------------------------------------------ -/

structure DrawingState where
  toolState : ToolState
  dataState : DataState
  nextID : ObjectID

structure SendResult where
  state : DrawingState
  notified : Bool
  threw : Bool

def execToolActions (ts : ToolState) (nid : ObjectID) (actions : List ToolAction) : ToolState × Bool × ObjectID :=
  actions.foldl
    (fun (acc : ToolState × Bool × ObjectID) a =>
      let r := executeToolAction acc.1 a acc.2.2
      (r.toolState, acc.2.1 || r.changed, r.nextID))
    (ts, false, nid)

/-- Executes the data actions in order; a thrown exception skips the rest
of the list (it unwinds out of `sendEvent`). -/
def execDataActions (oracle : SvdOracle) (ds : DataState) (actions : List DataAction) : DataState × Bool × Bool :=
  actions.foldl
    (fun (acc : DataState × Bool × Bool) a =>
      if acc.2.2 then acc
      else
        let r := executeDataAction oracle acc.1 a
        (r.dataState, acc.2.1 || r.changed, r.threw))
    (ds, false, false)

def sendEvent (oracle : SvdOracle) (s : DrawingState) (event : Event) : SendResult :=
  let g := generateAction s.toolState s.dataState event s.nextID
  let tr := execToolActions g.toolState g.nextID g.toolActions
  let dr := execDataActions oracle s.dataState g.dataActions
  ⟨⟨tr.1, dr.1, tr.2.2⟩, (tr.2.1 || dr.2.1) && !dr.2.2, dr.2.2⟩

def initialToolState : ToolState :=
  { tool := .selector [],
    history := ⟨none, none⟩,
    mousePoint := (0, 0),
    viewBox := ⟨(0, 0), 0, 0⟩,
    dataOrigin := (0, 0),
    scale := 1,
    pan := .idle }

def initialDataState : DataState := ⟨[], []⟩

def initialDrawingState : DrawingState := ⟨initialToolState, initialDataState, 0⟩

inductive Reachable (oracle : SvdOracle) : DrawingState → Prop where
  | init : Reachable oracle initialDrawingState
  | step {s : DrawingState} (e : Event) :
      Reachable oracle s → Reachable oracle (sendEvent oracle s e).state

/-- Events whose `AddObject` payload is not a bare `Line` (a `Line` payload
can reference arbitrary, possibly nonexistent endpoints). -/
def goodEvent : Event → Prop
  | .addObject _ (.line _ _) => False
  | _ => True

inductive GoodReachable (oracle : SvdOracle) : DrawingState → Prop where
  | init : GoodReachable oracle initialDrawingState
  | step {s : DrawingState} (e : Event) :
      goodEvent e → GoodReachable oracle s → GoodReachable oracle (sendEvent oracle s e).state

/-- A concrete SVD backend used to instantiate reachability statements. -/
def oracle0 : SvdOracle := fun _ _ => []

/- ------------------------------------------------------------------ -/
/- C7 : hit test on a line segment                                     -/
/- ------------------------------------------------------------------ -/

def segNormSq (a b : Vec2D) : ℚ := vecDot (vecSub b a) (vecSub b a)

/-- Unnormalised projection parameter `(q − a) · (b − a)`. -/
def projParam (a b q : Vec2D) : ℚ := vecDot (vecSub q a) (vecSub b a)

def distSq (p q : Vec2D) : ℚ := vecDot (vecSub p q) (vecSub p q)

/-- The perpendicular projection of `q` onto the infinite line through
`a` and `b`. -/
def projectionPoint (a b q : Vec2D) : Vec2D :=
  let t := projParam a b q / segNormSq a b
  (a.1 + t * (b.1 - a.1), a.2 + t * (b.2 - a.2))

/-- C7 as written in the spec: the projection of `q` lands within the
closed segment extended by `tol` on either end, and the perpendicular
distance from `q` to the line is at most `tol`; degenerate segments never
hit. -/
def specHitSegment (a b : Vec2D) (tol : ℚ) (q : Vec2D) : Prop :=
  ¬ (segNormSq a b < 1 / 100) ∧
  (projParam a b q ≥ 0 ∨ distSq (projectionPoint a b q) a ≤ tol * tol) ∧
  (projParam a b q ≤ segNormSq a b ∨ distSq (projectionPoint a b q) b ≤ tol * tol) ∧
  distSq q (projectionPoint a b q) ≤ tol * tol

/-- What the code actually implements: the same predicate but with the
extension checks strict (a projection landing exactly `tol` beyond an
endpoint does not hit). -/
def specHitSegmentStrict (a b : Vec2D) (tol : ℚ) (q : Vec2D) : Prop :=
  ¬ (segNormSq a b < 1 / 100) ∧
  (projParam a b q > 0 ∨ distSq (projectionPoint a b q) a < tol * tol) ∧
  (projParam a b q < segNormSq a b ∨ distSq (projectionPoint a b q) b < tol * tol) ∧
  distSq q (projectionPoint a b q) ≤ tol * tol

/- ------------------------------------------------------------------ -/
/- C2 : newtonSolve performs exactly 100 iterations                    -/
/- ------------------------------------------------------------------ -/

def liftResidual (f : List ℚ → ℚ) : List ℚ → Except String ℚ :=
  fun x => .ok (f x)

def liftJacRow (g : List ℚ → List ℚ → List ℚ) : List ℚ → List ℚ → Except String (List ℚ) :=
  fun x grad => .ok (g x grad)

/-- One damped-Newton step on total closures:
`x ← x + pseudoInverse(J(x)) · (−F(x))`, with the Jacobian rows evaluated
against a pre-zeroed row of width `|x|` and the linear solve delegated to
the SVD backend. -/
def newtonStepT (oracle : SvdOracle) (fs : List (List ℚ → ℚ)) (gs : List (List ℚ → List ℚ → List ℚ)) (x : List ℚ) : List ℚ :=
  let jrows := gs.map (fun g => g x (List.replicate x.length 0))
  let frows := fs.map (fun f => -(f x))
  let sol := oracle jrows frows
  x.mapIdx (fun r xr => xr + sol.getD r 0)

/- ------------------------------------------------------------------ -/
/- C3 : generateAction purity                                          -/
/- ------------------------------------------------------------------ -/

/-- A Pen tool state mid-stroke: committing path `1` (still empty), live
sub-path `3` holding the rubber-band node `2`. -/
def penToolStateCE : ToolState :=
  { tool := .pen
      [(1, ⟨1, false, .path [] []⟩),
       (2, ⟨2, false, .node (0, 0)⟩),
       (3, ⟨3, false, .path [2] []⟩)]
      1 3,
    history := ⟨none, none⟩,
    mousePoint := (0, 0),
    viewBox := ⟨(0, 0), 0, 0⟩,
    dataOrigin := (0, 0),
    scale := 1,
    pan := .idle }

/-- The Pen-commit branch: `KeyDown('Enter')` while the Pen tool is
active. -/
def penCommitEvent (ts : ToolState) (e : Event) : Prop :=
  e = .keyDown "Enter" ∧ ts.tool.kind = .pen

/- ------------------------------------------------------------------ -/
/- C1 : the solver mutates only Node coordinates                       -/
/- ------------------------------------------------------------------ -/

/-- Same object "shape": both are `Node`s (coordinates free to differ), or
the data is identical (same kind, same reference fields, same fixed
coordinates). -/
def dataShapeEq : CanvasObjectData → CanvasObjectData → Prop
  | .node _, .node _ => True
  | d1, d2 => d1 = d2

/-- The endpoints of the object stored at `lid`, when it is a `Line`. -/
def linePointIDs (objects : ObjectMap) (lid : ObjectID) : List ObjectID :=
  match lookupObject objects lid with
  | some obj =>
    match obj.data with
    | .line p1 p2 => [p1, p2]
    | _ => []
  | none => []

/-- The `id` field of the object an operand resolves to (the solver keys
point-like operands by the resolved object's own id). -/
def resolvedPointID (objects : ObjectMap) (oid : ObjectID) : List ObjectID :=
  match lookupObject objects oid with
  | some obj => [obj.id]
  | none => []

/-- The point-like objects a constraint can reference, per §4.8.1 of the
spec: for each operand, the operand's resolved id (for point operands) and
the endpoints of resolved `Line` operands. -/
def constraintPointIDs (objects : ObjectMap) : Constraint → List ObjectID
  | .perpendicular l1 l2 => linePointIDs objects l1 ++ linePointIDs objects l2
  | .parallel _ _ => []
  | .coincident o1 o2 =>
      resolvedPointID objects o1 ++ resolvedPointID objects o2 ++
        linePointIDs objects o1 ++ linePointIDs objects o2
  | .horizontal o => linePointIDs objects o
  | .vertical o => linePointIDs objects o
  | .distance _ o1 o2 =>
      resolvedPointID objects o1 ++
        (match o2 with
         | some j => resolvedPointID objects j
         | none => []) ++
        linePointIDs objects o1

/- ------------------------------------------------------------------ -/
/- Reachability invariant: definitions                                 -/
/- ------------------------------------------------------------------ -/

def keysNodup (m : ObjectMap) : Prop := (m.map Prod.fst).Nodup

def coherent (m : ObjectMap) : Prop :=
  ∀ e ∈ m, ((e : ObjectID × CanvasObject).2.id = e.1)

def keysLE (m : ObjectMap) (n : ObjectID) : Prop :=
  ∀ e ∈ m, ((e : ObjectID × CanvasObject).1 ≤ n)

def disjointKeys (a b : ObjectMap) : Prop :=
  ∀ e ∈ a, ∀ f ∈ b, ((e : ObjectID × CanvasObject).1 ≠ (f : ObjectID × CanvasObject).1)

def pointlikeExists (m : ObjectMap) (k : ObjectID) : Prop :=
  ∃ obj, lookupObject m k = some obj ∧ pointLikeObject obj.data = true

/-- A selection / constraint operand is sound: it resolves, and it is
either point-like or a `Line` whose endpoints resolve to point-like
objects. -/
def OperandOK (m : ObjectMap) (k : ObjectID) : Prop :=
  ∃ obj, lookupObject m k = some obj ∧
    (pointLikeObject obj.data = true ∨
     ∃ p1 p2, obj.data = .line p1 p2 ∧ pointlikeExists m p1 ∧ pointlikeExists m p2)

def constraintOperandIDs : Constraint → List ObjectID
  | .perpendicular a b => [a, b]
  | .parallel a b => [a, b]
  | .coincident a b => [a, b]
  | .horizontal a => [a]
  | .vertical a => [a]
  | .distance _ a b => a :: b.toList

def isNodeEntry (m : ObjectMap) (k : ObjectID) : Prop :=
  ∃ obj p, lookupObject m k = some obj ∧ obj.data = .node p

/-- Shape of a live Pen scratch map: the committing path under `tid` holds
all but the rubber-band point/line of the live sub-path under `nxt`; the
sub-path's points are `Node`s and its `i`-th line joins points `i` and
`i+1`. -/
def PenShape (m : ObjectMap) (tid nxt : ObjectID) : Prop :=
  tid ≠ nxt ∧
  ∃ oc onx pn ln,
    lookupObject m nxt = some onx ∧ onx.data = .path pn ln ∧ pn ≠ [] ∧
    lookupObject m tid = some oc ∧ oc.data = .path pn.dropLast ln.dropLast ∧
    ln.length + 1 = pn.length ∧
    (∀ p ∈ pn, isNodeEntry m p) ∧
    (∀ i, i < ln.length → ∃ lo, lookupObject m (ln.getD i 0) = some lo ∧
        lo.data = .line (pn.getD i 0) (pn.getD (i + 1) 0))

def noLines (m : ObjectMap) : Prop :=
  ∀ e ∈ m, ∀ a b, ((e : ObjectID × CanvasObject).2.data ≠ .line a b)

def TempOK (m objects : ObjectMap) (n : ObjectID) : Prop :=
  coherent m ∧ keysNodup m ∧ keysLE m n ∧ disjointKeys m objects

def ToolOK (t : Tool) (objects : ObjectMap) (n : ObjectID) : Prop :=
  match t with
  | .selector sel => ∀ i ∈ sel, OperandOK objects i
  | .pen m tid nxt => TempOK m objects n ∧ PenShape m tid nxt
  | .text m _ => TempOK m objects n ∧ noLines m

structure KernelInv (s : DrawingState) : Prop where
  objNodup : keysNodup s.dataState.objects
  objCoherent : coherent s.dataState.objects
  objBounded : keysLE s.dataState.objects s.nextID
  consOK : ∀ c ∈ s.dataState.constraints, ∀ i ∈ constraintOperandIDs c,
      OperandOK s.dataState.objects i
  toolOK : ToolOK s.toolState.tool s.dataState.objects s.nextID

/-- The referential invariant of §8.1: every `Line`'s endpoints resolve to
`Node` or `FixedNode` objects. -/
def LineInv (m : ObjectMap) : Prop :=
  ∀ e ∈ m, ∀ p1 p2, (e : ObjectID × CanvasObject).2.data = .line p1 p2 →
    pointlikeExists m p1 ∧ pointlikeExists m p2

/- ------------------------------------------------------------------ -/
/- The solver never reaches its throwing branches on sound inputs      -/
/- ------------------------------------------------------------------ -/

/-- The variable `(oid, axis)` can be looked up without throwing: the
object exists and is either fixed or present in the variable table. -/
def VarOK (objects : ObjectMap) (jacCol : List (ObjectID × Nat)) (oid : ObjectID) (axis : Nat) : Prop :=
  ∃ obj, lookupObject objects oid = some obj ∧
    ((∃ p, obj.data = .fixedNode p) ∨ (oid, axis) ∈ jacCol)

/-- All variables an equation descriptor ever queries (the Jacobian row
queries a superset of the residual's). -/
def eqVars : SolverEq → List (ObjectID × Nat)
  | .perp p1 p2 p3 p4 => [(p1, 0), (p1, 1), (p2, 0), (p2, 1), (p3, 0), (p3, 1), (p4, 0), (p4, 1)]
  | .dist p1 p2 _ => [(p1, 0), (p1, 1), (p2, 0), (p2, 1)]
  | .horiz p1 p2 => [(p1, 1), (p2, 1)]
  | .vert p1 p2 => [(p1, 0), (p2, 0)]
  | .coincX p1 p2 => [(p1, 0), (p1, 1), (p2, 0), (p2, 1)]
  | .coincY p1 p2 => [(p1, 0), (p1, 1), (p2, 0), (p2, 1)]
  | .coincPL a1 a2 p => [(a1, 0), (a1, 1), (a2, 0), (a2, 1), (p, 0), (p, 1)]

/-- A chain of `addVariable` calls, written as a fold so that one lemma
covers each constraint case's literal call sequence. -/
def addVars (objects : ObjectMap) (b : SolverBuild) (pairs : List (ObjectID × Nat)) : SolverBuild :=
  pairs.foldl (fun b pr => addVariable objects b pr.1 pr.2) b

/- ------------------------------------------------------------------ -/
/- Tool-action preservation of the tool invariant                      -/
/- ------------------------------------------------------------------ -/

def toolStep (acc : ToolState × Bool × ObjectID) (a : ToolAction) : ToolState × Bool × ObjectID :=
  let r := executeToolAction acc.1 a acc.2.2
  (r.toolState, acc.2.1 || r.changed, r.nextID)

/-- Executing the action preserves the tool invariant and never decreases
the id counter. -/
def StepOK (objects : ObjectMap) (a : ToolAction) : Prop :=
  ∀ (ts : ToolState) (n : ObjectID), ToolOK ts.tool objects n → keysLE objects n →
    ToolOK (executeToolAction ts a n).toolState.tool objects (executeToolAction ts a n).nextID ∧
    n ≤ (executeToolAction ts a n).nextID

/-- Tool actions that preserve the tool invariant for every object map
(every action except `SelectObject`, which additionally needs its operand
to be sound). -/
def alwaysSafe : ToolAction → Prop
  | .selectObject _ => False
  | _ => True

/- ------------------------------------------------------------------ -/
/- Theorems                                                            -/
/- ------------------------------------------------------------------ -/

/- ------------------------------------------------------------------ -/
/- Association-map lemmas                                              -/
/- ------------------------------------------------------------------ -/

theorem lookupObject_append (m1 m2 : ObjectMap) (k : ObjectID) :
    lookupObject (m1 ++ m2) k =
      (match lookupObject m1 k with
       | some v => some v
       | none => lookupObject m2 k) := by
  induction m1 with
  | nil => simp [lookupObject]
  | cons e rest ih =>
    by_cases h : e.1 = k <;> simp [lookupObject, h, ih]

theorem lookupObject_updateAt (m : ObjectMap) (k : ObjectID) (f : CanvasObject → CanvasObject) (j : ObjectID) :
    lookupObject (updateAt m k f) j =
      if j = k then (lookupObject m j).map f else lookupObject m j := by
  induction m with
  | nil => simp [lookupObject, updateAt]
  | cons e rest ih =>
    simp only [updateAt, List.map_cons] at ih ⊢
    by_cases h1 : e.1 = k
    · by_cases h2 : e.1 = j
      · subst h1; subst h2; simp [lookupObject]
      · have hjk : ¬ (e.1 = j) := h2
        simp only [if_pos h1, lookupObject, if_neg hjk, ih]
    · by_cases h2 : e.1 = j
      · subst h2
        have hne : ¬ (e.1 = k) := h1
        simp [lookupObject, if_neg h1, hne]
      · simp [lookupObject, if_neg h1, h2, ih]

theorem updateAt_keys (m : ObjectMap) (k : ObjectID) (f : CanvasObject → CanvasObject) :
    (updateAt m k f).map Prod.fst = m.map Prod.fst := by
  induction m with
  | nil => rfl
  | cons e rest ih =>
    simp only [updateAt, List.map_cons] at ih ⊢
    by_cases h : e.1 = k
    · simp only [if_pos h, List.map_cons, ih]
    · simp only [if_neg h, List.map_cons, ih]

theorem lookupObject_setObject (m : ObjectMap) (k : ObjectID) (v : CanvasObject) (j : ObjectID) :
    lookupObject (setObject m k v) j = if j = k then some v else lookupObject m j := by
  induction m with
  | nil =>
    by_cases h : j = k
    · simp [setObject, lookupObject, h]
    · have : ¬ (k = j) := fun hh => h hh.symm
      simp [setObject, lookupObject, h, this]
  | cons e rest ih =>
    by_cases h1 : e.1 = k
    · subst h1
      by_cases h2 : e.1 = j
      · subst h2; simp [setObject, lookupObject]
      · have hj : ¬ (j = e.1) := fun hh => h2 hh.symm
        simp [setObject, lookupObject, h2, hj]
    · simp only [setObject, if_neg h1]
      by_cases h2 : e.1 = j
      · subst h2
        have hj : ¬ (e.1 = k) := h1
        simp [lookupObject, hj]
      · simp [lookupObject, h2, ih]

theorem setObject_absent (m : ObjectMap) (k : ObjectID) (v : CanvasObject)
    (h : ∀ e ∈ m, (e : ObjectID × CanvasObject).1 ≠ k) :
    setObject m k v = m ++ [(k, v)] := by
  induction m with
  | nil => rfl
  | cons e rest ih =>
    have he : e.1 ≠ k := h e (List.mem_cons_self e rest)
    simp only [setObject, if_neg he, List.cons_append, List.cons.injEq, true_and]
    exact ih (fun x hx => h x (List.mem_cons_of_mem e hx))

theorem objectAssign_append (t src : ObjectMap)
    (hnd : (src.map Prod.fst).Nodup)
    (hdis : ∀ e ∈ src, ∀ f ∈ t, (e : ObjectID × CanvasObject).1 ≠ (f : ObjectID × CanvasObject).1) :
    objectAssign t src = t ++ src := by
  induction src generalizing t with
  | nil => simp [objectAssign]
  | cons e rest ih =>
    simp only [List.map_cons, List.nodup_cons] at hnd
    have habs : ∀ f ∈ t, (f : ObjectID × CanvasObject).1 ≠ e.1 := by
      intro f hf
      exact fun hh => (hdis e (List.mem_cons_self e rest) f hf) hh.symm
    have hset : setObject t e.1 e.2 = t ++ [(e.1, e.2)] :=
      setObject_absent t e.1 e.2 habs
    have hdis2 : ∀ x ∈ rest, ∀ f ∈ t ++ [(e.1, e.2)],
        (x : ObjectID × CanvasObject).1 ≠ (f : ObjectID × CanvasObject).1 := by
      intro x hx f hf
      rcases List.mem_append.mp hf with hft | hfe
      · exact hdis x (List.mem_cons_of_mem e hx) f hft
      · have : f = (e.1, e.2) := by simpa using hfe
        subst this
        intro hh
        exact hnd.1 (by
          have := List.mem_map_of_mem Prod.fst hx
          simpa [hh] using this)
    calc objectAssign t (e :: rest)
        = objectAssign (setObject t e.1 e.2) rest := rfl
      _ = (t ++ [(e.1, e.2)]) ++ rest := by rw [hset]; exact ih _ hnd.2 hdis2
      _ = t ++ e :: rest := by simp

/- ------------------------------------------------------------------ -/
/- C8 : coordinate transforms are mutually inverse bijections          -/
/- ------------------------------------------------------------------ -/

/-- C8.  For every tool state and point, `transformSVGToData` and
`transformDataToSVG` are mutually inverse, and svg→data maps `(x, y)` to
`(x − ox, oy − y)` for `dataOrigin = (ox, oy)`. -/
theorem coordinate_transform_inverse (state : ToolState) (p : Vec2D) :
    transformSVGToData state (transformDataToSVG state p) = p ∧
    transformDataToSVG state (transformSVGToData state p) = p ∧
    transformSVGToData state p =
      (p.1 - state.dataOrigin.1, state.dataOrigin.2 - p.2) := by
  refine ⟨?_, ?_, rfl⟩ <;>
    simp [transformSVGToData, transformDataToSVG, Prod.ext_iff]

/- ------------------------------------------------------------------ -/
/- C9 : filterObjectMap is idempotent                                  -/
/- ------------------------------------------------------------------ -/

theorem filterInc_sub (m : ObjectMap) (ids : List ObjectID) :
    ∀ i ∈ ids, i ∈ filterInc m ids := by
  have key : ∀ (l : List ObjectID) (acc : List ObjectID) (i : ObjectID), i ∈ acc → i ∈ l.foldl
      (fun inc i =>
        match lookupObject m i with
        | none => inc
        | some obj =>
          match obj.data with
          | .path points lines => inc ++ points ++ lines
          | _ => inc) acc := by
    intro l
    induction l with
    | nil => intro acc i hi; simpa using hi
    | cons a rest ih =>
      intro acc i hi
      simp only [List.foldl_cons]
      refine ih _ i ?_
      cases hlk : lookupObject m a with
      | none => simp only [hlk]; exact hi
      | some obj =>
        cases hd : obj.data <;> simp only [hlk, hd] <;>
          first
            | exact hi
            | exact List.mem_append_left _ (List.mem_append_left _ hi)
  intro i hi
  exact key ids ids i hi

theorem lookupObject_filter (m : ObjectMap) (inc : List ObjectID) (k : ObjectID) :
    lookupObject (m.filter (fun e => decide (e.1 ∈ inc))) k =
      if k ∈ inc then lookupObject m k else none := by
  induction m with
  | nil => simp [lookupObject]
  | cons e rest ih =>
    by_cases hmem : e.1 ∈ inc
    · by_cases hk : e.1 = k
      · subst hk; simp [List.filter, hmem, lookupObject, ih]
      · simp [List.filter, hmem, lookupObject, hk, ih]
    · by_cases hk : e.1 = k
      · subst hk; simp [List.filter, hmem, lookupObject, ih]
      · simp [List.filter, hmem, lookupObject, hk, ih]

theorem filterInc_filterObjectMap (m : ObjectMap) (ids : List ObjectID) :
    filterInc (filterObjectMap m ids) ids = filterInc m ids := by
  unfold filterInc
  apply List.foldl_ext
  intro acc i hi
  have hlook : lookupObject (filterObjectMap m ids) i = lookupObject m i := by
    have : lookupObject (filterObjectMap m ids) i =
        if i ∈ filterInc m ids then lookupObject m i else none :=
      lookupObject_filter m (filterInc m ids) i
    rw [this, if_pos (filterInc_sub m ids i hi)]
  rw [hlook]

/-- C9.  `filterObjectMap` is idempotent: filtering twice with the same
root ids gives the same map as filtering once. -/
theorem filterObjectMap_idempotent (m : ObjectMap) (ids : List ObjectID) :
    filterObjectMap (filterObjectMap m ids) ids = filterObjectMap m ids := by
  have h1 := filterInc_filterObjectMap m ids
  have h2 : filterObjectMap (filterObjectMap m ids) ids
      = (filterObjectMap m ids).filter
          (fun e => decide (e.1 ∈ filterInc (filterObjectMap m ids) ids)) := rfl
  rw [h2, h1]
  apply List.filter_eq_self.mpr
  intro e he
  have he2 : e ∈ m.filter (fun e => decide (e.1 ∈ filterInc m ids)) := he
  exact (List.mem_filter.mp he2).2

theorem distSq_projection_left (a b q : Vec2D) (h : segNormSq a b ≠ 0) :
    distSq (projectionPoint a b q) a =
      projParam a b q * projParam a b q / segNormSq a b := by
  unfold distSq projectionPoint projParam segNormSq vecDot vecSub at *
  field_simp
  ring

theorem distSq_projection_right (a b q : Vec2D) (h : segNormSq a b ≠ 0) :
    distSq (projectionPoint a b q) b =
      (projParam a b q - segNormSq a b) * (projParam a b q - segNormSq a b) / segNormSq a b := by
  unfold distSq projectionPoint projParam segNormSq vecDot vecSub at *
  field_simp
  ring

theorem distSq_perpendicular (a b q : Vec2D) (h : segNormSq a b ≠ 0) :
    distSq q (projectionPoint a b q) =
      distSq q a - projParam a b q * projParam a b q / segNormSq a b := by
  unfold distSq projectionPoint projParam segNormSq vecDot vecSub at *
  field_simp
  ring

/-- C7, counterexample to the claim as stated: for the segment from
`(0,0)` to `(1,0)` with tolerance `1`, the query point `(−1,0)` projects
exactly `tol` beyond the endpoint `a` (so it lies within the *closed*
extended segment, at perpendicular distance `0`), yet `hitLineSegment`
returns `false`. -/
theorem hitLineSegment_boundary :
    hitLineSegment ((0 : ℚ), (0 : ℚ)) ((1 : ℚ), (0 : ℚ)) 1 ((-1 : ℚ), (0 : ℚ)) = false ∧
    specHitSegment ((0 : ℚ), (0 : ℚ)) ((1 : ℚ), (0 : ℚ)) 1 ((-1 : ℚ), (0 : ℚ)) := by
  constructor
  · simp only [hitLineSegment, vecSub, vecDot]
    norm_num
  · refine ⟨by norm_num [segNormSq, vecSub, vecDot],
      Or.inr (by norm_num [distSq, projectionPoint, projParam, segNormSq, vecSub, vecDot]),
      Or.inl (by norm_num [projParam, segNormSq, vecSub, vecDot]),
      by norm_num [distSq, projectionPoint, projParam, segNormSq, vecSub, vecDot]⟩

/-- C7, amended.  `hitLineSegment a b tol q` returns `true` iff the
perpendicular projection of `q` onto the line through `a`, `b` lands
*strictly* within the segment extended by `tol` on either end (strict at
the two extension boundaries) and the perpendicular distance is at most
`tol`; a degenerate segment (`‖b−a‖² < 10⁻²`) never hits. -/
theorem hitLineSegment_characterisation (a b : Vec2D) (tol : ℚ) (q : Vec2D) :
    (hitLineSegment a b tol q = true ↔ specHitSegmentStrict a b tol q) ∧
    (segNormSq a b < 1 / 100 → hitLineSegment a b tol q = false) := by
  have hproj : vecDot (vecSub q a) (vecSub b a) = projParam a b q := rfl
  have hns : vecDot (vecSub b a) (vecSub b a) = segNormSq a b := rfl
  have hqa : vecDot (vecSub q a) (vecSub q a) = distSq q a := rfl
  constructor
  · unfold hitLineSegment specHitSegmentStrict
    simp only [hproj, hns, hqa]
    by_cases h1 : segNormSq a b < 1 / 100
    · rw [if_pos h1]
      constructor
      · intro hfalse; exact absurd hfalse (by simp)
      · rintro ⟨hc, -, -, -⟩; exact absurd h1 hc
    · have hne : segNormSq a b ≠ 0 := by
        intro h0
        exact h1 (by rw [h0]; norm_num)
      rw [if_neg h1, distSq_projection_left a b q hne, distSq_projection_right a b q hne,
        distSq_perpendicular a b q hne]
      by_cases h2 : projParam a b q ≤ 0 ∧
          projParam a b q * projParam a b q / segNormSq a b ≥ tol * tol
      · rw [if_pos h2]
        constructor
        · intro hfalse; exact absurd hfalse (by simp)
        · rintro ⟨-, hor, -, -⟩
          rcases hor with hgt | hlt
          · exact absurd h2.1 (not_le.mpr hgt)
          · exact absurd h2.2 (not_le.mpr hlt)
      · by_cases h3 : projParam a b q - segNormSq a b ≥ 0 ∧
            (projParam a b q - segNormSq a b) * (projParam a b q - segNormSq a b) / segNormSq a b ≥ tol * tol
        · rw [if_neg h2, if_pos h3]
          constructor
          · intro hfalse; exact absurd hfalse (by simp)
          · rintro ⟨-, -, hor, -⟩
            rcases hor with hgt | hlt
            · exact absurd h3.1 (not_le.mpr (by linarith))
            · exact absurd h3.2 (not_le.mpr hlt)
        · by_cases h4 : distSq q a - projParam a b q * projParam a b q / segNormSq a b > tol * tol
          · rw [if_neg h2, if_neg h3, if_pos h4]
            constructor
            · intro hfalse; exact absurd hfalse (by simp)
            · rintro ⟨-, -, -, hle⟩
              exact absurd hle (not_le.mpr h4)
          · rw [if_neg h2, if_neg h3, if_neg h4]
            constructor
            · intro _
              refine ⟨h1, ?_, ?_, not_lt.mp h4⟩
              · rcases not_and_or.mp h2 with hp | hd
                · exact Or.inl (not_le.mp hp)
                · exact Or.inr (not_le.mp hd)
              · rcases not_and_or.mp h3 with hp | hd
                · exact Or.inl (by linarith [not_le.mp hp])
                · exact Or.inr (not_le.mp hd)
            · intro _; rfl
  · intro hdeg
    unfold hitLineSegment
    simp only [hproj, hns, hqa]
    rw [if_pos hdeg]

theorem mapM_lift_jac (gs : List (List ℚ → List ℚ → List ℚ)) (x z : List ℚ) :
    (gs.map liftJacRow).mapM (fun g => g x z) = Except.ok (gs.map (fun g => g x z)) := by
  induction gs with
  | nil => rfl
  | cons g rest ih =>
    simp only [List.map_cons, List.mapM_cons, ih, liftJacRow]
    rfl

theorem mapM_lift_res (fs : List (List ℚ → ℚ)) (x : List ℚ) :
    (fs.map liftResidual).mapM (fun f => do pure (-(← f x))) =
      Except.ok (fs.map (fun f => -(f x))) := by
  induction fs with
  | nil => rfl
  | cons f rest ih =>
    simp only [List.map_cons, List.mapM_cons, ih, liftResidual]
    rfl

theorem newtonStepE_lift (oracle : SvdOracle) (fs : List (List ℚ → ℚ)) (gs : List (List ℚ → List ℚ → List ℚ)) (x : List ℚ) :
    newtonStepE oracle (fs.map liftResidual) (gs.map liftJacRow) x =
      Except.ok (newtonStepT oracle fs gs x) := by
  unfold newtonStepE newtonStepT
  rw [mapM_lift_jac, mapM_lift_res]
  rfl

theorem newtonIterE_lift (oracle : SvdOracle) (fs : List (List ℚ → ℚ)) (gs : List (List ℚ → List ℚ → List ℚ)) :
    ∀ (n : Nat) (x : List ℚ),
      newtonIterE oracle (fs.map liftResidual) (gs.map liftJacRow) n x =
        Except.ok ((newtonStepT oracle fs gs)^[n] x) := by
  intro n
  induction n with
  | zero => intro x; rfl
  | succ n ih =>
    intro x
    show (newtonStepE oracle (fs.map liftResidual) (gs.map liftJacRow) x) >>=
        (newtonIterE oracle (fs.map liftResidual) (gs.map liftJacRow) n) = _
    rw [newtonStepE_lift]
    show newtonIterE oracle (fs.map liftResidual) (gs.map liftJacRow) n
        (newtonStepT oracle fs gs x) = _
    rw [ih, Function.iterate_succ_apply]

/-- C2.  For every SVD backend, every starting vector and every family of
residual and Jacobian-row closures, `newtonSolve` returns exactly the
100-fold iterate of the damped-Newton step: it runs for exactly 100
iterations, never monitors the residual, never exits early, and always
terminates, converged or not. -/
theorem newton_fixed_iteration (oracle : SvdOracle) (fs : List (List ℚ → ℚ)) (gs : List (List ℚ → List ℚ → List ℚ)) (x : List ℚ) :
    newtonSolve oracle (fs.map liftResidual) (gs.map liftJacRow) x =
      Except.ok ((newtonStepT oracle fs gs)^[100] x) :=
  newtonIterE_lift oracle fs gs 100 x

/- ------------------------------------------------------------------ -/
/- C10 : MouseMove always notifies                                     -/
/- ------------------------------------------------------------------ -/

theorem foldTool_keeps_changed (l : List ToolAction) :
    ∀ (ts : ToolState) (nid : ObjectID),
      (l.foldl (fun (acc : ToolState × Bool × ObjectID) a =>
        let r := executeToolAction acc.1 a acc.2.2
        (r.toolState, acc.2.1 || r.changed, r.nextID)) (ts, true, nid)).2.1 = true := by
  induction l with
  | nil => intro ts nid; rfl
  | cons a rest ih =>
    intro ts nid
    simp only [List.foldl_cons, Bool.true_or]
    exact ih _ _

theorem generateAction_mouseMove_shape (ts : ToolState) (ds : DataState) (p : Vec2D) (nid : ObjectID) :
    (generateAction ts ds (.mouseMove p) nid).toolActions.head? =
        some (ToolAction.updateMousePoint p) ∧
      (generateAction ts ds (.mouseMove p) nid).dataActions = [] := by
  cases hpan : ts.pan <;> cases htool : ts.tool <;>
    simp [generateAction, hpan, htool]

/-- C10.  `sendEvent` on a `MouseMove` always reports a change and
notifies the listeners — even when the event's point equals the current
mouse point and nothing else changes — because `UpdateMousePoint`
unconditionally returns `true`. -/
theorem mouseMove_always_notifies (oracle : SvdOracle) (s : DrawingState) (p : Vec2D) :
    (sendEvent oracle s (.mouseMove p)).notified = true := by
  obtain ⟨hhead, hdata⟩ :=
    generateAction_mouseMove_shape s.toolState s.dataState p s.nextID
  unfold sendEvent
  set g := generateAction s.toolState s.dataState (.mouseMove p) s.nextID with hg
  obtain ⟨a, rest, hl⟩ : ∃ a rest, g.toolActions = a :: rest := by
    cases hta : g.toolActions with
    | nil => rw [hta] at hhead; exact absurd hhead (by simp)
    | cons a rest => exact ⟨a, rest, rfl⟩
  have ha : a = ToolAction.updateMousePoint p := by
    rw [hl] at hhead; simpa using hhead
  subst ha
  have htr : (execToolActions g.toolState g.nextID g.toolActions).2.1 = true := by
    rw [hl]
    unfold execToolActions
    simp only [List.foldl_cons, executeToolAction, Bool.false_or]
    exact foldTool_keeps_changed rest _ _
  have hdr : execDataActions oracle s.dataState g.dataActions =
      (s.dataState, false, false) := by
    rw [hdata]; rfl
  simp only [hdr, htr, Bool.true_or, Bool.not_false, Bool.and_true]

/-- C3, counterexample: `generateAction` is not pure.  (a) On
`KeyDown('Enter')` with the Pen active it prunes the tool state's scratch
map in place, so the tool state it returns differs from the one passed in;
(b) it advances the global id counter, so two calls on equal
`(ToolState, DataState, Event)` inputs return different data actions. -/
theorem generateAction_not_pure :
    (generateAction penToolStateCE initialDataState (.keyDown "Enter") 10).toolState.tool ≠
        penToolStateCE.tool ∧
      (generateAction initialToolState initialDataState
          (.addObject false (.node (0, 0))) 0).dataActions ≠
        (generateAction initialToolState initialDataState
          (.addObject false (.node (0, 0)))
          ((generateAction initialToolState initialDataState
            (.addObject false (.node (0, 0))) 0).nextID)).dataActions := by
  constructor
  · decide
  · decide

/-- C3, amended.  Outside the Pen-commit branch (where the source mutates
the scratch map in place), `generateAction` returns its tool state
unchanged; it never writes the data state (it only reads it); and its
output is a deterministic function of the tool state, data state, event
and id counter. -/
theorem generateAction_frame (ts : ToolState) (ds : DataState) (e : Event) (nid : ObjectID)
    (h : ¬ penCommitEvent ts e) :
    (generateAction ts ds e nid).toolState = ts := by
  cases e with
  | mouseMove p =>
    cases hpan : ts.pan <;> cases htool : ts.tool <;> simp [generateAction, hpan, htool]
  | mouseDown ctrl button p =>
    by_cases hb : button = Button.secondary
    · cases hpan : ts.pan <;> simp [generateAction, hb, hpan]
    · cases htool : ts.tool with
      | selector sel =>
        cases hhit : hitScanAux ds.objects (transformViewportToData ts p) ds.objects <;>
          cases ctrl <;> simp [generateAction, hb, htool, hhit]
      | pen m tid nxt => simp [generateAction, hb, htool]
      | text m nxt => simp [generateAction, hb, htool]
  | mouseUp ctrl button p =>
    by_cases hb : button = Button.secondary
    · cases hpan : ts.pan <;> simp [generateAction, hb, hpan]
    · simp [generateAction, hb]
  | keyDown key =>
    by_cases hp : key = "p"
    · simp [generateAction, hp]
    · by_cases hs : key = "s"
      · simp [generateAction, hp, hs]
      · by_cases he : key = "Enter"
        · subst he
          cases htool : ts.tool with
          | selector sel => simp [generateAction, hp, hs, htool]
          | pen m tid nxt =>
            exact absurd ⟨rfl, by rw [htool]; rfl⟩ h
          | text m nxt => simp [generateAction, hp, hs, htool]
        · simp [generateAction, hp, hs, he]
  | keyUp key => simp [generateAction]
  | resizeView w hh => simp [generateAction]
  | scaleView sc => simp [generateAction]
  | setViewOffset o => simp [generateAction]
  | addPerpendicularConstraint =>
    cases htool : ts.tool <;> simp [generateAction, htool] <;> split <;> rfl
  | addCoincidentConstraint =>
    cases htool : ts.tool <;> simp [generateAction, htool] <;> split <;> rfl
  | addHorizontalConstraint =>
    cases htool : ts.tool <;> simp [generateAction, htool] <;> split <;> rfl
  | addVerticalConstraint =>
    cases htool : ts.tool <;> simp [generateAction, htool] <;> split <;> rfl
  | addDistanceConstraint d =>
    cases htool : ts.tool <;> simp [generateAction, htool] <;> split <;> rfl
  | selectTextTool => simp [generateAction]
  | setTextValue sv => simp [generateAction]
  | addObject guide od => simp [generateAction]

theorem generateAction_frame_witness :
    ¬ penCommitEvent initialToolState (.mouseMove (0, 0)) ∧
      (generateAction initialToolState initialDataState (.mouseMove (0, 0)) 0).toolState =
        initialToolState :=
  ⟨fun hc => Event.noConfusion hc.1,
   generateAction_frame initialToolState initialDataState (.mouseMove (0, 0)) 0
     (fun hc => Event.noConfusion hc.1)⟩

/- ------------------------------------------------------------------ -/
/- C6 : Selector constraint-event cardinality                          -/
/- ------------------------------------------------------------------ -/

/-- C6.  With the Selector active, each constraint event produces exactly
one `AddConstraint` data action iff the selection cardinality is correct
for that constraint kind — 2 for Perpendicular and Coincident, 1 for
Horizontal and Vertical, 1 or 2 for Distance — and on a cardinality
violation logs a diagnostic and emits no data action. -/
theorem selector_constraint_cardinality
    (sel : List ObjectID) (hist : ActionHistory) (mp : Vec2D) (vb : ViewBox)
    (origin : Vec2D) (sc : ℚ) (pan : PanState) (ds : DataState) (nid : ObjectID) :
    let ts : ToolState := ⟨.selector sel, hist, mp, vb, origin, sc, pan⟩
    ((sel.length = 2 →
        (generateAction ts ds .addPerpendicularConstraint nid).dataActions =
            [⟨nid + 1, .addConstraint (.perpendicular (sel.getD 0 0) (sel.getD 1 0))⟩] ∧
          (generateAction ts ds .addPerpendicularConstraint nid).log = []) ∧
      (sel.length ≠ 2 →
        (generateAction ts ds .addPerpendicularConstraint nid).dataActions = [] ∧
          (generateAction ts ds .addPerpendicularConstraint nid).log ≠ [])) ∧
    ((sel.length = 2 →
        (generateAction ts ds .addCoincidentConstraint nid).dataActions =
            [⟨nid + 1, .addConstraint (.coincident (sel.getD 0 0) (sel.getD 1 0))⟩] ∧
          (generateAction ts ds .addCoincidentConstraint nid).log = []) ∧
      (sel.length ≠ 2 →
        (generateAction ts ds .addCoincidentConstraint nid).dataActions = [] ∧
          (generateAction ts ds .addCoincidentConstraint nid).log ≠ [])) ∧
    ((sel.length = 1 →
        (generateAction ts ds .addHorizontalConstraint nid).dataActions =
            [⟨nid + 1, .addConstraint (.horizontal (sel.getD 0 0))⟩] ∧
          (generateAction ts ds .addHorizontalConstraint nid).log = []) ∧
      (sel.length ≠ 1 →
        (generateAction ts ds .addHorizontalConstraint nid).dataActions = [] ∧
          (generateAction ts ds .addHorizontalConstraint nid).log ≠ [])) ∧
    ((sel.length = 1 →
        (generateAction ts ds .addVerticalConstraint nid).dataActions =
            [⟨nid + 1, .addConstraint (.vertical (sel.getD 0 0))⟩] ∧
          (generateAction ts ds .addVerticalConstraint nid).log = []) ∧
      (sel.length ≠ 1 →
        (generateAction ts ds .addVerticalConstraint nid).dataActions = [] ∧
          (generateAction ts ds .addVerticalConstraint nid).log ≠ [])) ∧
    (∀ d : ℚ,
      (sel.length = 1 ∨ sel.length = 2 →
        (generateAction ts ds (.addDistanceConstraint d) nid).dataActions =
            [⟨nid + 1, .addConstraint (.distance d (sel.getD 0 0) (sel.get? 1))⟩] ∧
          (generateAction ts ds (.addDistanceConstraint d) nid).log = []) ∧
      (sel.length ≠ 1 ∧ sel.length ≠ 2 →
        (generateAction ts ds (.addDistanceConstraint d) nid).dataActions = [] ∧
          (generateAction ts ds (.addDistanceConstraint d) nid).log ≠ [])) := by
  intro ts
  refine ⟨⟨?_, ?_⟩, ⟨?_, ?_⟩, ⟨?_, ?_⟩, ⟨?_, ?_⟩, ?_⟩
  · intro h2; simp [generateAction, ts, h2]
  · intro h2; simp [generateAction, ts, h2]
  · intro h2; simp [generateAction, ts, h2]
  · intro h2; simp [generateAction, ts, h2]
  · intro h1; simp [generateAction, ts, h1]
  · intro h1; simp [generateAction, ts, h1]
  · intro h1; simp [generateAction, ts, h1]
  · intro h1; simp [generateAction, ts, h1]
  · intro d
    constructor
    · rintro (h1 | h2)
      · simp [generateAction, ts, h1]
      · simp [generateAction, ts, h2]
    · rintro ⟨h1, h2⟩
      simp [generateAction, ts, h1, h2]

theorem selector_constraint_cardinality_witness :
    ((([1, 2] : List ObjectID).length = 2) ∧
      (generateAction ⟨.selector [1, 2], ⟨none, none⟩, (0, 0), ⟨(0, 0), 0, 0⟩, (0, 0), 1, .idle⟩
          initialDataState .addPerpendicularConstraint 0).dataActions =
        [⟨1, .addConstraint (.perpendicular 1 2)⟩]) ∧
    ((([1] : List ObjectID).length ≠ 2) ∧
      (generateAction ⟨.selector [1], ⟨none, none⟩, (0, 0), ⟨(0, 0), 0, 0⟩, (0, 0), 1, .idle⟩
          initialDataState .addPerpendicularConstraint 0).dataActions = []) := by
  refine ⟨⟨rfl, ?_⟩, ⟨by decide, ?_⟩⟩
  · exact ((selector_constraint_cardinality [1, 2] ⟨none, none⟩ (0, 0) ⟨(0, 0), 0, 0⟩
      (0, 0) 1 .idle initialDataState 0).1.1 rfl).1
  · exact ((selector_constraint_cardinality [1] ⟨none, none⟩ (0, 0) ⟨(0, 0), 0, 0⟩
      (0, 0) 1 .idle initialDataState 0).1.2 (by decide)).1

theorem dataShapeEq_refl (d : CanvasObjectData) : dataShapeEq d d := by
  cases d <;> simp [dataShapeEq]

theorem dataShapeEq_trans {d1 d2 d3 : CanvasObjectData}
    (h1 : dataShapeEq d1 d2) (h2 : dataShapeEq d2 d3) : dataShapeEq d1 d3 := by
  cases d1 <;> cases d2 <;> cases d3 <;> simp_all [dataShapeEq]

theorem setNodePoint_id (i : Nat) (v : ℚ) (o : CanvasObject) :
    (setNodePoint i v o).id = o.id := by
  unfold setNodePoint; cases o.data <;> rfl

theorem setNodePoint_guide (i : Nat) (v : ℚ) (o : CanvasObject) :
    (setNodePoint i v o).guide = o.guide := by
  unfold setNodePoint; cases o.data <;> rfl

theorem setNodePoint_shape (i : Nat) (v : ℚ) (o : CanvasObject) :
    dataShapeEq o.data (setNodePoint i v o).data := by
  unfold setNodePoint
  cases h : o.data <;> simp [h, dataShapeEq]

theorem setNodePoint_nonNode (i : Nat) (v : ℚ) (o : CanvasObject)
    (h : ∀ p, o.data ≠ .node p) : setNodePoint i v o = o := by
  unfold setNodePoint
  cases hd : o.data <;> first | rfl | exact absurd hd (h _)

theorem applyWrites_keys (ws : List (ObjectID × Nat × Nat)) :
    ∀ (m : ObjectMap) (x : List ℚ),
      (applyWrites m ws x).map Prod.fst = m.map Prod.fst := by
  induction ws with
  | nil => intro m x; rfl
  | cons w rest ih =>
    intro m x
    show (applyWrites (updateAt m w.1 (setNodePoint w.2.1 (x.getD w.2.2 0))) rest x).map Prod.fst = _
    rw [ih, updateAt_keys]

theorem applyWrites_shape (ws : List (ObjectID × Nat × Nat)) :
    ∀ (m : ObjectMap) (x : List ℚ) (k : ObjectID) (obj : CanvasObject),
      lookupObject m k = some obj →
      ∃ o2, lookupObject (applyWrites m ws x) k = some o2 ∧
        o2.id = obj.id ∧ o2.guide = obj.guide ∧ dataShapeEq obj.data o2.data := by
  induction ws with
  | nil =>
    intro m x k obj h
    exact ⟨obj, h, rfl, rfl, dataShapeEq_refl _⟩
  | cons w rest ih =>
    intro m x k obj h
    show ∃ o2, lookupObject (applyWrites (updateAt m w.1 (setNodePoint w.2.1 (x.getD w.2.2 0))) rest x) k = some o2 ∧ _
    by_cases hk : k = w.1
    · have h2 : lookupObject (updateAt m w.1 (setNodePoint w.2.1 (x.getD w.2.2 0))) k =
          some (setNodePoint w.2.1 (x.getD w.2.2 0) obj) := by
        rw [lookupObject_updateAt, if_pos hk, h]; rfl
      obtain ⟨o2, ho2, hid, hg, hs⟩ := ih _ x k _ h2
      exact ⟨o2, ho2, by rw [hid, setNodePoint_id], by rw [hg, setNodePoint_guide],
        dataShapeEq_trans (setNodePoint_shape _ _ _) hs⟩
    · have h2 : lookupObject (updateAt m w.1 (setNodePoint w.2.1 (x.getD w.2.2 0))) k =
          some obj := by
        rw [lookupObject_updateAt, if_neg hk, h]
      exact ih _ x k _ h2

theorem applyWrites_nonNode (ws : List (ObjectID × Nat × Nat)) :
    ∀ (m : ObjectMap) (x : List ℚ) (k : ObjectID) (obj : CanvasObject),
      lookupObject m k = some obj → (∀ p, obj.data ≠ .node p) →
      lookupObject (applyWrites m ws x) k = some obj := by
  induction ws with
  | nil => intro m x k obj h _; exact h
  | cons w rest ih =>
    intro m x k obj h hn
    show lookupObject (applyWrites (updateAt m w.1 (setNodePoint w.2.1 (x.getD w.2.2 0))) rest x) k = _
    by_cases hk : k = w.1
    · have h2 : lookupObject (updateAt m w.1 (setNodePoint w.2.1 (x.getD w.2.2 0))) k =
          some obj := by
        rw [lookupObject_updateAt, if_pos hk, h]
        simp [setNodePoint_nonNode _ _ _ hn]
      exact ih _ x k _ h2 hn
    · have h2 : lookupObject (updateAt m w.1 (setNodePoint w.2.1 (x.getD w.2.2 0))) k =
          some obj := by
        rw [lookupObject_updateAt, if_neg hk, h]
      exact ih _ x k _ h2 hn

theorem applyWrites_untouched (ws : List (ObjectID × Nat × Nat)) :
    ∀ (m : ObjectMap) (x : List ℚ) (k : ObjectID),
      (∀ w ∈ ws, (w : ObjectID × Nat × Nat).1 ≠ k) →
      lookupObject (applyWrites m ws x) k = lookupObject m k := by
  induction ws with
  | nil => intro m x k _; rfl
  | cons w rest ih =>
    intro m x k hne
    show lookupObject (applyWrites (updateAt m w.1 (setNodePoint w.2.1 (x.getD w.2.2 0))) rest x) k = _
    rw [ih _ x k (fun w2 hw2 => hne w2 (List.mem_cons_of_mem w hw2)),
      lookupObject_updateAt,
      if_neg (fun hh => hne w (List.mem_cons_self w rest) hh.symm)]

theorem addVariable_writes (objects : ObjectMap) (b : SolverBuild) (oid : ObjectID) (i : Nat) :
    ∀ w ∈ (addVariable objects b oid i).writes,
      w ∈ b.writes ∨ (w : ObjectID × Nat × Nat).1 = oid := by
  intro w hw
  unfold addVariable at hw
  split at hw
  · exact Or.inl hw
  · split at hw
    · exact Or.inl hw
    · split at hw
      · exact Or.inl hw
      · split at hw
        · simp only [List.mem_append, List.mem_singleton] at hw
          rcases hw with h | h
          · exact Or.inl h
          · subst h; exact Or.inr rfl
        · exact Or.inl hw

theorem addVariable_writes_cover {W0 : List (ObjectID × Nat × Nat)}
    (objects : ObjectMap) (b : SolverBuild) (oid : ObjectID) (i : Nat) (S : List ObjectID)
    (hb : ∀ w ∈ b.writes, w ∈ W0 ∨ (w : ObjectID × Nat × Nat).1 ∈ S) (hoid : oid ∈ S) :
    ∀ w ∈ (addVariable objects b oid i).writes,
      w ∈ W0 ∨ (w : ObjectID × Nat × Nat).1 ∈ S := by
  intro w hw
  rcases addVariable_writes objects b oid i w hw with h | h
  · exact hb w h
  · exact Or.inr (h ▸ hoid)

theorem processConstraint_writes (objects : ObjectMap) (acc : SolverBuild × List SolverEq) (cons : Constraint) :
    ∀ w ∈ (processConstraint objects acc cons).1.writes,
      w ∈ acc.1.writes ∨ (w : ObjectID × Nat × Nat).1 ∈ constraintPointIDs objects cons := by
  have base : ∀ w ∈ acc.1.writes, w ∈ acc.1.writes ∨
      (w : ObjectID × Nat × Nat).1 ∈ constraintPointIDs objects cons :=
    fun w hw => Or.inl hw
  cases cons with
  | perpendicular line1 line2 =>
    cases hlk1 : lookupObject objects line1 with
    | none => intro w hw; simp only [processConstraint, hlk1] at hw; exact Or.inl hw
    | some o1 =>
      cases hlk2 : lookupObject objects line2 with
      | none => intro w hw; simp only [processConstraint, hlk1, hlk2] at hw; exact Or.inl hw
      | some o2 =>
        intro w hw
        simp only [processConstraint, hlk1, hlk2] at hw
        split at hw
        case _ p1 p2 p3 p4 heq1 heq2 =>
          have hS : ∀ q ∈ ([p1, p2, p3, p4] : List ObjectID),
              q ∈ constraintPointIDs objects (.perpendicular line1 line2) := by
            intro q hq
            simp only [constraintPointIDs, linePointIDs, hlk1, hlk2, heq1, heq2,
              List.mem_append, List.mem_cons, List.mem_singleton] at *
            rcases hq with h | h | h | h | h <;> simp [h]
          refine addVariable_writes_cover objects _ p4 1 _
            (addVariable_writes_cover objects _ p4 0 _
              (addVariable_writes_cover objects _ p3 1 _
                (addVariable_writes_cover objects _ p3 0 _
                  (addVariable_writes_cover objects _ p2 1 _
                    (addVariable_writes_cover objects _ p2 0 _
                      (addVariable_writes_cover objects _ p1 1 _
                        (addVariable_writes_cover objects _ p1 0 _ base
                          (hS p1 (by simp)))
                        (hS p1 (by simp)))
                      (hS p2 (by simp)))
                    (hS p2 (by simp)))
                  (hS p3 (by simp)))
                (hS p3 (by simp)))
              (hS p4 (by simp)))
            (hS p4 (by simp)) w hw
        case _ =>
          exact Or.inl hw
  | parallel l1 l2 => intro w hw; exact Or.inl hw
  | distance d o1 o2 =>
    cases hlk1 : lookupObject objects o1 with
    | none => intro w hw; simp only [processConstraint, hlk1] at hw; exact Or.inl hw
    | some obj1 =>
      intro w hw
      simp only [processConstraint, hlk1] at hw
      split at hw
      · exact Or.inl hw
      · split at hw
        · exact Or.inl hw
        · set p1 : ObjectID := (match obj1.data with
            | .line q _ => q
            | _ => obj1.id) with hp1
          set p2 : ObjectID := (match obj1.data with
            | .line _ q => q
            | _ =>
              match (match o2 with
                     | some j => lookupObject objects j
                     | none => none) with
              | some o => o.id
              | none => -1) with hp2
          have hS : p1 ∈ constraintPointIDs objects (.distance d o1 o2) ∧
              p2 ∈ constraintPointIDs objects (.distance d o1 o2) := by
            rename_i hnotskip1 hnotskip2
            constructor
            · cases hd1 : obj1.data <;>
                simp [constraintPointIDs, linePointIDs, resolvedPointID, hlk1, hd1, hp1]
            · cases hd1 : obj1.data with
              | line q1 q2 =>
                simp [constraintPointIDs, linePointIDs, hlk1, hd1, hp2]
              | _ =>
                cases ho2 : o2 with
                | none =>
                  exfalso
                  apply hnotskip1
                  simp [ho2, hd1]
                | some j =>
                  cases hlkj : lookupObject objects j with
                  | none =>
                    exfalso
                    apply hnotskip1
                    simp [ho2, hlkj, hd1]
                  | some oj =>
                    simp [constraintPointIDs, resolvedPointID, hlkj, ho2, hp2, hd1, hlk1]
          refine addVariable_writes_cover objects _ p2 1 _
            (addVariable_writes_cover objects _ p2 0 _
              (addVariable_writes_cover objects _ p1 1 _
                (addVariable_writes_cover objects _ p1 0 _ base hS.1)
                hS.1)
              hS.2)
            hS.2 w hw
  | horizontal o =>
    cases hlk : lookupObject objects o with
    | none => intro w hw; simp only [processConstraint, hlk] at hw; exact Or.inl hw
    | some obj =>
      intro w hw
      simp only [processConstraint, hlk] at hw
      split at hw
      case _ p1 p2 heq =>
        have hS : ∀ q ∈ ([p1, p2] : List ObjectID),
            q ∈ constraintPointIDs objects (.horizontal o) := by
          intro q hq
          simp only [constraintPointIDs, linePointIDs, hlk, heq, List.mem_cons,
            List.mem_singleton] at *
          rcases hq with h | h | h <;> simp [h]
        exact addVariable_writes_cover objects _ p2 1 _
          (addVariable_writes_cover objects _ p1 1 _ base (hS p1 (by simp)))
          (hS p2 (by simp)) w hw
      case _ => exact Or.inl hw
  | vertical o =>
    cases hlk : lookupObject objects o with
    | none => intro w hw; simp only [processConstraint, hlk] at hw; exact Or.inl hw
    | some obj =>
      intro w hw
      simp only [processConstraint, hlk] at hw
      split at hw
      case _ p1 p2 heq =>
        have hS : ∀ q ∈ ([p1, p2] : List ObjectID),
            q ∈ constraintPointIDs objects (.vertical o) := by
          intro q hq
          simp only [constraintPointIDs, linePointIDs, hlk, heq, List.mem_cons,
            List.mem_singleton] at *
          rcases hq with h | h | h <;> simp [h]
        exact addVariable_writes_cover objects _ p2 0 _
          (addVariable_writes_cover objects _ p1 0 _ base (hS p1 (by simp)))
          (hS p2 (by simp)) w hw
      case _ => exact Or.inl hw
  | coincident o1 o2 =>
    cases hlk1 : lookupObject objects o1 with
    | none => intro w hw; simp only [processConstraint, hlk1] at hw; exact Or.inl hw
    | some obj1 =>
      cases hlk2 : lookupObject objects o2 with
      | none => intro w hw; simp only [processConstraint, hlk1, hlk2] at hw; exact Or.inl hw
      | some obj2 =>
        intro w hw
        simp only [processConstraint, hlk1, hlk2] at hw
        split at hw
        · -- point-point branch
          have h1 : obj1.id ∈ constraintPointIDs objects (.coincident o1 o2) := by
            simp [constraintPointIDs, resolvedPointID, hlk1, hlk2]
          have h2 : obj2.id ∈ constraintPointIDs objects (.coincident o1 o2) := by
            simp [constraintPointIDs, resolvedPointID, hlk1, hlk2]
          exact addVariable_writes_cover objects _ obj2.id 1 _
            (addVariable_writes_cover objects _ obj2.id 0 _
              (addVariable_writes_cover objects _ obj1.id 1 _
                (addVariable_writes_cover objects _ obj1.id 0 _ base h1)
                h1)
              h2)
            h2 w hw
        · -- point-line branch
          split at hw
          case _ => exact Or.inl hw
          case _ pr lineObj pointObj hpair =>
            split at hw
            case _ a1 a2 heqline =>
              have hlp : lineObj = obj1 ∧ pointObj = obj2 ∨
                  lineObj = obj2 ∧ pointObj = obj1 := by
                split at hpair
                · split at hpair
                  · simp only [Option.some.injEq, Prod.mk.injEq] at hpair
                    exact Or.inl ⟨hpair.1.symm, hpair.2.symm⟩
                  · exact absurd hpair (by simp)
                · split at hpair
                  · simp only [Option.some.injEq, Prod.mk.injEq] at hpair
                    exact Or.inr ⟨hpair.1.symm, hpair.2.symm⟩
                  · exact absurd hpair (by simp)
                · exact absurd hpair (by simp)
              have hS : ∀ q ∈ ([a1, a2, pointObj.id] : List ObjectID),
                  q ∈ constraintPointIDs objects (.coincident o1 o2) := by
                intro q hq
                rcases hlp with ⟨hl, hp⟩ | ⟨hl, hp⟩ <;> subst hl <;> subst hp <;>
                  simp only [constraintPointIDs, linePointIDs, resolvedPointID,
                    hlk1, hlk2, heqline, List.mem_append, List.mem_cons,
                    List.mem_singleton] at * <;>
                  rcases hq with h | h | h | h <;> first | simp [h] | simp at h
              exact addVariable_writes_cover objects _ pointObj.id 1 _
                (addVariable_writes_cover objects _ pointObj.id 0 _
                  (addVariable_writes_cover objects _ a2 1 _
                    (addVariable_writes_cover objects _ a2 0 _
                      (addVariable_writes_cover objects _ a1 1 _
                        (addVariable_writes_cover objects _ a1 0 _ base
                          (hS a1 (by simp)))
                        (hS a1 (by simp)))
                      (hS a2 (by simp)))
                    (hS a2 (by simp)))
                  (hS pointObj.id (by simp)))
                (hS pointObj.id (by simp)) w hw
            case _ => exact Or.inl hw

theorem buildSolver_writes (objects : ObjectMap) (cs : List Constraint) :
    ∀ w ∈ (buildSolver objects cs).1.writes,
      ∃ c ∈ cs, (w : ObjectID × Nat × Nat).1 ∈ constraintPointIDs objects c := by
  have key : ∀ (l : List Constraint) (acc : SolverBuild × List SolverEq),
      ∀ w ∈ (l.foldl (processConstraint objects) acc).1.writes,
        w ∈ acc.1.writes ∨ ∃ c ∈ l, (w : ObjectID × Nat × Nat).1 ∈ constraintPointIDs objects c := by
    intro l
    induction l with
    | nil => intro acc w hw; exact Or.inl hw
    | cons c rest ih =>
      intro acc w hw
      simp only [List.foldl_cons] at hw
      rcases ih (processConstraint objects acc c) w hw with h | ⟨c2, hc2, hm⟩
      · rcases processConstraint_writes objects acc c w h with h2 | h2
        · exact Or.inl h2
        · exact Or.inr ⟨c, List.mem_cons_self c rest, h2⟩
      · exact Or.inr ⟨c2, List.mem_cons_of_mem c hc2, hm⟩
  intro w hw
  rcases key cs (⟨[], [], []⟩, []) w hw with h | h
  · exact absurd h (by simp)
  · exact h

/-- C1.  Executing an `AddConstraint` data action appends exactly the new
constraint to the constraint list and re-solves; the solve adds no object,
removes no object, changes no object's kind, `guide` flag, id or reference
fields, leaves every `FixedNode`'s point identical, and rewrites at most
the coordinates of `Node`s referenced by the constraints. -/
theorem solver_locality (oracle : SvdOracle) (ds : DataState) (aid : ObjectID) (c : Constraint) :
    (executeDataAction oracle ds ⟨aid, .addConstraint c⟩).dataState.constraints =
        ds.constraints ++ [c] ∧
    (executeDataAction oracle ds ⟨aid, .addConstraint c⟩).dataState.objects.map Prod.fst =
        ds.objects.map Prod.fst ∧
    (∀ k obj, lookupObject ds.objects k = some obj →
      ∃ o2, lookupObject (executeDataAction oracle ds ⟨aid, .addConstraint c⟩).dataState.objects k
          = some o2 ∧
        o2.id = obj.id ∧ o2.guide = obj.guide ∧ dataShapeEq obj.data o2.data) ∧
    (∀ k obj p, lookupObject ds.objects k = some obj → obj.data = .fixedNode p →
      lookupObject (executeDataAction oracle ds ⟨aid, .addConstraint c⟩).dataState.objects k
        = some obj) ∧
    (∀ k obj, lookupObject ds.objects k = some obj →
      (∀ c2 ∈ ds.constraints ++ [c], k ∉ constraintPointIDs ds.objects c2) →
      lookupObject (executeDataAction oracle ds ⟨aid, .addConstraint c⟩).dataState.objects k
        = some obj) := by
  cases htc : transformConstraints oracle ds.objects (ds.constraints ++ [c]) with
  | error e =>
    have hexec : executeDataAction oracle ds ⟨aid, .addConstraint c⟩ =
        ⟨⟨ds.objects, ds.constraints ++ [c]⟩, true, true⟩ := by
      simp [executeDataAction, htc]
    rw [hexec]
    exact ⟨rfl, rfl,
      fun k obj h => ⟨obj, h, rfl, rfl, dataShapeEq_refl _⟩,
      fun k obj p h _ => h,
      fun k obj h _ => h⟩
  | ok objs2 =>
    have hexec : executeDataAction oracle ds ⟨aid, .addConstraint c⟩ =
        ⟨⟨objs2, ds.constraints ++ [c]⟩, true, false⟩ := by
      simp [executeDataAction, htc]
    obtain ⟨xf, hxf⟩ : ∃ xf,
        objs2 = applyWrites ds.objects (buildSolver ds.objects (ds.constraints ++ [c])).1.writes xf := by
      simp only [transformConstraints] at htc
      cases hns : newtonSolve oracle
          ((buildSolver ds.objects (ds.constraints ++ [c])).2.map
            (evalResidual ds.objects (buildSolver ds.objects (ds.constraints ++ [c])).1.jacCol))
          ((buildSolver ds.objects (ds.constraints ++ [c])).2.map
            (evalJacRow ds.objects (buildSolver ds.objects (ds.constraints ++ [c])).1.jacCol))
          (buildSolver ds.objects (ds.constraints ++ [c])).1.xInit with
      | error e => rw [hns] at htc; exact absurd htc (by simp)
      | ok xf =>
        rw [hns] at htc
        simp only [Except.ok.injEq] at htc
        exact ⟨xf, htc.symm⟩
    rw [hexec, hxf]
    refine ⟨rfl, applyWrites_keys _ _ _, ?_, ?_, ?_⟩
    · intro k obj h
      exact applyWrites_shape _ _ _ k obj h
    · intro k obj p h hfix
      exact applyWrites_nonNode _ _ _ k obj h (by rw [hfix]; intro q; simp)
    · intro k obj h hnm
      rw [applyWrites_untouched _ _ _ k ?_]
      · exact h
      · intro w hw hwk
        obtain ⟨c2, hc2, hm⟩ := buildSolver_writes ds.objects (ds.constraints ++ [c]) w hw
        exact hnm c2 hc2 (hwk ▸ hm)

/- ------------------------------------------------------------------ -/
/- Basic facts about the invariant components                          -/
/- ------------------------------------------------------------------ -/

theorem lookup_mem (m : ObjectMap) (k : ObjectID) (v : CanvasObject)
    (h : lookupObject m k = some v) : (k, v) ∈ m := by
  induction m with
  | nil => exact absurd h (by simp [lookupObject])
  | cons e rest ih =>
    by_cases he : e.1 = k
    · rw [lookupObject, if_pos he] at h
      have : e = (k, v) := by
        cases e; simp at he h; exact Prod.ext he h
      rw [← this]; exact List.mem_cons_self e rest
    · rw [lookupObject, if_neg he] at h
      exact List.mem_cons_of_mem e (ih h)

theorem mem_lookup_nodup (m : ObjectMap) (k : ObjectID) (v : CanvasObject)
    (hnd : keysNodup m) (h : (k, v) ∈ m) : lookupObject m k = some v := by
  induction m with
  | nil => exact absurd h (by simp)
  | cons e rest ih =>
    unfold keysNodup at hnd
    simp only [List.map_cons, List.nodup_cons] at hnd
    rcases List.mem_cons.mp h with h1 | h1
    · rw [← h1, lookupObject, if_pos rfl]
    · have hk : e.1 ≠ k := by
        intro hh
        exact hnd.1 (by
          have := List.mem_map_of_mem Prod.fst h1
          simpa [hh] using this)
      rw [lookupObject, if_neg hk]
      exact ih hnd.2 h1

theorem lookup_coherent (m : ObjectMap) (k : ObjectID) (v : CanvasObject)
    (hc : coherent m) (h : lookupObject m k = some v) : v.id = k :=
  hc (k, v) (lookup_mem m k v h)

theorem lookup_keysLE (m : ObjectMap) (k : ObjectID) (v : CanvasObject) (n : ObjectID)
    (hb : keysLE m n) (h : lookupObject m k = some v) : k ≤ n :=
  hb (k, v) (lookup_mem m k v h)

theorem lookup_none_of_gt (m : ObjectMap) (k n : ObjectID)
    (hb : keysLE m n) (hk : n < k) : lookupObject m k = none := by
  cases hv : lookupObject m k with
  | none => rfl
  | some v => exact absurd (lookup_keysLE m k v n hb hv) (not_le.mpr hk)

theorem lookup_append_left (m1 m2 : ObjectMap) (k : ObjectID) (v : CanvasObject)
    (h : lookupObject m1 k = some v) : lookupObject (m1 ++ m2) k = some v := by
  rw [lookupObject_append, h]

theorem lookup_append_right (m1 m2 : ObjectMap) (k : ObjectID)
    (h : lookupObject m1 k = none) : lookupObject (m1 ++ m2) k = lookupObject m2 k := by
  rw [lookupObject_append, h]

theorem pointlikeExists_append_left (m1 m2 : ObjectMap) (k : ObjectID)
    (h : pointlikeExists m1 k) : pointlikeExists (m1 ++ m2) k := by
  obtain ⟨obj, ho, hp⟩ := h
  exact ⟨obj, lookup_append_left m1 m2 k obj ho, hp⟩

theorem OperandOK_append_left (m1 m2 : ObjectMap) (k : ObjectID)
    (h : OperandOK m1 k) : OperandOK (m1 ++ m2) k := by
  obtain ⟨obj, ho, hp | ⟨p1, p2, hl, h1, h2⟩⟩ := h
  · exact ⟨obj, lookup_append_left m1 m2 k obj ho, Or.inl hp⟩
  · exact ⟨obj, lookup_append_left m1 m2 k obj ho,
      Or.inr ⟨p1, p2, hl, pointlikeExists_append_left m1 m2 p1 h1,
        pointlikeExists_append_left m1 m2 p2 h2⟩⟩

theorem coherent_append (m1 m2 : ObjectMap)
    (h1 : coherent m1) (h2 : coherent m2) : coherent (m1 ++ m2) := by
  intro e he
  rcases List.mem_append.mp he with h | h
  · exact h1 e h
  · exact h2 e h

theorem keysLE_append (m1 m2 : ObjectMap) (n : ObjectID)
    (h1 : keysLE m1 n) (h2 : keysLE m2 n) : keysLE (m1 ++ m2) n := by
  intro e he
  rcases List.mem_append.mp he with h | h
  · exact h1 e h
  · exact h2 e h

theorem keysLE_mono (m : ObjectMap) (n n2 : ObjectID)
    (h : keysLE m n) (hle : n ≤ n2) : keysLE m n2 :=
  fun e he => le_trans (h e he) hle

theorem keysNodup_append (m1 m2 : ObjectMap)
    (h1 : keysNodup m1) (h2 : keysNodup m2) (hdis : disjointKeys m2 m1) :
    keysNodup (m1 ++ m2) := by
  unfold keysNodup at *
  rw [List.map_append, List.nodup_append]
  refine ⟨h1, h2, ?_⟩
  intro a ha hb
  obtain ⟨e, he, hea⟩ := List.mem_map.mp ha
  obtain ⟨f, hf, hfa⟩ := List.mem_map.mp hb
  exact hdis f hf e he (by rw [hea, hfa])

/- ------------------------------------------------------------------ -/
/- Transfer of the invariant through the solver's write-back           -/
/- ------------------------------------------------------------------ -/

theorem pointLike_of_shapeEq {d1 d2 : CanvasObjectData} (h : dataShapeEq d1 d2) :
    pointLikeObject d2 = pointLikeObject d1 := by
  cases d1 <;> cases d2 <;> simp_all [dataShapeEq, pointLikeObject]

theorem shapeEq_line {d1 : CanvasObjectData} {p1 p2 : ObjectID}
    (h : dataShapeEq d1 (.line p1 p2)) : d1 = .line p1 p2 := by
  cases d1 <;> simp_all [dataShapeEq]

theorem shapeEq_line_of {d2 : CanvasObjectData} {p1 p2 : ObjectID}
    (h : dataShapeEq (.line p1 p2) d2) : d2 = .line p1 p2 := by
  cases d2 <;> simp_all [dataShapeEq]

theorem lookup_exists_of_mem_keys (m : ObjectMap) (k : ObjectID)
    (h : k ∈ m.map Prod.fst) : ∃ v, lookupObject m k = some v := by
  induction m with
  | nil => simp at h
  | cons e rest ih =>
    by_cases he : e.1 = k
    · exact ⟨e.2, by rw [lookupObject, if_pos he]⟩
    · rw [lookupObject, if_neg he]
      apply ih
      simp only [List.map_cons, List.mem_cons] at h
      rcases h with h | h
      · exact absurd h.symm he
      · exact h

theorem keys_mem_of_lookup (m : ObjectMap) (k : ObjectID) (v : CanvasObject)
    (h : lookupObject m k = some v) : k ∈ m.map Prod.fst := by
  have := lookup_mem m k v h
  simpa using List.mem_map_of_mem Prod.fst this

theorem applyWrites_pointlikeExists (ws : List (ObjectID × Nat × Nat)) (m : ObjectMap)
    (x : List ℚ) (k : ObjectID) (h : pointlikeExists m k) :
    pointlikeExists (applyWrites m ws x) k := by
  obtain ⟨obj, ho, hp⟩ := h
  obtain ⟨o2, ho2, _, _, hs⟩ := applyWrites_shape ws m x k obj ho
  exact ⟨o2, ho2, by rw [pointLike_of_shapeEq hs]; exact hp⟩

theorem applyWrites_OperandOK (ws : List (ObjectID × Nat × Nat)) (m : ObjectMap)
    (x : List ℚ) (k : ObjectID) (h : OperandOK m k) :
    OperandOK (applyWrites m ws x) k := by
  obtain ⟨obj, ho, hp | ⟨p1, p2, hl, h1, h2⟩⟩ := h
  · obtain ⟨o2, ho2, _, _, hs⟩ := applyWrites_shape ws m x k obj ho
    exact ⟨o2, ho2, Or.inl (by rw [pointLike_of_shapeEq hs]; exact hp)⟩
  · obtain ⟨o2, ho2, _, _, hs⟩ := applyWrites_shape ws m x k obj ho
    rw [hl] at hs
    exact ⟨o2, ho2, Or.inr ⟨p1, p2, shapeEq_line_of hs,
      applyWrites_pointlikeExists ws m x p1 h1,
      applyWrites_pointlikeExists ws m x p2 h2⟩⟩

theorem updateAt_coherent (m : ObjectMap) (k : ObjectID) (f : CanvasObject → CanvasObject)
    (hf : ∀ o, (f o).id = o.id) (hc : coherent m) : coherent (updateAt m k f) := by
  intro e he
  obtain ⟨e0, he0, heq⟩ := List.mem_map.mp he
  by_cases h : e0.1 = k
  · rw [if_pos h] at heq
    rw [← heq]
    simpa [hf] using hc e0 he0
  · rw [if_neg h] at heq
    rw [← heq]
    exact hc e0 he0

theorem applyWrites_coherent (ws : List (ObjectID × Nat × Nat)) :
    ∀ (m : ObjectMap) (x : List ℚ), coherent m → coherent (applyWrites m ws x) := by
  induction ws with
  | nil => intro m x h; exact h
  | cons w rest ih =>
    intro m x h
    exact ih _ x (updateAt_coherent m w.1 _ (fun o => setNodePoint_id _ _ o) h)

theorem keysNodup_of_keys_eq (m m2 : ObjectMap)
    (h : m2.map Prod.fst = m.map Prod.fst) (hnd : keysNodup m) : keysNodup m2 := by
  unfold keysNodup at *
  rw [h]; exact hnd

theorem keysLE_of_keys_eq (m m2 : ObjectMap) (n : ObjectID)
    (h : m2.map Prod.fst = m.map Prod.fst) (hb : keysLE m n) : keysLE m2 n := by
  intro e he
  have : e.1 ∈ m2.map Prod.fst := by simpa using List.mem_map_of_mem Prod.fst he
  rw [h] at this
  obtain ⟨f, hf, hfe⟩ := List.mem_map.mp this
  rw [← hfe]
  exact hb f hf

theorem disjointKeys_of_keys_eq (m m2 t : ObjectMap)
    (h : m2.map Prod.fst = m.map Prod.fst) (hd : disjointKeys t m) : disjointKeys t m2 := by
  intro e he f hf
  have : f.1 ∈ m2.map Prod.fst := by simpa using List.mem_map_of_mem Prod.fst hf
  rw [h] at this
  obtain ⟨g, hg, hge⟩ := List.mem_map.mp this
  rw [← hge]
  exact hd e he g hg

theorem applyWrites_LineInv (ws : List (ObjectID × Nat × Nat)) (m : ObjectMap) (x : List ℚ)
    (hnd : keysNodup m) (hli : LineInv m) : LineInv (applyWrites m ws x) := by
  intro e he p1 p2 hline
  have hkeys := applyWrites_keys ws m x
  have hnd2 : keysNodup (applyWrites m ws x) := keysNodup_of_keys_eq m _ hkeys hnd
  have hlk2 : lookupObject (applyWrites m ws x) e.1 = some e.2 := by
    have : ((e.1, e.2) : ObjectID × CanvasObject) ∈ applyWrites m ws x := by
      simpa using he
    exact mem_lookup_nodup _ e.1 e.2 hnd2 this
  have hmemk : e.1 ∈ m.map Prod.fst := by
    rw [← hkeys]
    simpa using List.mem_map_of_mem Prod.fst he
  obtain ⟨v, hv⟩ := lookup_exists_of_mem_keys m e.1 hmemk
  obtain ⟨o2, ho2, _, _, hs⟩ := applyWrites_shape ws m x e.1 v hv
  have : o2 = e.2 := by
    rw [ho2] at hlk2
    exact (Option.some.injEq _ _).mp hlk2
  subst this
  rw [hline] at hs
  have hvline : v.data = .line p1 p2 := shapeEq_line hs
  obtain ⟨h1, h2⟩ := hli (e.1, v) (lookup_mem m e.1 v hv) p1 p2 hvline
  exact ⟨applyWrites_pointlikeExists ws m x p1 h1,
    applyWrites_pointlikeExists ws m x p2 h2⟩

theorem findIdx_of_mem (l : List (ObjectID × Nat)) (a : ObjectID × Nat) (h : a ∈ l) :
    ∃ n, l.findIdx? (fun e => decide (e = a)) = some n := by
  induction l with
  | nil => simp at h
  | cons x rest ih =>
    by_cases hx : x = a
    · exact ⟨0, by simp [List.findIdx?_cons, hx]⟩
    · rcases List.mem_cons.mp h with h1 | h1
      · exact absurd h1.symm hx
      · obtain ⟨n, hn⟩ := ih h1
        exact ⟨n + 1, by simp [List.findIdx?_cons, hx, hn]⟩

theorem getVariable_ok (objects : ObjectMap) (jacCol : List (ObjectID × Nat)) (x : List ℚ)
    (oid : ObjectID) (axis : Nat) (h : VarOK objects jacCol oid axis) :
    ∃ c q, getVariable objects jacCol x oid axis = .ok (c, q) := by
  obtain ⟨obj, hlk, hd⟩ := h
  cases hdd : obj.data
  case fixedNode point =>
    exact ⟨-1, vecGet point axis, by simp [getVariable, hlk, hdd]⟩
  all_goals
    have hmem : (oid, axis) ∈ jacCol := by
      rcases hd with ⟨p2, hp2⟩ | hmem
      · rw [hdd] at hp2; exact absurd hp2 (by simp)
      · exact hmem
  all_goals
    obtain ⟨n, hn⟩ := findIdx_of_mem jacCol (oid, axis) hmem
  all_goals
    exact ⟨(n : Int), x.getD n 0, by simp [getVariable, hlk, hdd, hn]⟩

theorem except_bind_ok {α β : Type} (a : α) (f : α → Except String β) :
    (Except.ok a >>= f) = f a := rfl

theorem evalResidual_ok (objects : ObjectMap) (jacCol : List (ObjectID × Nat)) (eq : SolverEq)
    (h : ∀ pr ∈ eqVars eq, VarOK objects jacCol (pr : ObjectID × Nat).1 pr.2) (x : List ℚ) :
    ∃ v, evalResidual objects jacCol eq x = .ok v := by
  cases eq with
  | perp p1 p2 p3 p4 =>
    obtain ⟨c1, q1, h1⟩ := getVariable_ok objects jacCol x p1 0 (h (p1, 0) (by simp [eqVars]))
    obtain ⟨c2, q2, h2⟩ := getVariable_ok objects jacCol x p1 1 (h (p1, 1) (by simp [eqVars]))
    obtain ⟨c3, q3, h3⟩ := getVariable_ok objects jacCol x p2 0 (h (p2, 0) (by simp [eqVars]))
    obtain ⟨c4, q4, h4⟩ := getVariable_ok objects jacCol x p2 1 (h (p2, 1) (by simp [eqVars]))
    obtain ⟨c5, q5, h5⟩ := getVariable_ok objects jacCol x p3 0 (h (p3, 0) (by simp [eqVars]))
    obtain ⟨c6, q6, h6⟩ := getVariable_ok objects jacCol x p3 1 (h (p3, 1) (by simp [eqVars]))
    obtain ⟨c7, q7, h7⟩ := getVariable_ok objects jacCol x p4 0 (h (p4, 0) (by simp [eqVars]))
    obtain ⟨c8, q8, h8⟩ := getVariable_ok objects jacCol x p4 1 (h (p4, 1) (by simp [eqVars]))
    exact ⟨_, by simp only [evalResidual, h1, h2, h3, h4, h5, h6, h7, h8, except_bind_ok]; rfl⟩
  | dist p1 p2 d =>
    obtain ⟨c1, q1, h1⟩ := getVariable_ok objects jacCol x p1 0 (h (p1, 0) (by simp [eqVars]))
    obtain ⟨c2, q2, h2⟩ := getVariable_ok objects jacCol x p1 1 (h (p1, 1) (by simp [eqVars]))
    obtain ⟨c3, q3, h3⟩ := getVariable_ok objects jacCol x p2 0 (h (p2, 0) (by simp [eqVars]))
    obtain ⟨c4, q4, h4⟩ := getVariable_ok objects jacCol x p2 1 (h (p2, 1) (by simp [eqVars]))
    exact ⟨_, by simp only [evalResidual, h1, h2, h3, h4, except_bind_ok]; rfl⟩
  | horiz p1 p2 =>
    obtain ⟨c1, q1, h1⟩ := getVariable_ok objects jacCol x p1 1 (h (p1, 1) (by simp [eqVars]))
    obtain ⟨c2, q2, h2⟩ := getVariable_ok objects jacCol x p2 1 (h (p2, 1) (by simp [eqVars]))
    exact ⟨_, by simp only [evalResidual, h1, h2, except_bind_ok]; rfl⟩
  | vert p1 p2 =>
    obtain ⟨c1, q1, h1⟩ := getVariable_ok objects jacCol x p1 0 (h (p1, 0) (by simp [eqVars]))
    obtain ⟨c2, q2, h2⟩ := getVariable_ok objects jacCol x p2 0 (h (p2, 0) (by simp [eqVars]))
    exact ⟨_, by simp only [evalResidual, h1, h2, except_bind_ok]; rfl⟩
  | coincX p1 p2 =>
    obtain ⟨c1, q1, h1⟩ := getVariable_ok objects jacCol x p1 0 (h (p1, 0) (by simp [eqVars]))
    obtain ⟨c3, q3, h3⟩ := getVariable_ok objects jacCol x p2 0 (h (p2, 0) (by simp [eqVars]))
    exact ⟨_, by simp only [evalResidual, h1, h3, except_bind_ok]; rfl⟩
  | coincY p1 p2 =>
    obtain ⟨c2, q2, h2⟩ := getVariable_ok objects jacCol x p1 1 (h (p1, 1) (by simp [eqVars]))
    obtain ⟨c4, q4, h4⟩ := getVariable_ok objects jacCol x p2 1 (h (p2, 1) (by simp [eqVars]))
    exact ⟨_, by simp only [evalResidual, h2, h4, except_bind_ok]; rfl⟩
  | coincPL a1 a2 p =>
    obtain ⟨c1, q1, h1⟩ := getVariable_ok objects jacCol x a1 0 (h (a1, 0) (by simp [eqVars]))
    obtain ⟨c2, q2, h2⟩ := getVariable_ok objects jacCol x a1 1 (h (a1, 1) (by simp [eqVars]))
    obtain ⟨c3, q3, h3⟩ := getVariable_ok objects jacCol x a2 0 (h (a2, 0) (by simp [eqVars]))
    obtain ⟨c4, q4, h4⟩ := getVariable_ok objects jacCol x a2 1 (h (a2, 1) (by simp [eqVars]))
    obtain ⟨c5, q5, h5⟩ := getVariable_ok objects jacCol x p 0 (h (p, 0) (by simp [eqVars]))
    obtain ⟨c6, q6, h6⟩ := getVariable_ok objects jacCol x p 1 (h (p, 1) (by simp [eqVars]))
    exact ⟨_, by simp only [evalResidual, h1, h2, h3, h4, h5, h6, except_bind_ok]; rfl⟩

theorem evalJacRow_ok (objects : ObjectMap) (jacCol : List (ObjectID × Nat)) (eq : SolverEq)
    (h : ∀ pr ∈ eqVars eq, VarOK objects jacCol (pr : ObjectID × Nat).1 pr.2) (x grad : List ℚ) :
    ∃ v, evalJacRow objects jacCol eq x grad = .ok v := by
  cases eq with
  | perp p1 p2 p3 p4 =>
    obtain ⟨c1, q1, h1⟩ := getVariable_ok objects jacCol x p1 0 (h (p1, 0) (by simp [eqVars]))
    obtain ⟨c2, q2, h2⟩ := getVariable_ok objects jacCol x p1 1 (h (p1, 1) (by simp [eqVars]))
    obtain ⟨c3, q3, h3⟩ := getVariable_ok objects jacCol x p2 0 (h (p2, 0) (by simp [eqVars]))
    obtain ⟨c4, q4, h4⟩ := getVariable_ok objects jacCol x p2 1 (h (p2, 1) (by simp [eqVars]))
    obtain ⟨c5, q5, h5⟩ := getVariable_ok objects jacCol x p3 0 (h (p3, 0) (by simp [eqVars]))
    obtain ⟨c6, q6, h6⟩ := getVariable_ok objects jacCol x p3 1 (h (p3, 1) (by simp [eqVars]))
    obtain ⟨c7, q7, h7⟩ := getVariable_ok objects jacCol x p4 0 (h (p4, 0) (by simp [eqVars]))
    obtain ⟨c8, q8, h8⟩ := getVariable_ok objects jacCol x p4 1 (h (p4, 1) (by simp [eqVars]))
    exact ⟨_, by simp only [evalJacRow, h1, h2, h3, h4, h5, h6, h7, h8, except_bind_ok]; rfl⟩
  | dist p1 p2 d =>
    obtain ⟨c1, q1, h1⟩ := getVariable_ok objects jacCol x p1 0 (h (p1, 0) (by simp [eqVars]))
    obtain ⟨c2, q2, h2⟩ := getVariable_ok objects jacCol x p1 1 (h (p1, 1) (by simp [eqVars]))
    obtain ⟨c3, q3, h3⟩ := getVariable_ok objects jacCol x p2 0 (h (p2, 0) (by simp [eqVars]))
    obtain ⟨c4, q4, h4⟩ := getVariable_ok objects jacCol x p2 1 (h (p2, 1) (by simp [eqVars]))
    exact ⟨_, by simp only [evalJacRow, h1, h2, h3, h4, except_bind_ok]; rfl⟩
  | horiz p1 p2 =>
    obtain ⟨c1, q1, h1⟩ := getVariable_ok objects jacCol x p1 1 (h (p1, 1) (by simp [eqVars]))
    obtain ⟨c2, q2, h2⟩ := getVariable_ok objects jacCol x p2 1 (h (p2, 1) (by simp [eqVars]))
    exact ⟨_, by simp only [evalJacRow, h1, h2, except_bind_ok]; rfl⟩
  | vert p1 p2 =>
    obtain ⟨c1, q1, h1⟩ := getVariable_ok objects jacCol x p1 0 (h (p1, 0) (by simp [eqVars]))
    obtain ⟨c2, q2, h2⟩ := getVariable_ok objects jacCol x p2 0 (h (p2, 0) (by simp [eqVars]))
    exact ⟨_, by simp only [evalJacRow, h1, h2, except_bind_ok]; rfl⟩
  | coincX p1 p2 =>
    obtain ⟨c1, q1, h1⟩ := getVariable_ok objects jacCol x p1 0 (h (p1, 0) (by simp [eqVars]))
    obtain ⟨c2, q2, h2⟩ := getVariable_ok objects jacCol x p1 1 (h (p1, 1) (by simp [eqVars]))
    obtain ⟨c3, q3, h3⟩ := getVariable_ok objects jacCol x p2 0 (h (p2, 0) (by simp [eqVars]))
    obtain ⟨c4, q4, h4⟩ := getVariable_ok objects jacCol x p2 1 (h (p2, 1) (by simp [eqVars]))
    exact ⟨_, by simp only [evalJacRow, h1, h2, h3, h4, except_bind_ok]; rfl⟩
  | coincY p1 p2 =>
    obtain ⟨c1, q1, h1⟩ := getVariable_ok objects jacCol x p1 0 (h (p1, 0) (by simp [eqVars]))
    obtain ⟨c2, q2, h2⟩ := getVariable_ok objects jacCol x p1 1 (h (p1, 1) (by simp [eqVars]))
    obtain ⟨c3, q3, h3⟩ := getVariable_ok objects jacCol x p2 0 (h (p2, 0) (by simp [eqVars]))
    obtain ⟨c4, q4, h4⟩ := getVariable_ok objects jacCol x p2 1 (h (p2, 1) (by simp [eqVars]))
    exact ⟨_, by simp only [evalJacRow, h1, h2, h3, h4, except_bind_ok]; rfl⟩
  | coincPL a1 a2 p =>
    obtain ⟨c1, q1, h1⟩ := getVariable_ok objects jacCol x a1 0 (h (a1, 0) (by simp [eqVars]))
    obtain ⟨c2, q2, h2⟩ := getVariable_ok objects jacCol x a1 1 (h (a1, 1) (by simp [eqVars]))
    obtain ⟨c3, q3, h3⟩ := getVariable_ok objects jacCol x a2 0 (h (a2, 0) (by simp [eqVars]))
    obtain ⟨c4, q4, h4⟩ := getVariable_ok objects jacCol x a2 1 (h (a2, 1) (by simp [eqVars]))
    obtain ⟨c5, q5, h5⟩ := getVariable_ok objects jacCol x p 0 (h (p, 0) (by simp [eqVars]))
    obtain ⟨c6, q6, h6⟩ := getVariable_ok objects jacCol x p 1 (h (p, 1) (by simp [eqVars]))
    exact ⟨_, by simp only [evalJacRow, h1, h2, h3, h4, h5, h6, except_bind_ok]; rfl⟩

theorem addVariable_jacCol_mono (objects : ObjectMap) (b : SolverBuild) (oid : ObjectID) (i : Nat) :
    ∀ pr ∈ b.jacCol, pr ∈ (addVariable objects b oid i).jacCol := by
  intro pr hpr
  unfold addVariable
  split
  · exact hpr
  · split
    · exact hpr
    · split
      · exact hpr
      · split
        · exact List.mem_append_left _ hpr
        · exact List.mem_append_left _ hpr

theorem addVariable_ensures (objects : ObjectMap) (b : SolverBuild) (oid : ObjectID) (i : Nat)
    (obj : CanvasObject) (hlk : lookupObject objects oid = some obj) :
    (∃ p, obj.data = .fixedNode p) ∨ (oid, i) ∈ (addVariable objects b oid i).jacCol := by
  cases hdd : obj.data
  case fixedNode p => exact Or.inl ⟨p, rfl⟩
  all_goals refine Or.inr ?_
  all_goals simp only [addVariable, hlk, hdd]
  all_goals by_cases hmem : (oid, i) ∈ b.jacCol
  all_goals
    first
      | (rw [if_pos hmem]; exact hmem)
      | (rw [if_neg hmem]; exact List.mem_append_right _ (by simp))

theorem addVars_mono (objects : ObjectMap) (pairs : List (ObjectID × Nat)) :
    ∀ (b : SolverBuild), ∀ pr ∈ b.jacCol, pr ∈ (addVars objects b pairs).jacCol := by
  induction pairs with
  | nil => intro b pr hpr; exact hpr
  | cons hd rest ih =>
    intro b pr hpr
    exact ih _ pr (addVariable_jacCol_mono objects b hd.1 hd.2 pr hpr)

theorem VarOK_mono (objects : ObjectMap) (jc1 jc2 : List (ObjectID × Nat))
    (hsub : ∀ q ∈ jc1, q ∈ jc2) (oid : ObjectID) (i : Nat)
    (h : VarOK objects jc1 oid i) : VarOK objects jc2 oid i := by
  obtain ⟨obj, hlk, hf | hm⟩ := h
  · exact ⟨obj, hlk, Or.inl hf⟩
  · exact ⟨obj, hlk, Or.inr (hsub _ hm)⟩

theorem addVars_VarOK (objects : ObjectMap) (pairs : List (ObjectID × Nat)) :
    ∀ (b : SolverBuild), ∀ pr ∈ pairs,
      (∃ obj, lookupObject objects (pr : ObjectID × Nat).1 = some obj) →
      VarOK objects (addVars objects b pairs).jacCol pr.1 pr.2 := by
  induction pairs with
  | nil => intro b pr hpr; simp at hpr
  | cons hd rest ih =>
    intro b pr hpr hex
    rcases List.mem_cons.mp hpr with h1 | h1
    · subst h1
      obtain ⟨obj, hlk⟩ := hex
      rcases addVariable_ensures objects b pr.1 pr.2 obj hlk with hf | hm
      · exact ⟨obj, hlk, Or.inl hf⟩
      · exact ⟨obj, hlk, Or.inr (addVars_mono objects rest _ _ hm)⟩
    · exact ih _ pr h1 hex

theorem pointlikeExists_lookup {m : ObjectMap} {k : ObjectID}
    (h : pointlikeExists m k) : ∃ obj, lookupObject m k = some obj := by
  obtain ⟨o, ho, _⟩ := h
  exact ⟨o, ho⟩

theorem OperandOK_line_endpoints (objects : ObjectMap) (lid : ObjectID) (o : CanvasObject)
    (p1 p2 : ObjectID) (hok : OperandOK objects lid)
    (hlk : lookupObject objects lid = some o) (hd : o.data = .line p1 p2) :
    pointlikeExists objects p1 ∧ pointlikeExists objects p2 := by
  obtain ⟨obj, hlk2, hmain⟩ := hok
  rw [hlk] at hlk2
  have hoo : o = obj := by simpa using hlk2
  subst hoo
  rcases hmain with hp | ⟨q1, q2, hl, h1, h2⟩
  · rw [hd] at hp; simp [pointLikeObject] at hp
  · rw [hd] at hl
    injection hl with e1 e2
    subst e1; subst e2
    exact ⟨h1, h2⟩

theorem coherent_self_lookup (objects : ObjectMap) (k : ObjectID) (o : CanvasObject)
    (hcoh : coherent objects) (hlk : lookupObject objects k = some o) :
    lookupObject objects o.id = some o := by
  rw [lookup_coherent objects k o hcoh hlk]
  exact hlk

theorem processConstraint_step (objects : ObjectMap) (acc : SolverBuild × List SolverEq)
    (cons : Constraint) (hcoh : coherent objects)
    (hok : ∀ i ∈ constraintOperandIDs cons, OperandOK objects i) :
    (∀ pr ∈ acc.1.jacCol, pr ∈ (processConstraint objects acc cons).1.jacCol) ∧
    (∀ eq ∈ (processConstraint objects acc cons).2,
      eq ∈ acc.2 ∨
        ∀ pr ∈ eqVars eq,
          VarOK objects (processConstraint objects acc cons).1.jacCol
            (pr : ObjectID × Nat).1 pr.2) := by
  cases cons with
  | parallel l1 l2 => exact ⟨fun pr hpr => hpr, fun eq heq => Or.inl heq⟩
  | perpendicular line1 line2 =>
    cases hlk1 : lookupObject objects line1 with
    | none =>
      refine ⟨?_, ?_⟩
      · intro pr hpr; simpa [processConstraint, hlk1] using hpr
      · intro eq heq; left; simpa [processConstraint, hlk1] using heq
    | some o1 =>
      cases hlk2 : lookupObject objects line2 with
      | none =>
        refine ⟨?_, ?_⟩
        · intro pr hpr; simpa [processConstraint, hlk1, hlk2] using hpr
        · intro eq heq; left; simpa [processConstraint, hlk1, hlk2] using heq
      | some o2 =>
        cases hd1 : o1.data <;> cases hd2 : o2.data <;>
          first
          | (refine ⟨?_, ?_⟩
             · intro pr hpr; simpa [processConstraint, hlk1, hlk2, hd1, hd2] using hpr
             · intro eq heq; left;
               simpa [processConstraint, hlk1, hlk2, hd1, hd2] using heq)
          | skip
        rename_i p1 p2 p3 p4
        have hpc : processConstraint objects acc (.perpendicular line1 line2) =
            (addVars objects acc.1
              [(p1, 0), (p1, 1), (p2, 0), (p2, 1), (p3, 0), (p3, 1), (p4, 0), (p4, 1)],
             acc.2 ++ [.perp p1 p2 p3 p4]) := by
          simp [processConstraint, hlk1, hlk2, hd1, hd2, addVars]
        rw [hpc]
        have hend1 := OperandOK_line_endpoints objects line1 o1 p1 p2
          (hok line1 (by simp [constraintOperandIDs])) hlk1 hd1
        have hend2 := OperandOK_line_endpoints objects line2 o2 p3 p4
          (hok line2 (by simp [constraintOperandIDs])) hlk2 hd2
        refine ⟨?_, ?_⟩
        · intro pr hpr
          exact addVars_mono objects _ acc.1 pr hpr
        · intro eq heq
          rcases List.mem_append.mp heq with ho | hn
          · exact Or.inl ho
          · have heqq : eq = .perp p1 p2 p3 p4 := by simpa using hn
            subst heqq
            refine Or.inr ?_
            intro pr hpr
            refine addVars_VarOK objects _ acc.1 pr (by simpa [eqVars] using hpr) ?_
            simp only [eqVars, List.mem_cons, List.mem_singleton] at hpr
            rcases hpr with h | h | h | h | h | h | h | h | h <;>
              first
                | (subst h; exact pointlikeExists_lookup hend1.1)
                | (subst h; exact pointlikeExists_lookup hend1.2)
                | (subst h; exact pointlikeExists_lookup hend2.1)
                | (subst h; exact pointlikeExists_lookup hend2.2)
                | simp at h
  | distance d o1 o2 =>
    cases hlk1 : lookupObject objects o1 with
    | none =>
      refine ⟨?_, ?_⟩
      · intro pr hpr; simpa [processConstraint, hlk1] using hpr
      · intro eq heq; left; simpa [processConstraint, hlk1] using heq
    | some obj1 =>
      have hproceed : ∀ (oo2 : Option ObjectID) (p1 p2 : ObjectID),
          processConstraint objects acc (.distance d o1 oo2) =
            (addVars objects acc.1 [(p1, 0), (p1, 1), (p2, 0), (p2, 1)],
             acc.2 ++ [.dist p1 p2 d]) →
          (∃ ob, lookupObject objects p1 = some ob) →
          (∃ ob, lookupObject objects p2 = some ob) →
          (∀ pr ∈ acc.1.jacCol,
            pr ∈ (processConstraint objects acc (.distance d o1 oo2)).1.jacCol) ∧
          (∀ eq ∈ (processConstraint objects acc (.distance d o1 oo2)).2,
            eq ∈ acc.2 ∨
              ∀ pr ∈ eqVars eq,
                VarOK objects (processConstraint objects acc (.distance d o1 oo2)).1.jacCol
                  (pr : ObjectID × Nat).1 pr.2) := by
        intro oo2 p1 p2 hpc hex1 hex2
        rw [hpc]
        refine ⟨?_, ?_⟩
        · intro pr hpr
          exact addVars_mono objects _ acc.1 pr hpr
        · intro eq heq
          rcases List.mem_append.mp heq with ho | hn
          · exact Or.inl ho
          · have heqq : eq = .dist p1 p2 d := by simpa using hn
            subst heqq
            refine Or.inr ?_
            intro pr hpr
            refine addVars_VarOK objects _ acc.1 pr (by simpa [eqVars] using hpr) ?_
            simp only [eqVars, List.mem_cons, List.mem_singleton] at hpr
            rcases hpr with h | h | h | h | h <;>
              first
                | (subst h; exact hex1)
                | (subst h; exact hex2)
                | simp at h
      cases hd1 : obj1.data with
      | line q1 q2 =>
        have hend := OperandOK_line_endpoints objects o1 obj1 q1 q2
          (hok o1 (by simp [constraintOperandIDs])) hlk1 hd1
        cases ho2 : o2 with
        | none =>
          exact hproceed none q1 q2
            (by simp [processConstraint, hd1, hlk1, addVars])
            (pointlikeExists_lookup hend.1) (pointlikeExists_lookup hend.2)
        | some j =>
          cases hlkj : lookupObject objects j with
          | none =>
            exact hproceed (some j) q1 q2
              (by simp [processConstraint, hd1, hlk1, hlkj, addVars])
              (pointlikeExists_lookup hend.1) (pointlikeExists_lookup hend.2)
          | some oj =>
            refine ⟨?_, ?_⟩
            · intro pr hpr
              simpa [processConstraint, hlk1, ho2, hlkj, hd1, pointLikeObject] using hpr
            · intro eq heq
              left
              simpa [processConstraint, hlk1, ho2, hlkj, hd1, pointLikeObject] using heq
      | node pt =>
        cases ho2 : o2 with
        | none =>
          refine ⟨?_, ?_⟩
          · intro pr hpr; simpa [processConstraint, hlk1, ho2, hd1] using hpr
          · intro eq heq; left; simpa [processConstraint, hlk1, ho2, hd1] using heq
        | some j =>
          cases hlkj : lookupObject objects j with
          | none =>
            refine ⟨?_, ?_⟩
            · intro pr hpr; simpa [processConstraint, hlk1, ho2, hlkj, hd1] using hpr
            · intro eq heq; left; simpa [processConstraint, hlk1, ho2, hlkj, hd1] using heq
          | some oj =>
            cases hdj : oj.data <;>
              first
              | (refine ⟨?_, ?_⟩
                 · intro pr hpr
                   simpa [processConstraint, hlk1, ho2, hlkj, hd1, hdj,
                     pointLikeObject] using hpr
                 · intro eq heq
                   left
                   simpa [processConstraint, hlk1, ho2, hlkj, hd1, hdj,
                     pointLikeObject] using heq)
              | (exact hproceed (some j) obj1.id oj.id
                  (by simp [processConstraint, hlk1, hlkj, hd1, hdj, addVars,
                    pointLikeObject])
                  ⟨obj1, coherent_self_lookup objects o1 obj1 hcoh hlk1⟩
                  ⟨oj, coherent_self_lookup objects j oj hcoh hlkj⟩)
      | fixedNode pt =>
        cases ho2 : o2 with
        | none =>
          refine ⟨?_, ?_⟩
          · intro pr hpr; simpa [processConstraint, hlk1, ho2, hd1] using hpr
          · intro eq heq; left; simpa [processConstraint, hlk1, ho2, hd1] using heq
        | some j =>
          cases hlkj : lookupObject objects j with
          | none =>
            refine ⟨?_, ?_⟩
            · intro pr hpr; simpa [processConstraint, hlk1, ho2, hlkj, hd1] using hpr
            · intro eq heq; left; simpa [processConstraint, hlk1, ho2, hlkj, hd1] using heq
          | some oj =>
            cases hdj : oj.data <;>
              first
              | (refine ⟨?_, ?_⟩
                 · intro pr hpr
                   simpa [processConstraint, hlk1, ho2, hlkj, hd1, hdj,
                     pointLikeObject] using hpr
                 · intro eq heq
                   left
                   simpa [processConstraint, hlk1, ho2, hlkj, hd1, hdj,
                     pointLikeObject] using heq)
              | (exact hproceed (some j) obj1.id oj.id
                  (by simp [processConstraint, hlk1, hlkj, hd1, hdj, addVars,
                    pointLikeObject])
                  ⟨obj1, coherent_self_lookup objects o1 obj1 hcoh hlk1⟩
                  ⟨oj, coherent_self_lookup objects j oj hcoh hlkj⟩)
      | path ps ls =>
        cases ho2 : o2 with
        | none =>
          refine ⟨?_, ?_⟩
          · intro pr hpr; simpa [processConstraint, hlk1, ho2, hd1] using hpr
          · intro eq heq; left; simpa [processConstraint, hlk1, ho2, hd1] using heq
        | some j =>
          cases hlkj : lookupObject objects j with
          | none =>
            refine ⟨?_, ?_⟩
            · intro pr hpr; simpa [processConstraint, hlk1, ho2, hlkj, hd1] using hpr
            · intro eq heq; left; simpa [processConstraint, hlk1, ho2, hlkj, hd1] using heq
          | some oj =>
            refine ⟨?_, ?_⟩
            · intro pr hpr
              simpa [processConstraint, hlk1, ho2, hlkj, hd1, pointLikeObject] using hpr
            · intro eq heq
              left
              simpa [processConstraint, hlk1, ho2, hlkj, hd1, pointLikeObject] using heq
      | text a t =>
        cases ho2 : o2 with
        | none =>
          refine ⟨?_, ?_⟩
          · intro pr hpr; simpa [processConstraint, hlk1, ho2, hd1] using hpr
          · intro eq heq; left; simpa [processConstraint, hlk1, ho2, hd1] using heq
        | some j =>
          cases hlkj : lookupObject objects j with
          | none =>
            refine ⟨?_, ?_⟩
            · intro pr hpr; simpa [processConstraint, hlk1, ho2, hlkj, hd1] using hpr
            · intro eq heq; left; simpa [processConstraint, hlk1, ho2, hlkj, hd1] using heq
          | some oj =>
            refine ⟨?_, ?_⟩
            · intro pr hpr
              simpa [processConstraint, hlk1, ho2, hlkj, hd1, pointLikeObject] using hpr
            · intro eq heq
              left
              simpa [processConstraint, hlk1, ho2, hlkj, hd1, pointLikeObject] using heq
  | coincident o1 o2 =>
    cases hlk1 : lookupObject objects o1 with
    | none =>
      refine ⟨?_, ?_⟩
      · intro pr hpr; simpa [processConstraint, hlk1] using hpr
      · intro eq heq; left; simpa [processConstraint, hlk1] using heq
    | some obj1 =>
      cases hlk2 : lookupObject objects o2 with
      | none =>
        refine ⟨?_, ?_⟩
        · intro pr hpr; simpa [processConstraint, hlk1, hlk2] using hpr
        · intro eq heq; left; simpa [processConstraint, hlk1, hlk2] using heq
      | some obj2 =>
        by_cases hpp : (pointLikeObject obj1.data && pointLikeObject obj2.data) = true
        · have hpc : processConstraint objects acc (.coincident o1 o2) =
              (addVars objects acc.1
                [(obj1.id, 0), (obj1.id, 1), (obj2.id, 0), (obj2.id, 1)],
               acc.2 ++ [.coincX obj1.id obj2.id, .coincY obj1.id obj2.id]) := by
            simp [processConstraint, hlk1, hlk2, hpp, addVars]
          rw [hpc]
          have hx1 : ∃ ob, lookupObject objects obj1.id = some ob :=
            ⟨obj1, coherent_self_lookup objects o1 obj1 hcoh hlk1⟩
          have hx2 : ∃ ob, lookupObject objects obj2.id = some ob :=
            ⟨obj2, coherent_self_lookup objects o2 obj2 hcoh hlk2⟩
          refine ⟨?_, ?_⟩
          · intro pr hpr
            exact addVars_mono objects _ acc.1 pr hpr
          · intro eq heq
            rcases List.mem_append.mp heq with ho | hn
            · exact Or.inl ho
            · refine Or.inr ?_
              intro pr hpr
              have hvars : pr ∈ ([(obj1.id, 0), (obj1.id, 1), (obj2.id, 0), (obj2.id, 1)] :
                  List (ObjectID × Nat)) := by
                rcases (by simpa using hn : eq = SolverEq.coincX obj1.id obj2.id ∨
                    eq = SolverEq.coincY obj1.id obj2.id) with he | he <;>
                  (subst he; simpa [eqVars] using hpr)
              refine addVars_VarOK objects _ acc.1 pr hvars ?_
              simp only [List.mem_cons, List.mem_singleton] at hvars
              rcases hvars with h | h | h | h | h <;>
                first
                  | (subst h; exact hx1)
                  | (subst h; exact hx2)
                  | simp at h
        · have hproceedPL : ∀ (lineOp pointOp : ObjectID) (lineObj pointObj : CanvasObject)
              (a1 a2 : ObjectID),
              lookupObject objects lineOp = some lineObj →
              lookupObject objects pointOp = some pointObj →
              lineObj.data = .line a1 a2 →
              OperandOK objects lineOp →
              processConstraint objects acc (.coincident o1 o2) =
                (addVars objects acc.1
                  [(a1, 0), (a1, 1), (a2, 0), (a2, 1), (pointObj.id, 0), (pointObj.id, 1)],
                 acc.2 ++ [.coincPL a1 a2 pointObj.id]) →
              (∀ pr ∈ acc.1.jacCol,
                pr ∈ (processConstraint objects acc (.coincident o1 o2)).1.jacCol) ∧
              (∀ eq ∈ (processConstraint objects acc (.coincident o1 o2)).2,
                eq ∈ acc.2 ∨
                  ∀ pr ∈ eqVars eq,
                    VarOK objects (processConstraint objects acc (.coincident o1 o2)).1.jacCol
                      (pr : ObjectID × Nat).1 pr.2) := by
            intro lineOp pointOp lineObj pointObj a1 a2 hlkL hlkP hdL hokL hpc
            have hend := OperandOK_line_endpoints objects lineOp lineObj a1 a2 hokL hlkL hdL
            have hxp : ∃ ob, lookupObject objects pointObj.id = some ob :=
              ⟨pointObj, coherent_self_lookup objects pointOp pointObj hcoh hlkP⟩
            rw [hpc]
            refine ⟨?_, ?_⟩
            · intro pr hpr
              exact addVars_mono objects _ acc.1 pr hpr
            · intro eq heq
              rcases List.mem_append.mp heq with ho | hn
              · exact Or.inl ho
              · have heqq : eq = .coincPL a1 a2 pointObj.id := by simpa using hn
                subst heqq
                refine Or.inr ?_
                intro pr hpr
                refine addVars_VarOK objects _ acc.1 pr (by simpa [eqVars] using hpr) ?_
                simp only [eqVars, List.mem_cons, List.mem_singleton] at hpr
                rcases hpr with h | h | h | h | h | h | h <;>
                  first
                    | (subst h; exact pointlikeExists_lookup hend.1)
                    | (subst h; exact pointlikeExists_lookup hend.2)
                    | (subst h; exact hxp)
                    | simp at h
          cases hd1 : obj1.data with
          | line a1 a2 =>
            cases hd2 : obj2.data with
            | node pt =>
              exact hproceedPL o1 o2 obj1 obj2 a1 a2 hlk1 hlk2 hd1
                (hok o1 (by simp [constraintOperandIDs]))
                (by simp [processConstraint, hlk1, hlk2, hpp, hd1, hd2, addVars,
                  pointLikeObject])
            | fixedNode pt =>
              exact hproceedPL o1 o2 obj1 obj2 a1 a2 hlk1 hlk2 hd1
                (hok o1 (by simp [constraintOperandIDs]))
                (by simp [processConstraint, hlk1, hlk2, hpp, hd1, hd2, addVars,
                  pointLikeObject])
            | line b1 b2 =>
              refine ⟨?_, ?_⟩
              · intro pr hpr
                simpa [processConstraint, hlk1, hlk2, hpp, hd1, hd2, pointLikeObject] using hpr
              · intro eq heq
                left
                simpa [processConstraint, hlk1, hlk2, hpp, hd1, hd2, pointLikeObject] using heq
            | path ps ls =>
              refine ⟨?_, ?_⟩
              · intro pr hpr
                simpa [processConstraint, hlk1, hlk2, hpp, hd1, hd2, pointLikeObject] using hpr
              · intro eq heq
                left
                simpa [processConstraint, hlk1, hlk2, hpp, hd1, hd2, pointLikeObject] using heq
            | text a t =>
              refine ⟨?_, ?_⟩
              · intro pr hpr
                simpa [processConstraint, hlk1, hlk2, hpp, hd1, hd2, pointLikeObject] using hpr
              · intro eq heq
                left
                simpa [processConstraint, hlk1, hlk2, hpp, hd1, hd2, pointLikeObject] using heq
          | node pt =>
            cases hd2 : obj2.data with
            | line a1 a2 =>
              exact hproceedPL o2 o1 obj2 obj1 a1 a2 hlk2 hlk1 hd2
                (hok o2 (by simp [constraintOperandIDs]))
                (by simp [processConstraint, hlk1, hlk2, hpp, hd1, hd2, addVars,
                  pointLikeObject])
            | node pt2 =>
              exact absurd (by simp [hd1, hd2, pointLikeObject]) hpp
            | fixedNode pt2 =>
              exact absurd (by simp [hd1, hd2, pointLikeObject]) hpp
            | path ps ls =>
              refine ⟨?_, ?_⟩
              · intro pr hpr
                simpa [processConstraint, hlk1, hlk2, hpp, hd1, hd2, pointLikeObject] using hpr
              · intro eq heq
                left
                simpa [processConstraint, hlk1, hlk2, hpp, hd1, hd2, pointLikeObject] using heq
            | text a t =>
              refine ⟨?_, ?_⟩
              · intro pr hpr
                simpa [processConstraint, hlk1, hlk2, hpp, hd1, hd2, pointLikeObject] using hpr
              · intro eq heq
                left
                simpa [processConstraint, hlk1, hlk2, hpp, hd1, hd2, pointLikeObject] using heq
          | fixedNode pt =>
            cases hd2 : obj2.data with
            | line a1 a2 =>
              exact hproceedPL o2 o1 obj2 obj1 a1 a2 hlk2 hlk1 hd2
                (hok o2 (by simp [constraintOperandIDs]))
                (by simp [processConstraint, hlk1, hlk2, hpp, hd1, hd2, addVars,
                  pointLikeObject])
            | node pt2 =>
              exact absurd (by simp [hd1, hd2, pointLikeObject]) hpp
            | fixedNode pt2 =>
              exact absurd (by simp [hd1, hd2, pointLikeObject]) hpp
            | path ps ls =>
              refine ⟨?_, ?_⟩
              · intro pr hpr
                simpa [processConstraint, hlk1, hlk2, hpp, hd1, hd2, pointLikeObject] using hpr
              · intro eq heq
                left
                simpa [processConstraint, hlk1, hlk2, hpp, hd1, hd2, pointLikeObject] using heq
            | text a t =>
              refine ⟨?_, ?_⟩
              · intro pr hpr
                simpa [processConstraint, hlk1, hlk2, hpp, hd1, hd2, pointLikeObject] using hpr
              · intro eq heq
                left
                simpa [processConstraint, hlk1, hlk2, hpp, hd1, hd2, pointLikeObject] using heq
          | path ps ls =>
            cases hd2 : obj2.data <;>
              (refine ⟨?_, ?_⟩
               · intro pr hpr
                 simpa [processConstraint, hlk1, hlk2, hpp, hd1, hd2, pointLikeObject] using hpr
               · intro eq heq
                 left
                 simpa [processConstraint, hlk1, hlk2, hpp, hd1, hd2, pointLikeObject] using heq)
          | text a t =>
            cases hd2 : obj2.data <;>
              (refine ⟨?_, ?_⟩
               · intro pr hpr
                 simpa [processConstraint, hlk1, hlk2, hpp, hd1, hd2, pointLikeObject] using hpr
               · intro eq heq
                 left
                 simpa [processConstraint, hlk1, hlk2, hpp, hd1, hd2, pointLikeObject] using heq)
  | horizontal o =>
    cases hlk : lookupObject objects o with
    | none =>
      refine ⟨?_, ?_⟩
      · intro pr hpr; simpa [processConstraint, hlk] using hpr
      · intro eq heq; left; simpa [processConstraint, hlk] using heq
    | some obj =>
      cases hd : obj.data <;>
        first
        | (refine ⟨?_, ?_⟩
           · intro pr hpr; simpa [processConstraint, hlk, hd] using hpr
           · intro eq heq; left; simpa [processConstraint, hlk, hd] using heq)
        | skip
      rename_i p1 p2
      have hpc : processConstraint objects acc (.horizontal o) =
          (addVars objects acc.1 [(p1, 1), (p2, 1)], acc.2 ++ [.horiz p1 p2]) := by
        simp [processConstraint, hlk, hd, addVars]
      rw [hpc]
      have hend := OperandOK_line_endpoints objects o obj p1 p2
        (hok o (by simp [constraintOperandIDs])) hlk hd
      refine ⟨?_, ?_⟩
      · intro pr hpr
        exact addVars_mono objects _ acc.1 pr hpr
      · intro eq heq
        rcases List.mem_append.mp heq with ho | hn
        · exact Or.inl ho
        · have heqq : eq = .horiz p1 p2 := by simpa using hn
          subst heqq
          refine Or.inr ?_
          intro pr hpr
          refine addVars_VarOK objects _ acc.1 pr (by simpa [eqVars] using hpr) ?_
          simp only [eqVars, List.mem_cons, List.mem_singleton] at hpr
          rcases hpr with h | h | h <;> first
            | (subst h; exact pointlikeExists_lookup hend.1)
            | (subst h; exact pointlikeExists_lookup hend.2)
            | simp at h
  | vertical o =>
    cases hlk : lookupObject objects o with
    | none =>
      refine ⟨?_, ?_⟩
      · intro pr hpr; simpa [processConstraint, hlk] using hpr
      · intro eq heq; left; simpa [processConstraint, hlk] using heq
    | some obj =>
      cases hd : obj.data <;>
        first
        | (refine ⟨?_, ?_⟩
           · intro pr hpr; simpa [processConstraint, hlk, hd] using hpr
           · intro eq heq; left; simpa [processConstraint, hlk, hd] using heq)
        | skip
      rename_i p1 p2
      have hpc : processConstraint objects acc (.vertical o) =
          (addVars objects acc.1 [(p1, 0), (p2, 0)], acc.2 ++ [.vert p1 p2]) := by
        simp [processConstraint, hlk, hd, addVars]
      rw [hpc]
      have hend := OperandOK_line_endpoints objects o obj p1 p2
        (hok o (by simp [constraintOperandIDs])) hlk hd
      refine ⟨?_, ?_⟩
      · intro pr hpr
        exact addVars_mono objects _ acc.1 pr hpr
      · intro eq heq
        rcases List.mem_append.mp heq with ho | hn
        · exact Or.inl ho
        · have heqq : eq = .vert p1 p2 := by simpa using hn
          subst heqq
          refine Or.inr ?_
          intro pr hpr
          refine addVars_VarOK objects _ acc.1 pr (by simpa [eqVars] using hpr) ?_
          simp only [eqVars, List.mem_cons, List.mem_singleton] at hpr
          rcases hpr with h | h | h <;> first
            | (subst h; exact pointlikeExists_lookup hend.1)
            | (subst h; exact pointlikeExists_lookup hend.2)
            | simp at h

theorem foldl_jacCol_mono (objects : ObjectMap) (l : List Constraint)
    (hcoh : coherent objects)
    (hok : ∀ c ∈ l, ∀ i ∈ constraintOperandIDs c, OperandOK objects i) :
    ∀ (acc : SolverBuild × List SolverEq), ∀ pr ∈ acc.1.jacCol,
      pr ∈ (l.foldl (processConstraint objects) acc).1.jacCol := by
  induction l with
  | nil => intro acc pr hpr; exact hpr
  | cons c rest ih =>
    intro acc pr hpr
    simp only [List.foldl_cons]
    exact ih (fun c2 hc2 => hok c2 (List.mem_cons_of_mem c hc2)) _ pr
      ((processConstraint_step objects acc c hcoh
        (hok c (List.mem_cons_self c rest))).1 pr hpr)

theorem buildSolver_safe (objects : ObjectMap) (cs : List Constraint)
    (hcoh : coherent objects)
    (hok : ∀ c ∈ cs, ∀ i ∈ constraintOperandIDs c, OperandOK objects i) :
    ∀ eq ∈ (buildSolver objects cs).2, ∀ pr ∈ eqVars eq,
      VarOK objects (buildSolver objects cs).1.jacCol (pr : ObjectID × Nat).1 pr.2 := by
  have key : ∀ (l : List Constraint) (acc : SolverBuild × List SolverEq),
      (∀ c ∈ l, ∀ i ∈ constraintOperandIDs c, OperandOK objects i) →
      (∀ eq ∈ acc.2, ∀ pr ∈ eqVars eq,
        VarOK objects acc.1.jacCol (pr : ObjectID × Nat).1 pr.2) →
      ∀ eq ∈ (l.foldl (processConstraint objects) acc).2, ∀ pr ∈ eqVars eq,
        VarOK objects (l.foldl (processConstraint objects) acc).1.jacCol
          (pr : ObjectID × Nat).1 pr.2 := by
    intro l
    induction l with
    | nil => intro acc _ hinv; exact hinv
    | cons c rest ih =>
      intro acc hokl hinv
      simp only [List.foldl_cons]
      refine ih _ (fun c2 hc2 => hokl c2 (List.mem_cons_of_mem c hc2)) ?_
      intro eq heq pr hpr
      have hstep := processConstraint_step objects acc c hcoh
        (hokl c (List.mem_cons_self c rest))
      rcases hstep.2 eq heq with hold | hnew
      · exact VarOK_mono objects _ _ hstep.1 pr.1 pr.2 (hinv eq hold pr hpr)
      · exact hnew pr hpr
  intro eq heq pr hpr
  exact key cs (⟨[], [], []⟩, []) hok (by simp) eq heq pr hpr

theorem mapM_ok {α β : Type} (l : List α) (f : α → Except String β)
    (h : ∀ a ∈ l, ∃ b, f a = .ok b) : ∃ bs, l.mapM f = .ok bs := by
  induction l with
  | nil => exact ⟨[], rfl⟩
  | cons a rest ih =>
    obtain ⟨b, hb⟩ := h a (List.mem_cons_self a rest)
    obtain ⟨bs, hbs⟩ := ih (fun x hx => h x (List.mem_cons_of_mem a hx))
    refine ⟨b :: bs, ?_⟩
    rw [List.mapM_cons, hb, except_bind_ok, hbs, except_bind_ok]
    rfl

theorem newtonStepE_ok (oracle : SvdOracle) (consFns : List (List ℚ → Except String ℚ))
    (jacFns : List (List ℚ → List ℚ → Except String (List ℚ)))
    (hc : ∀ f ∈ consFns, ∀ x, ∃ v, f x = .ok v)
    (hj : ∀ g ∈ jacFns, ∀ x r, ∃ v, g x r = .ok v) (x : List ℚ) :
    ∃ y, newtonStepE oracle consFns jacFns x = .ok y := by
  obtain ⟨jr, hjr⟩ := mapM_ok jacFns (fun g => g x (List.replicate x.length 0))
    (fun g hg => hj g hg x (List.replicate x.length 0))
  obtain ⟨fr, hfr⟩ := mapM_ok consFns (fun f => do pure (-(← f x)))
    (fun f hf => by
      obtain ⟨v, hv⟩ := hc f hf x
      refine ⟨-v, ?_⟩
      show (f x >>= fun w => pure (-w)) = Except.ok (-v)
      rw [hv, except_bind_ok]
      rfl)
  refine ⟨x.mapIdx (fun r xr => xr + (oracle jr fr).getD r 0), ?_⟩
  unfold newtonStepE
  rw [hjr, except_bind_ok, hfr, except_bind_ok]
  rfl

theorem newtonIterE_ok (oracle : SvdOracle) (consFns : List (List ℚ → Except String ℚ))
    (jacFns : List (List ℚ → List ℚ → Except String (List ℚ)))
    (hc : ∀ f ∈ consFns, ∀ x, ∃ v, f x = .ok v)
    (hj : ∀ g ∈ jacFns, ∀ x r, ∃ v, g x r = .ok v) :
    ∀ (n : Nat) (x : List ℚ), ∃ y, newtonIterE oracle consFns jacFns n x = .ok y := by
  intro n
  induction n with
  | zero => intro x; exact ⟨x, rfl⟩
  | succ n ih =>
    intro x
    obtain ⟨y, hy⟩ := newtonStepE_ok oracle consFns jacFns hc hj x
    obtain ⟨z, hz⟩ := ih y
    refine ⟨z, ?_⟩
    show (newtonStepE oracle consFns jacFns x) >>=
        (newtonIterE oracle consFns jacFns n) = .ok z
    rw [hy, except_bind_ok, hz]

theorem transformConstraints_ok (oracle : SvdOracle) (objects : ObjectMap)
    (cs : List Constraint) (hcoh : coherent objects)
    (hok : ∀ c ∈ cs, ∀ i ∈ constraintOperandIDs c, OperandOK objects i) :
    ∃ m2, transformConstraints oracle objects cs = .ok m2 := by
  have hsafe := buildSolver_safe objects cs hcoh hok
  have hc : ∀ f ∈ (buildSolver objects cs).2.map
      (evalResidual objects (buildSolver objects cs).1.jacCol), ∀ x, ∃ v, f x = .ok v := by
    intro f hf x
    obtain ⟨eq, heq, hfe⟩ := List.mem_map.mp hf
    rw [← hfe]
    exact evalResidual_ok objects _ eq (hsafe eq heq) x
  have hj : ∀ g ∈ (buildSolver objects cs).2.map
      (evalJacRow objects (buildSolver objects cs).1.jacCol), ∀ x r, ∃ v, g x r = .ok v := by
    intro g hg x r
    obtain ⟨eq, heq, hge⟩ := List.mem_map.mp hg
    rw [← hge]
    exact evalJacRow_ok objects _ eq (hsafe eq heq) x r
  obtain ⟨y, hy⟩ := newtonIterE_ok oracle _ _ hc hj 100 (buildSolver objects cs).1.xInit
  refine ⟨applyWrites objects (buildSolver objects cs).1.writes y, ?_⟩
  simp only [transformConstraints, newtonSolve]
  rw [hy]

/- ------------------------------------------------------------------ -/
/- Further map lemmas for the kernel invariant                         -/
/- ------------------------------------------------------------------ -/

theorem lookup_none_of_not_mem (m : ObjectMap) (k : ObjectID)
    (h : k ∉ m.map Prod.fst) : lookupObject m k = none := by
  cases hl : lookupObject m k with
  | none => rfl
  | some v => exact absurd (keys_mem_of_lookup m k v hl) h

theorem lookup_filter (m : ObjectMap) (p : ObjectID × CanvasObject → Bool)
    (k : ObjectID) (v : CanvasObject)
    (h : lookupObject m k = some v) (hp : p (k, v) = true) :
    lookupObject (m.filter p) k = some v := by
  induction m with
  | nil => simp [lookupObject] at h
  | cons e rest ih =>
    by_cases he : e.1 = k
    · rw [lookupObject, if_pos he] at h
      have hev : e = (k, v) := Prod.ext he (Option.some.injEq _ _ |>.mp h)
      subst hev
      rw [List.filter_cons_of_pos hp, lookupObject, if_pos rfl]
    · rw [lookupObject, if_neg he] at h
      by_cases hpe : p e = true
      · rw [List.filter_cons_of_pos hpe, lookupObject, if_neg he]
        exact ih h
      · rw [List.filter_cons_of_neg (by simpa using hpe)]
        exact ih h

theorem keysNodup_filter (m : ObjectMap) (p : ObjectID × CanvasObject → Bool)
    (hnd : keysNodup m) : keysNodup (m.filter p) :=
  hnd.sublist ((List.filter_sublist _).map Prod.fst)

theorem coherent_filter (m : ObjectMap) (p : ObjectID × CanvasObject → Bool)
    (hc : coherent m) : coherent (m.filter p) :=
  fun e he => hc e (List.mem_of_mem_filter he)

theorem keysLE_filter (m : ObjectMap) (p : ObjectID × CanvasObject → Bool) (n : ObjectID)
    (hb : keysLE m n) : keysLE (m.filter p) n :=
  fun e he => hb e (List.mem_of_mem_filter he)

theorem disjointKeys_filter (t m : ObjectMap) (p : ObjectID × CanvasObject → Bool)
    (hd : disjointKeys m t) : disjointKeys (m.filter p) t :=
  fun e he f hf => hd e (List.mem_of_mem_filter he) f hf

theorem disjointKeys_append_right (m a b : ObjectMap)
    (h1 : disjointKeys m a) (h2 : disjointKeys m b) : disjointKeys m (a ++ b) := by
  intro e he f hf
  rcases List.mem_append.mp hf with hf | hf
  · exact h1 e he f hf
  · exact h2 e he f hf

theorem disjointKeys_of_gt (m t : ObjectMap) (n : ObjectID)
    (hle : keysLE m n) (hgt : ∀ f ∈ t, n < (f : ObjectID × CanvasObject).1) :
    disjointKeys m t := by
  intro e he f hf
  exact ne_of_lt (lt_of_le_of_lt (hle e he) (hgt f hf))

theorem keysLE_singleton (k : ObjectID) (v : CanvasObject) (n : ObjectID) (h : k ≤ n) :
    keysLE [(k, v)] n := by
  intro e he
  simp only [List.mem_singleton] at he
  subst he
  exact h

theorem pointlikeExists_sub (m m2 : ObjectMap) (k : ObjectID)
    (hsub : ∀ j v, lookupObject m j = some v → lookupObject m2 j = some v)
    (h : pointlikeExists m k) : pointlikeExists m2 k := by
  obtain ⟨o, ho, hp⟩ := h
  exact ⟨o, hsub k o ho, hp⟩

theorem OperandOK_sub (m m2 : ObjectMap) (k : ObjectID)
    (hsub : ∀ j v, lookupObject m j = some v → lookupObject m2 j = some v)
    (h : OperandOK m k) : OperandOK m2 k := by
  obtain ⟨o, ho, hp | ⟨p1, p2, hl, h1, h2⟩⟩ := h
  · exact ⟨o, hsub k o ho, Or.inl hp⟩
  · exact ⟨o, hsub k o ho, Or.inr ⟨p1, p2, hl,
      pointlikeExists_sub m m2 p1 hsub h1, pointlikeExists_sub m m2 p2 hsub h2⟩⟩

theorem lookup_append_sub (m madd : ObjectMap) (j : ObjectID) (v : CanvasObject)
    (h : lookupObject m j = some v) : lookupObject (m ++ madd) j = some v := by
  rw [lookupObject_append, h]

theorem execToolActions_eq_foldl (ts : ToolState) (n : ObjectID) (l : List ToolAction) :
    execToolActions ts n l = l.foldl toolStep (ts, false, n) := rfl

theorem disjointKeys_symm (a b : ObjectMap) (h : disjointKeys a b) : disjointKeys b a :=
  fun f hf e he => (h e he f hf).symm

theorem foldTool_StepOK (objects : ObjectMap) :
    ∀ (l : List ToolAction), (∀ a ∈ l, StepOK objects a) →
    ∀ (acc : ToolState × Bool × ObjectID),
      ToolOK acc.1.tool objects acc.2.2 → keysLE objects acc.2.2 →
      ToolOK (l.foldl toolStep acc).1.tool objects (l.foldl toolStep acc).2.2 ∧
      acc.2.2 ≤ (l.foldl toolStep acc).2.2 := by
  intro l
  induction l with
  | nil => intro _ acc h1 _; exact ⟨h1, le_refl _⟩
  | cons a rest ih =>
    intro hall acc h1 h2
    simp only [List.foldl_cons]
    obtain ⟨hok, hle⟩ := hall a (List.mem_cons_self a rest) acc.1 acc.2.2 h1 h2
    have h2b : keysLE objects (executeToolAction acc.1 a acc.2.2).nextID :=
      keysLE_mono objects _ _ h2 hle
    obtain ⟨hok2, hle2⟩ := ih (fun x hx => hall x (List.mem_cons_of_mem a hx))
      (toolStep acc a) hok h2b
    exact ⟨hok2, le_trans hle hle2⟩

theorem stepOK_updateMousePoint (objects : ObjectMap) (p : Vec2D) :
    StepOK objects (.updateMousePoint p) :=
  fun _ n h1 _ => ⟨h1, le_refl n⟩

theorem stepOK_resizeView (objects : ObjectMap) (w h : ℚ) :
    StepOK objects (.resizeView w h) :=
  fun _ n h1 _ => ⟨h1, le_refl n⟩

theorem stepOK_setViewOffset (objects : ObjectMap) (o : Vec2D) :
    StepOK objects (.setViewOffset o) :=
  fun _ n h1 _ => ⟨h1, le_refl n⟩

theorem stepOK_startPan (objects : ObjectMap) (p : Vec2D) :
    StepOK objects (.startPan p) :=
  fun _ n h1 _ => ⟨h1, le_refl n⟩

theorem stepOK_stopPan (objects : ObjectMap) :
    StepOK objects .stopPan :=
  fun _ n h1 _ => ⟨h1, le_refl n⟩

theorem stepOK_addHistory (objects : ObjectMap) (a : DataAction) :
    StepOK objects (.addHistory a) :=
  fun _ n h1 _ => ⟨h1, le_refl n⟩

theorem stepOK_updatePan (objects : ObjectMap) : StepOK objects .updatePan := by
  intro ts n h1 _
  cases hp : ts.pan with
  | panning start =>
    refine ⟨?_, ?_⟩ <;> simp only [executeToolAction, hp]
    · exact h1
    · exact le_refl n
  | idle =>
    refine ⟨?_, ?_⟩ <;> simp only [executeToolAction, hp]
    · exact h1
    · exact le_refl n

theorem stepOK_deselectObject (objects : ObjectMap) (oid : ObjectID) :
    StepOK objects (.deselectObject oid) := by
  intro ts n h1 _
  cases ht : ts.tool with
  | selector sel =>
    rw [ht] at h1
    by_cases hmem : oid ∈ sel
    · refine ⟨?_, ?_⟩ <;> simp only [executeToolAction, ht, if_pos hmem]
      · intro i hi
        exact h1 i (List.mem_of_mem_filter hi)
      · exact le_refl n
    · refine ⟨?_, ?_⟩ <;> simp only [executeToolAction, ht, if_neg hmem]
      · exact h1
      · exact le_refl n
  | pen m tid nxt =>
    rw [ht] at h1
    refine ⟨?_, ?_⟩ <;> simp only [executeToolAction, ht]
    · exact h1
    · exact le_refl n
  | text m tid =>
    rw [ht] at h1
    refine ⟨?_, ?_⟩ <;> simp only [executeToolAction, ht]
    · exact h1
    · exact le_refl n

theorem stepOK_selectObject (objects : ObjectMap) (oid : ObjectID)
    (hoid : OperandOK objects oid) : StepOK objects (.selectObject oid) := by
  intro ts n h1 _
  cases ht : ts.tool with
  | selector sel =>
    rw [ht] at h1
    refine ⟨?_, ?_⟩ <;> simp only [executeToolAction, ht]
    · intro i hi
      by_cases hmem : oid ∈ sel
      · rw [if_pos hmem] at hi
        exact h1 i hi
      · rw [if_neg hmem] at hi
        rcases List.mem_append.mp hi with hi | hi
        · exact h1 i hi
        · simp only [List.mem_singleton] at hi
          subst hi
          exact hoid
    · exact le_refl n
  | pen m tid nxt =>
    rw [ht] at h1
    refine ⟨?_, ?_⟩ <;> simp only [executeToolAction, ht]
    · exact h1
    · exact le_refl n
  | text m tid =>
    rw [ht] at h1
    refine ⟨?_, ?_⟩ <;> simp only [executeToolAction, ht]
    · exact h1
    · exact le_refl n

theorem disjointKeys_of_keys_eq_left (m m2 t : ObjectMap)
    (h : m2.map Prod.fst = m.map Prod.fst) (hd : disjointKeys m t) : disjointKeys m2 t := by
  intro e he f hf
  have : e.1 ∈ m2.map Prod.fst := by simpa using List.mem_map_of_mem Prod.fst he
  rw [h] at this
  obtain ⟨g, hg, hge⟩ := List.mem_map.mp this
  rw [← hge]
  exact hd g hg f hf

theorem TempOK_updateAt (m objects : ObjectMap) (n : ObjectID) (k : ObjectID)
    (f : CanvasObject → CanvasObject) (hf : ∀ o, (f o).id = o.id)
    (h : TempOK m objects n) : TempOK (updateAt m k f) objects n := by
  obtain ⟨hcoh, hnd, hle, hdis⟩ := h
  refine ⟨updateAt_coherent m k f hf hcoh, ?_, ?_, ?_⟩
  · exact keysNodup_of_keys_eq m _ (updateAt_keys m k f) hnd
  · exact keysLE_of_keys_eq m _ n (updateAt_keys m k f) hle
  · exact disjointKeys_of_keys_eq_left m _ objects (updateAt_keys m k f) hdis

theorem setNodeAt_id (m : ObjectMap) (j : ObjectID) (v : Vec2D) :
    ∀ o : CanvasObject,
      ((fun (o : CanvasObject) => match o.data with
        | .node _ => { o with data := CanvasObjectData.node v }
        | _ => o) o).id = o.id := by
  intro o
  cases hd : o.data <;> simp [hd]

theorem lookup_setNodeAt_other (m : ObjectMap) (j : ObjectID) (v : Vec2D) (k : ObjectID)
    (hk : k ≠ j) : lookupObject (setNodeAt m j v) k = lookupObject m k := by
  rw [setNodeAt, lookupObject_updateAt, if_neg hk]

theorem lookup_setNodeAt_nonNode (m : ObjectMap) (j : ObjectID) (v : Vec2D) (k : ObjectID)
    (o : CanvasObject) (h : lookupObject m k = some o) (hnn : ∀ q, o.data ≠ .node q) :
    lookupObject (setNodeAt m j v) k = some o := by
  by_cases hk : k = j
  · rw [setNodeAt, lookupObject_updateAt, if_pos hk, h]
    cases hd : o.data with
    | node q => exact absurd hd (hnn q)
    | fixedNode q => simp [hd]
    | line a b => simp [hd]
    | path ps ls => simp [hd]
    | text a s => simp [hd]
  · rw [lookup_setNodeAt_other m j v k hk, h]

theorem isNodeEntry_setNodeAt (m : ObjectMap) (j : ObjectID) (v : Vec2D) (k : ObjectID)
    (h : isNodeEntry m k) : isNodeEntry (setNodeAt m j v) k := by
  obtain ⟨o, q, hlk, hd⟩ := h
  by_cases hk : k = j
  · refine ⟨{ o with data := .node v }, v, ?_, rfl⟩
    rw [setNodeAt, lookupObject_updateAt, if_pos hk, hlk]
    simp [hd]
  · exact ⟨o, q, by rw [lookup_setNodeAt_other m j v k hk]; exact hlk, hd⟩

theorem PenShape_setNodeAt (m : ObjectMap) (tid nxt j : ObjectID) (v : Vec2D)
    (h : PenShape m tid nxt) : PenShape (setNodeAt m j v) tid nxt := by
  obtain ⟨htn, oc, onx, pn, ln, hnx, hnxd, hpnne, htid, htidd, hlen, hnodes, hlines⟩ := h
  refine ⟨htn, oc, onx, pn, ln, ?_, hnxd, hpnne, ?_, htidd, hlen, ?_, ?_⟩
  · exact lookup_setNodeAt_nonNode m j v nxt onx hnx (by intro q hq; rw [hnxd] at hq; cases hq)
  · exact lookup_setNodeAt_nonNode m j v tid oc htid (by intro q hq; rw [htidd] at hq; cases hq)
  · intro p hp
    exact isNodeEntry_setNodeAt m j v p (hnodes p hp)
  · intro i hi
    obtain ⟨lo, hlo, hlod⟩ := hlines i hi
    exact ⟨lo, lookup_setNodeAt_nonNode m j v _ lo hlo
      (by intro q hq; rw [hlod] at hq; cases hq), hlod⟩

theorem TempOK_setNodeAt (m objects : ObjectMap) (n : ObjectID) (j : ObjectID) (v : Vec2D)
    (h : TempOK m objects n) : TempOK (setNodeAt m j v) objects n :=
  TempOK_updateAt m objects n j _ (setNodeAt_id m j v) h

theorem stepOK_updateNextNode (objects : ObjectMap) (p : Vec2D) :
    StepOK objects (.updateNextNode p) := by
  intro ts n h1 _
  cases ht : ts.tool with
  | selector sel =>
    rw [ht] at h1
    refine ⟨?_, ?_⟩ <;> simp only [executeToolAction, ht]
    · exact h1
    · exact le_refl n
  | text m tid =>
    rw [ht] at h1
    refine ⟨?_, ?_⟩ <;> simp only [executeToolAction, ht]
    · exact h1
    · exact le_refl n
  | pen m tid nxt =>
    rw [ht] at h1
    obtain ⟨htemp, hpen⟩ := h1
    obtain ⟨htn, oc, onx, pn, ln, hnx, hnxd, hpnne, htid, htidd, hlen, hnodes, hlines⟩ := hpen
    have hgl : pn.getLast? = some (pn.getLast hpnne) := List.getLast?_eq_getLast pn hpnne
    refine ⟨?_, ?_⟩ <;> simp only [executeToolAction, ht, hnx, hnxd, hgl]
    · refine ⟨TempOK_setNodeAt m objects n _ _ htemp, PenShape_setNodeAt m tid nxt _ _ ?_⟩
      exact ⟨htn, oc, onx, pn, ln, hnx, hnxd, hpnne, htid, htidd, hlen, hnodes, hlines⟩
    · exact le_refl n

theorem noLines_updateAt (m : ObjectMap) (k : ObjectID) (f : CanvasObject → CanvasObject)
    (hf : ∀ o a b, (f o).data = .line a b → o.data = .line a b)
    (h : noLines m) : noLines (updateAt m k f) := by
  intro e he a b
  obtain ⟨e0, he0, heq⟩ := List.mem_map.mp he
  by_cases hk : e0.1 = k
  · rw [if_pos hk] at heq
    rw [← heq]
    intro hline
    exact h e0 he0 a b (hf e0.2 a b hline)
  · rw [if_neg hk] at heq
    rw [← heq]
    exact h e0 he0 a b

theorem noLines_setNodeAt (m : ObjectMap) (j : ObjectID) (v : Vec2D)
    (h : noLines m) : noLines (setNodeAt m j v) := by
  refine noLines_updateAt m j _ ?_ h
  intro o a b hline
  cases hd : o.data <;> rw [hd] at hline <;> first
    | exact absurd (show CanvasObjectData.node v = CanvasObjectData.line a b from hline) (by simp)
    | exact absurd (show CanvasObjectData.text _ body = CanvasObjectData.line a b from hline) (by simp)
    | (rw [← hd]; exact hline)

theorem textSetter_id (body : String) :
    ∀ o : CanvasObject,
      ((fun (o : CanvasObject) => match o.data with
        | .text a _ => { o with data := CanvasObjectData.text a body }
        | _ => o) o).id = o.id := by
  intro o
  cases hd : o.data <;> simp [hd]

theorem noLines_textSetter (m : ObjectMap) (k : ObjectID) (body : String)
    (h : noLines m) :
    noLines (updateAt m k (fun (o : CanvasObject) => match o.data with
      | .text a _ => { o with data := CanvasObjectData.text a body }
      | _ => o)) := by
  refine noLines_updateAt m k _ ?_ h
  intro o a b hline
  cases hd : o.data <;> rw [hd] at hline <;> first
    | exact absurd (show CanvasObjectData.node v = CanvasObjectData.line a b from hline) (by simp)
    | exact absurd (show CanvasObjectData.text _ body = CanvasObjectData.line a b from hline) (by simp)
    | (rw [← hd]; exact hline)

theorem stepOK_updateNextText (objects : ObjectMap) (body : String) (p : Vec2D) :
    StepOK objects (.updateNextText body p) := by
  intro ts n h1 _
  cases ht : ts.tool with
  | selector sel =>
    rw [ht] at h1
    refine ⟨?_, ?_⟩ <;> simp only [executeToolAction, ht]
    · exact h1
    · exact le_refl n
  | pen m tid nxt =>
    rw [ht] at h1
    refine ⟨?_, ?_⟩ <;> simp only [executeToolAction, ht]
    · exact h1
    · exact le_refl n
  | text m tid =>
    rw [ht] at h1
    obtain ⟨htemp, hnl⟩ := h1
    cases hlk : lookupObject m tid with
    | none =>
      refine ⟨?_, ?_⟩ <;> simp only [executeToolAction, ht, hlk]
      · exact ⟨htemp, hnl⟩
      · exact le_refl n
    | some textObj =>
      cases hd : textObj.data with
      | node q =>
        refine ⟨?_, ?_⟩ <;> simp only [executeToolAction, ht, hlk, hd]
        · exact ⟨htemp, hnl⟩
        · exact le_refl n
      | fixedNode q =>
        refine ⟨?_, ?_⟩ <;> simp only [executeToolAction, ht, hlk, hd]
        · exact ⟨htemp, hnl⟩
        · exact le_refl n
      | line a b =>
        refine ⟨?_, ?_⟩ <;> simp only [executeToolAction, ht, hlk, hd]
        · exact ⟨htemp, hnl⟩
        · exact le_refl n
      | path ps ls =>
        refine ⟨?_, ?_⟩ <;> simp only [executeToolAction, ht, hlk, hd]
        · exact ⟨htemp, hnl⟩
        · exact le_refl n
      | text anchorID oldBody =>
        cases hlk2 : lookupObject m anchorID with
        | none =>
          refine ⟨?_, ?_⟩ <;> simp only [executeToolAction, ht, hlk, hd, hlk2]
          · exact ⟨htemp, hnl⟩
          · exact le_refl n
        | some pointObj =>
          cases hd2 : pointObj.data with
          | node q =>
            refine ⟨?_, ?_⟩ <;> simp only [executeToolAction, ht, hlk, hd, hlk2, hd2]
            · refine ⟨TempOK_setNodeAt _ objects n _ _
                (TempOK_updateAt m objects n tid _ (textSetter_id body) htemp),
                noLines_setNodeAt _ _ _ (noLines_textSetter m tid body hnl)⟩
            · exact le_refl n
          | fixedNode q =>
            refine ⟨?_, ?_⟩ <;> simp only [executeToolAction, ht, hlk, hd, hlk2, hd2]
            · exact ⟨htemp, hnl⟩
            · exact le_refl n
          | line a b =>
            refine ⟨?_, ?_⟩ <;> simp only [executeToolAction, ht, hlk, hd, hlk2, hd2]
            · exact ⟨htemp, hnl⟩
            · exact le_refl n
          | path ps ls =>
            refine ⟨?_, ?_⟩ <;> simp only [executeToolAction, ht, hlk, hd, hlk2, hd2]
            · exact ⟨htemp, hnl⟩
            · exact le_refl n
          | text x s =>
            refine ⟨?_, ?_⟩ <;> simp only [executeToolAction, ht, hlk, hd, hlk2, hd2]
            · exact ⟨htemp, hnl⟩
            · exact le_refl n

theorem stepOK_selectTool (objects : ObjectMap) (tk : ToolKind) :
    StepOK objects (.selectTool tk) := by
  intro ts n h1 h2
  by_cases hk : ts.tool.kind = tk
  · refine ⟨?_, ?_⟩ <;> simp only [executeToolAction, if_pos hk]
    · exact h1
    · exact le_refl n
  · cases tk with
    | selector =>
      refine ⟨?_, ?_⟩ <;> simp only [executeToolAction, if_neg hk]
      · intro i hi
        simp at hi
      · exact le_refl n
    | pen =>
      refine ⟨?_, ?_⟩ <;> simp only [executeToolAction, if_neg hk]
      · refine ⟨⟨?_, ?_, ?_, ?_⟩, ?_⟩
        · intro e he
          simp only [List.mem_cons, List.mem_singleton, List.not_mem_nil, or_false] at he
          rcases he with rfl | rfl | rfl <;> rfl
        · show (List.map Prod.fst _).Nodup
          simp
        · intro e he
          simp only [List.mem_cons, List.mem_singleton, List.not_mem_nil, or_false] at he
          rcases he with rfl | rfl | rfl <;> simp
        · intro e he f hf
          have hf2 : f.1 ≤ n := h2 f hf
          simp only [List.mem_cons, List.mem_singleton, List.not_mem_nil, or_false] at he
          rcases he with rfl | rfl | rfl <;>
            (intro hh; rw [← hh] at hf2; simp at hf2)
        · refine ⟨by simp, ⟨n + 1, false, .path [] []⟩,
            ⟨n + 3, false, .path [n + 2] []⟩, [n + 2], [], ?_, rfl, by simp, ?_, rfl, rfl, ?_, ?_⟩
          · show lookupObject _ (n + 3) = _
            rw [lookupObject, if_neg (by simp), lookupObject, if_neg (by simp),
              lookupObject, if_pos rfl]
          · show lookupObject _ (n + 1) = _
            rw [lookupObject, if_pos rfl]
          · intro p hp
            simp only [List.mem_singleton] at hp
            subst hp
            refine ⟨⟨n + 2, false, .node (transformViewportToData ts ts.mousePoint)⟩,
              transformViewportToData ts ts.mousePoint, ?_, rfl⟩
            show lookupObject _ (n + 2) = _
            rw [lookupObject, if_neg (by simp), lookupObject, if_pos rfl]
          · intro i hi
            simp at hi
      · show n ≤ n + 3
        simp
    | text =>
      refine ⟨?_, ?_⟩ <;> simp only [executeToolAction, if_neg hk]
      · refine ⟨⟨?_, ?_, ?_, ?_⟩, ?_⟩
        · intro e he
          simp only [List.mem_cons, List.mem_singleton, List.not_mem_nil, or_false] at he
          rcases he with rfl | rfl <;> rfl
        · show (List.map Prod.fst _).Nodup
          simp
        · intro e he
          simp only [List.mem_cons, List.mem_singleton, List.not_mem_nil, or_false] at he
          rcases he with rfl | rfl <;> simp
        · intro e he f hf
          have hf2 : f.1 ≤ n := h2 f hf
          simp only [List.mem_cons, List.mem_singleton, List.not_mem_nil, or_false] at he
          rcases he with rfl | rfl <;>
            (intro hh; rw [← hh] at hf2; simp at hf2)
        · intro e he a b
          simp only [List.mem_cons, List.mem_singleton, List.not_mem_nil, or_false] at he
          rcases he with rfl | rfl <;> simp
      · show n ≤ n + 2
        simp

theorem pushPath_id (nps nls : List ObjectID) :
    ∀ o : CanvasObject,
      ((fun (o : CanvasObject) => match o.data with
        | .path ps ls => { o with data := CanvasObjectData.path (ps ++ nps) (ls ++ nls) }
        | _ => o) o).id = o.id := by
  intro o
  cases hd : o.data <;> simp [hd]

theorem lookup_pushPath_other (m : ObjectMap) (k : ObjectID) (nps nls : List ObjectID)
    (j : ObjectID) (hj : j ≠ k) :
    lookupObject (pushPath m k nps nls) j = lookupObject m j := by
  rw [pushPath, lookupObject_updateAt, if_neg hj]

theorem lookup_pushPath_path (m : ObjectMap) (k : ObjectID) (nps nls : List ObjectID)
    (ps ls : List ObjectID) (o : CanvasObject)
    (h : lookupObject m k = some o) (hd : o.data = .path ps ls) :
    lookupObject (pushPath m k nps nls) k =
      some { o with data := .path (ps ++ nps) (ls ++ nls) } := by
  obtain ⟨oid, og, od⟩ := o
  have hd2 : od = .path ps ls := hd
  subst hd2
  rw [pushPath, lookupObject_updateAt, if_pos rfl, h]
  rfl

theorem addNode_core (objects m m2 : ObjectMap) (tid nxt n L : ObjectID)
    (oc onx : CanvasObject) (pn ln : List ObjectID) (pt : Vec2D)
    (htemp2 : TempOK m2 objects n)
    (hk2 : lookupObject m2 tid = some { oc with data := CanvasObjectData.path pn ln })
    (hk3 : ∀ j, j ≠ tid → lookupObject m2 j = lookupObject m j)
    (hle : keysLE m n) (h2 : keysLE objects n)
    (htn : tid ≠ nxt)
    (hnx : lookupObject m nxt = some onx) (hnxd : onx.data = .path pn ln)
    (hpnne : pn ≠ [])
    (htid0 : lookupObject m tid = some oc)
    (htidd : oc.data = CanvasObjectData.path pn.dropLast ln.dropLast)
    (hlen : ln.length + 1 = pn.length)
    (hnodes : ∀ q ∈ pn, isNodeEntry m q)
    (hlines : ∀ i, i < ln.length → ∃ lo, lookupObject m (ln.getD i 0) = some lo ∧
        lo.data = .line (pn.getD i 0) (pn.getD (i + 1) 0))
    (hL : pn.getLast hpnne = L) :
    ToolOK (.pen (pushPath (setObject (setObject m2 (n + 1) ⟨n + 1, false, .node pt⟩)
        (n + 2) ⟨n + 2, false, .line L (n + 1)⟩) nxt [n + 1] [n + 2]) tid nxt)
      objects (n + 2) := by
  obtain ⟨hcoh2, hnd2, hle2, hdis2⟩ := htemp2
  have hnxt_le : nxt ≤ n := lookup_keysLE m nxt onx n hle hnx
  have hfresh1 : ∀ e ∈ m2, (e : ObjectID × CanvasObject).1 ≠ n + 1 := by
    intro e he hh
    have h3 := hle2 e he
    rw [hh] at h3
    simp at h3
  have hm31 : setObject m2 (n + 1) (⟨n + 1, false, .node pt⟩ : CanvasObject)
      = m2 ++ [(n + 1, (⟨n + 1, false, .node pt⟩ : CanvasObject))] :=
    setObject_absent _ _ _ hfresh1
  have hfresh2 : ∀ e ∈ m2 ++ [(n + 1, (⟨n + 1, false, .node pt⟩ : CanvasObject))],
      (e : ObjectID × CanvasObject).1 ≠ n + 2 := by
    intro e he hh
    rcases List.mem_append.mp he with he | he
    · have h3 := hle2 e he
      rw [hh] at h3
      simp at h3
    · simp only [List.mem_singleton] at he
      subst he
      simp at hh
  have hm3 : setObject (setObject m2 (n + 1) (⟨n + 1, false, .node pt⟩ : CanvasObject))
        (n + 2) (⟨n + 2, false, .line L (n + 1)⟩ : CanvasObject)
      = m2 ++ [(n + 1, (⟨n + 1, false, .node pt⟩ : CanvasObject)),
               (n + 2, (⟨n + 2, false, .line L (n + 1)⟩ : CanvasObject))] := by
    rw [hm31, setObject_absent _ _ _ hfresh2]
    simp
  rw [hm3]
  have hlk_m3_nxt : lookupObject (m2 ++ [(n + 1, (⟨n + 1, false, .node pt⟩ : CanvasObject)),
      (n + 2, (⟨n + 2, false, .line L (n + 1)⟩ : CanvasObject))]) nxt = some onx := by
    apply lookup_append_left
    rw [hk3 nxt (Ne.symm htn)]
    exact hnx
  have hlk_m4_nxt : lookupObject (pushPath (m2 ++ [(n + 1, (⟨n + 1, false, .node pt⟩ : CanvasObject)),
      (n + 2, (⟨n + 2, false, .line L (n + 1)⟩ : CanvasObject))]) nxt [n + 1] [n + 2]) nxt
      = some { onx with data := .path (pn ++ [n + 1]) (ln ++ [n + 2]) } :=
    lookup_pushPath_path _ nxt [n + 1] [n + 2] pn ln onx hlk_m3_nxt hnxd
  have hlk_m4_other : ∀ j, j ≠ nxt →
      lookupObject (pushPath (m2 ++ [(n + 1, (⟨n + 1, false, .node pt⟩ : CanvasObject)),
        (n + 2, (⟨n + 2, false, .line L (n + 1)⟩ : CanvasObject))]) nxt [n + 1] [n + 2]) j
      = lookupObject (m2 ++ [(n + 1, (⟨n + 1, false, .node pt⟩ : CanvasObject)),
        (n + 2, (⟨n + 2, false, .line L (n + 1)⟩ : CanvasObject))]) j :=
    fun j hj => lookup_pushPath_other _ nxt _ _ j hj
  have hold : ∀ j (v : CanvasObject), lookupObject m j = some v → j ≠ tid → j ≠ nxt →
      lookupObject (pushPath (m2 ++ [(n + 1, (⟨n + 1, false, .node pt⟩ : CanvasObject)),
        (n + 2, (⟨n + 2, false, .line L (n + 1)⟩ : CanvasObject))]) nxt [n + 1] [n + 2]) j
      = some v := by
    intro j v hv hjt hjn
    rw [hlk_m4_other j hjn]
    apply lookup_append_left
    rw [hk3 j hjt]
    exact hv
  have htid_M4 : lookupObject (pushPath (m2 ++ [(n + 1, (⟨n + 1, false, .node pt⟩ : CanvasObject)),
      (n + 2, (⟨n + 2, false, .line L (n + 1)⟩ : CanvasObject))]) nxt [n + 1] [n + 2]) tid
      = some { oc with data := CanvasObjectData.path pn ln } := by
    rw [hlk_m4_other tid htn]
    exact lookup_append_left _ _ _ _ hk2
  have hnew1 : lookupObject (pushPath (m2 ++ [(n + 1, (⟨n + 1, false, .node pt⟩ : CanvasObject)),
      (n + 2, (⟨n + 2, false, .line L (n + 1)⟩ : CanvasObject))]) nxt [n + 1] [n + 2]) (n + 1)
      = some (⟨n + 1, false, .node pt⟩ : CanvasObject) := by
    rw [hlk_m4_other (n + 1) (by intro hh; rw [← hh] at hnxt_le; simp at hnxt_le)]
    rw [lookup_append_right]
    · rw [lookupObject, if_pos rfl]
    · exact lookup_none_of_gt m2 (n + 1) n hle2 (by simp)
  have hnew2 : lookupObject (pushPath (m2 ++ [(n + 1, (⟨n + 1, false, .node pt⟩ : CanvasObject)),
      (n + 2, (⟨n + 2, false, .line L (n + 1)⟩ : CanvasObject))]) nxt [n + 1] [n + 2]) (n + 2)
      = some (⟨n + 2, false, .line L (n + 1)⟩ : CanvasObject) := by
    rw [hlk_m4_other (n + 2) (by intro hh; rw [← hh] at hnxt_le; simp at hnxt_le)]
    rw [lookup_append_right]
    · rw [lookupObject, if_neg (by simp), lookupObject, if_pos rfl]
    · exact lookup_none_of_gt m2 (n + 2) n hle2 (by simp)
  have htempM3 : TempOK (m2 ++ [(n + 1, (⟨n + 1, false, .node pt⟩ : CanvasObject)),
      (n + 2, (⟨n + 2, false, .line L (n + 1)⟩ : CanvasObject))]) objects (n + 2) := by
    refine ⟨?_, ?_, ?_, ?_⟩
    · refine coherent_append _ _ hcoh2 ?_
      intro e he
      simp only [List.mem_cons, List.mem_singleton, List.not_mem_nil, or_false] at he
      rcases he with rfl | rfl <;> rfl
    · refine keysNodup_append _ _ hnd2 (by simp [keysNodup]) ?_
      intro e he f hf
      simp only [List.mem_cons, List.mem_singleton, List.not_mem_nil, or_false] at he
      have h3 := hle2 f hf
      rcases he with rfl | rfl <;> (intro hh; rw [← hh] at h3; simp at h3)
    · refine keysLE_append _ _ _ (keysLE_mono m2 n (n + 2) hle2 (by simp)) ?_
      intro e he
      simp only [List.mem_cons, List.mem_singleton, List.not_mem_nil, or_false] at he
      rcases he with rfl | rfl <;> simp
    · intro e he f hf
      rcases List.mem_append.mp he with he | he
      · exact hdis2 e he f hf
      · have h3 := h2 f hf
        simp only [List.mem_cons, List.mem_singleton, List.not_mem_nil, or_false] at he
        rcases he with rfl | rfl <;> (intro hh; rw [← hh] at h3; simp at h3)
  refine ⟨TempOK_updateAt _ objects (n + 2) nxt _ (pushPath_id [n + 1] [n + 2]) htempM3,
    htn, { oc with data := CanvasObjectData.path pn ln },
    { onx with data := .path (pn ++ [n + 1]) (ln ++ [n + 2]) },
    pn ++ [n + 1], ln ++ [n + 2], hlk_m4_nxt, rfl, by simp, htid_M4,
    by simp [List.dropLast_concat], by simpa using hlen, ?_, ?_⟩
  · intro q hq
    rcases List.mem_append.mp hq with hq | hq
    · obtain ⟨o, qq, hlk, hdn⟩ := hnodes q hq
      have hq_tid : q ≠ tid := by
        intro hh
        rw [hh, htid0] at hlk
        have h3 : oc = o := Option.some.inj hlk
        rw [← h3, htidd] at hdn
        cases hdn
      have hq_nxt : q ≠ nxt := by
        intro hh
        rw [hh, hnx] at hlk
        have h3 : onx = o := Option.some.inj hlk
        rw [← h3, hnxd] at hdn
        cases hdn
      exact ⟨o, qq, hold q o hlk hq_tid hq_nxt, hdn⟩
    · simp only [List.mem_singleton] at hq
      subst hq
      exact ⟨⟨n + 1, false, .node pt⟩, pt, hnew1, rfl⟩
  · intro i hi
    simp only [List.length_append, List.length_singleton] at hi
    rcases Nat.lt_succ_iff_lt_or_eq.mp hi with hi | rfl
    · obtain ⟨lo, hlo, hlod⟩ := hlines i hi
      have hline_tid : ln.getD i 0 ≠ tid := by
        intro hh
        rw [hh, htid0] at hlo
        have h3 : oc = lo := Option.some.inj hlo
        rw [← h3, htidd] at hlod
        cases hlod
      have hline_nxt : ln.getD i 0 ≠ nxt := by
        intro hh
        rw [hh, hnx] at hlo
        have h3 : onx = lo := Option.some.inj hlo
        rw [← h3, hnxd] at hlod
        cases hlod
      refine ⟨lo, ?_, ?_⟩
      · rw [List.getD_append _ _ _ _ hi]
        exact hold _ lo hlo hline_tid hline_nxt
      · rw [hlod, List.getD_append _ _ _ _ (by omega),
          List.getD_append _ _ _ _ (by omega)]
    · refine ⟨⟨n + 2, false, .line L (n + 1)⟩, ?_, ?_⟩
      · rw [List.getD_append_right _ _ _ _ (le_refl _)]
        simpa using hnew2
      · have e1 : (pn ++ [n + 1]).getD ln.length 0 = L := by
          rw [List.getD_append _ _ _ _ (by omega)]
          rw [← hL, List.getD_eq_getElem _ _ (by omega), List.getLast_eq_getElem]
          congr 1
          omega
        have e2 : (pn ++ [n + 1]).getD (ln.length + 1) 0 = n + 1 := by
          have hpl : ln.length + 1 = pn.length := hlen
          rw [hpl, List.getD_append_right _ _ _ _ (le_refl _)]
          simp
        rw [e1, e2]

theorem stepOK_addNode (objects : ObjectMap) (p : Vec2D) :
    StepOK objects (.addNode p) := by
  intro ts n h1 h2
  cases ht : ts.tool with
  | selector sel =>
    rw [ht] at h1
    refine ⟨?_, ?_⟩ <;> simp only [executeToolAction, ht]
    · exact h1
    · exact le_refl n
  | text m tid =>
    rw [ht] at h1
    refine ⟨?_, ?_⟩ <;> simp only [executeToolAction, ht]
    · exact h1
    · exact le_refl n
  | pen m tid nxt =>
    rw [ht] at h1
    obtain ⟨⟨hcoh, hnd, hle, hdis⟩, htn, oc, onx, pn, ln, hnx, hnxd, hpnne, htid, htidd,
      hlen, hnodes, hlines⟩ := h1
    have hgl : pn.getLast? = some (pn.getLast hpnne) := List.getLast?_eq_getLast pn hpnne
    by_cases hln : ln = []
    · subst hln
      refine ⟨?_, ?_⟩ <;>
        simp only [executeToolAction, ht, htid, htidd, hnx, hnxd, hgl, List.getLast?_nil]
      · refine addNode_core objects m _ tid nxt n _ oc onx pn [] _
          ⟨updateAt_coherent m tid _ (pushPath_id _ _) hcoh,
           keysNodup_of_keys_eq m _ (updateAt_keys m tid _) hnd,
           keysLE_of_keys_eq m _ n (updateAt_keys m tid _) hle,
           disjointKeys_of_keys_eq_left m _ objects (updateAt_keys m tid _) hdis⟩
          ?_ ?_ hle h2 htn hnx hnxd hpnne htid htidd hlen hnodes hlines rfl
        · have := lookup_pushPath_path m tid [pn.getLast hpnne] [] pn.dropLast [].dropLast
            oc htid htidd
          rw [List.dropLast_append_getLast hpnne] at this
          simpa using this
        · intro j hj
          exact lookup_pushPath_other m tid _ _ j hj
      · show n ≤ n + 2
        simp
    · have hgl2 : ln.getLast? = some (ln.getLast hln) := List.getLast?_eq_getLast ln hln
      refine ⟨?_, ?_⟩ <;>
        simp only [executeToolAction, ht, htid, htidd, hnx, hnxd, hgl, hgl2]
      · have hm1tid : lookupObject (pushPath m tid [pn.getLast hpnne] []) tid
            = some { oc with data := .path pn ln.dropLast } := by
          have := lookup_pushPath_path m tid [pn.getLast hpnne] [] pn.dropLast ln.dropLast
            oc htid htidd
          rw [List.dropLast_append_getLast hpnne] at this
          simpa using this
        refine addNode_core objects m _ tid nxt n _ oc onx pn ln _
          ⟨updateAt_coherent _ tid _ (pushPath_id _ _)
             (updateAt_coherent m tid _ (pushPath_id _ _) hcoh),
           keysNodup_of_keys_eq _ _ (updateAt_keys _ tid _)
             (keysNodup_of_keys_eq m _ (updateAt_keys m tid _) hnd),
           keysLE_of_keys_eq _ _ n (updateAt_keys _ tid _)
             (keysLE_of_keys_eq m _ n (updateAt_keys m tid _) hle),
           disjointKeys_of_keys_eq_left _ _ objects (updateAt_keys _ tid _)
             (disjointKeys_of_keys_eq_left m _ objects (updateAt_keys m tid _) hdis)⟩
          ?_ ?_ hle h2 htn hnx hnxd hpnne htid htidd hlen hnodes hlines rfl
        · have := lookup_pushPath_path (pushPath m tid [pn.getLast hpnne] []) tid
            [] [ln.getLast hln] pn ln.dropLast _ hm1tid rfl
          rw [List.dropLast_append_getLast hln] at this
          simpa using this
        · intro j hj
          rw [lookup_pushPath_other _ tid _ _ j hj, lookup_pushPath_other m tid _ _ j hj]
      · show n ≤ n + 2
        simp

/- ------------------------------------------------------------------ -/
/- Selector hit scan only returns sound operands                       -/
/- ------------------------------------------------------------------ -/

theorem hitScanAux_OperandOK (objects : ObjectMap) (pt : Vec2D)
    (hnd : keysNodup objects) (hcoh : coherent objects) :
    ∀ (l : List (ObjectID × CanvasObject)), (∀ e ∈ l, e ∈ objects) →
    ∀ oid, hitScanAux objects pt l = some oid → OperandOK objects oid := by
  intro l
  induction l with
  | nil =>
    intro _ oid h
    simp [hitScanAux] at h
  | cons e rest ih =>
    obtain ⟨k, obj⟩ := e
    intro hsub oid h
    have hmem : (k, obj) ∈ objects := hsub (k, obj) (List.mem_cons_self _ rest)
    have hrest : ∀ f ∈ rest, f ∈ objects := fun f hf => hsub f (List.mem_cons_of_mem _ hf)
    have hid : obj.id = k := hcoh (k, obj) hmem
    have hlkobj : lookupObject objects k = some obj := mem_lookup_nodup objects k obj hnd hmem
    rw [hitScanAux] at h
    cases hd : obj.data with
    | node q =>
      rw [hd] at h
      have h2 : (if hitNode q 15 pt then some obj.id else hitScanAux objects pt rest)
          = some oid := h
      by_cases hhit : hitNode q 15 pt
      · rw [if_pos hhit] at h2
        have : obj.id = oid := Option.some.inj h2
        rw [← this, hid]
        exact ⟨obj, hlkobj, Or.inl (by rw [hd]; rfl)⟩
      · rw [if_neg hhit] at h2
        exact ih hrest oid h2
    | fixedNode q =>
      rw [hd] at h
      have h2 : (if hitNode q 15 pt then some obj.id else hitScanAux objects pt rest)
          = some oid := h
      by_cases hhit : hitNode q 15 pt
      · rw [if_pos hhit] at h2
        have : obj.id = oid := Option.some.inj h2
        rw [← this, hid]
        exact ⟨obj, hlkobj, Or.inl (by rw [hd]; rfl)⟩
      · rw [if_neg hhit] at h2
        exact ih hrest oid h2
    | path ps ls =>
      rw [hd] at h
      exact ih hrest oid h
    | text a s =>
      rw [hd] at h
      exact ih hrest oid h
    | line p1 p2 =>
      rw [hd] at h
      have h2 : (match lookupObject objects p1, lookupObject objects p2 with
          | some o1, some o2 =>
            (match o1.data, o2.data with
              | CanvasObjectData.node q1, CanvasObjectData.node q2 =>
                if hitLineSegment q1 q2 10 pt = true then some obj.id
                else hitScanAux objects pt rest
              | _, _ => hitScanAux objects pt rest)
          | _, _ => hitScanAux objects pt rest) = some oid := h
      cases hl1 : lookupObject objects p1 with
      | none =>
        rw [hl1] at h2
        cases hl2 : lookupObject objects p2 with
        | none => rw [hl2] at h2; exact ih hrest oid h2
        | some o2 => rw [hl2] at h2; exact ih hrest oid h2
      | some o1 =>
        rw [hl1] at h2
        cases hl2 : lookupObject objects p2 with
        | none => rw [hl2] at h2; exact ih hrest oid h2
        | some o2 =>
          rw [hl2] at h2
          have h3 : (match o1.data, o2.data with
              | CanvasObjectData.node q1, CanvasObjectData.node q2 =>
                if hitLineSegment q1 q2 10 pt = true then some obj.id
                else hitScanAux objects pt rest
              | _, _ => hitScanAux objects pt rest) = some oid := h2
          cases hd1 : o1.data with
          | node q1 =>
            rw [hd1] at h3
            cases hd2 : o2.data with
            | node q2 =>
              rw [hd2] at h3
              have h4 : (if hitLineSegment q1 q2 10 pt then some obj.id
                  else hitScanAux objects pt rest) = some oid := h3
              by_cases hhit : hitLineSegment q1 q2 10 pt
              · rw [if_pos hhit] at h4
                have h5 : obj.id = oid := Option.some.inj h4
                rw [← h5, hid]
                exact ⟨obj, hlkobj, Or.inr ⟨p1, p2, hd,
                  ⟨o1, hl1, by rw [hd1]; rfl⟩, ⟨o2, hl2, by rw [hd2]; rfl⟩⟩⟩
              · rw [if_neg hhit] at h4
                exact ih hrest oid h4
            | fixedNode q2 => rw [hd2] at h3; exact ih hrest oid h3
            | line a b => rw [hd2] at h3; exact ih hrest oid h3
            | path ps ls => rw [hd2] at h3; exact ih hrest oid h3
            | text a s => rw [hd2] at h3; exact ih hrest oid h3
          | fixedNode q1 => rw [hd1] at h3; exact ih hrest oid h3
          | line a b => rw [hd1] at h3; exact ih hrest oid h3
          | path ps ls => rw [hd1] at h3; exact ih hrest oid h3
          | text a s => rw [hd1] at h3; exact ih hrest oid h3

/- ------------------------------------------------------------------ -/
/- Data-action execution preserves the invariant and never throws      -/
/- ------------------------------------------------------------------ -/

theorem transformConstraints_form (oracle : SvdOracle) (objects : ObjectMap)
    (cs : List Constraint) (m2 : ObjectMap)
    (h : transformConstraints oracle objects cs = .ok m2) :
    ∃ xf, m2 = applyWrites objects (buildSolver objects cs).1.writes xf := by
  simp only [transformConstraints] at h
  cases hns : newtonSolve oracle ((buildSolver objects cs).2.map
      (evalResidual objects (buildSolver objects cs).1.jacCol))
      ((buildSolver objects cs).2.map (evalJacRow objects (buildSolver objects cs).1.jacCol))
      (buildSolver objects cs).1.xInit with
  | error e => rw [hns] at h; cases h
  | ok xf =>
    rw [hns] at h
    have h2 : (Except.ok (applyWrites objects (buildSolver objects cs).1.writes xf) :
        Except String ObjectMap) = Except.ok m2 := h
    exact ⟨xf, (Except.ok.inj h2).symm⟩

theorem execDataAction_addObject_eq (oracle : SvdOracle) (ds : DataState) (aid : ObjectID)
    (madd : ObjectMap) (hmnd : keysNodup madd) (hdism : disjointKeys madd ds.objects) :
    executeDataAction oracle ds ⟨aid, .addObject madd⟩ =
      ⟨⟨ds.objects ++ madd, ds.constraints⟩, true, false⟩ := by
  simp only [executeDataAction]
  rw [objectAssign_append ds.objects madd hmnd hdism]

theorem LineInv_append_noLines (m1 m2 : ObjectMap)
    (h1 : LineInv m1) (h2 : noLines m2) : LineInv (m1 ++ m2) := by
  intro e he p1 p2 hline
  rcases List.mem_append.mp he with he | he
  · obtain ⟨ha, hb⟩ := h1 e he p1 p2 hline
    exact ⟨pointlikeExists_append_left m1 m2 p1 ha, pointlikeExists_append_left m1 m2 p2 hb⟩
  · exact absurd hline (h2 e he p1 p2)

theorem ToolOK_append (t : Tool) (objects madd : ObjectMap) (n n2 : ObjectID)
    (h : ToolOK t objects n) (hle : n ≤ n2)
    (hgt : ∀ f ∈ madd, n < (f : ObjectID × CanvasObject).1) : ToolOK t (objects ++ madd) n2 := by
  cases t with
  | selector sel =>
    intro i hi
    exact OperandOK_append_left objects madd i (h i hi)
  | pen m tid nxt =>
    obtain ⟨⟨hc, hn, hl, hd⟩, hpen⟩ := h
    exact ⟨⟨hc, hn, keysLE_mono m n n2 hl hle,
      disjointKeys_append_right m objects madd hd (disjointKeys_of_gt m madd n hl hgt)⟩, hpen⟩
  | text m tid =>
    obtain ⟨⟨hc, hn, hl, hd⟩, hnl⟩ := h
    exact ⟨⟨hc, hn, keysLE_mono m n n2 hl hle,
      disjointKeys_append_right m objects madd hd (disjointKeys_of_gt m madd n hl hgt)⟩, hnl⟩

/-- LineInv survives the Pen commit: the pruned scratch map only contains
the committed path, its points (`Node`s) and its interior lines, whose
endpoints are interior points and therefore kept. -/
theorem LineInv_append_penCommit (objects m : ObjectMap) (tid nxt n : ObjectID)
    (hli : LineInv objects) (htemp : TempOK m objects n) (hpen : PenShape m tid nxt) :
    LineInv (objects ++ filterObjectMap m [tid]) := by
  obtain ⟨hcoh, hnd, hle, hdis⟩ := htemp
  obtain ⟨htn, oc, onx, pn, ln, hnx, hnxd, hpnne, htid, htidd, hlen, hnodes, hlines⟩ := hpen
  have hinc : filterInc m [tid] = [tid] ++ pn.dropLast ++ ln.dropLast := by
    simp [filterInc, htid, htidd]
  have hkeep : ∀ (q : ObjectID) (o : CanvasObject), lookupObject m q = some o →
      q ∈ filterInc m [tid] → lookupObject (objects ++ filterObjectMap m [tid]) q = some o := by
    intro q o hq hqinc
    have hnone : lookupObject objects q = none := by
      apply lookup_none_of_not_mem
      intro hmemk
      obtain ⟨v, hv⟩ := lookup_exists_of_mem_keys objects q hmemk
      exact hdis (q, o) (lookup_mem m q o hq) (q, v) (lookup_mem objects q v hv) rfl
    rw [lookup_append_right objects _ q hnone]
    exact lookup_filter m _ q o hq (by simpa using hqinc)
  have hptlike : ∀ q ∈ pn.dropLast, pointlikeExists (objects ++ filterObjectMap m [tid]) q := by
    intro q hq
    obtain ⟨o, qq, hlk, hdn⟩ := hnodes q (List.mem_of_mem_dropLast hq)
    refine ⟨o, hkeep q o hlk ?_, by rw [hdn]; rfl⟩
    rw [hinc]
    simp only [List.append_assoc, List.mem_append, List.mem_singleton]
    exact Or.inr (Or.inl hq)
  intro e he p1 p2 hline
  rcases List.mem_append.mp he with he | he
  · obtain ⟨ha, hb⟩ := hli e he p1 p2 hline
    exact ⟨pointlikeExists_append_left _ _ p1 ha, pointlikeExists_append_left _ _ p2 hb⟩
  · have hem : e ∈ m := List.mem_of_mem_filter he
    have heinc : e.1 ∈ filterInc m [tid] := by simpa using List.of_mem_filter he
    have hlke : lookupObject m e.1 = some e.2 := mem_lookup_nodup m e.1 e.2 hnd hem
    rw [hinc] at heinc
    simp only [List.append_assoc, List.mem_append, List.mem_singleton] at heinc
    rcases heinc with rfl | hin | hin
    · rw [htid] at hlke
      have h3 : oc = e.2 := Option.some.inj hlke
      rw [← h3, htidd] at hline
      cases hline
    · obtain ⟨o, qq, hlk, hdn⟩ := hnodes e.1 (List.mem_of_mem_dropLast hin)
      rw [hlk] at hlke
      have h3 : o = e.2 := Option.some.inj hlke
      rw [← h3, hdn] at hline
      cases hline
    · obtain ⟨i, hilt, hget⟩ := List.mem_iff_getElem.mp hin
      have hidrop : ln.dropLast.length = ln.length - 1 := by simp
      have hiln : i < ln.length := by
        rw [hidrop] at hilt
        omega
      have hgd : ln.getD i 0 = e.1 := by
        rw [List.getD_eq_getElem _ _ hiln, ← List.getElem_dropLast ln i hilt, hget]
      obtain ⟨lo, hlo, hlod⟩ := hlines i hiln
      rw [hgd, hlke] at hlo
      have h3 : e.2 = lo := Option.some.inj hlo
      rw [h3, hlod] at hline
      have hp1 : p1 = pn.getD i 0 := by injection hline with ha hb; exact ha.symm
      have hp2 : p2 = pn.getD (i + 1) 0 := by injection hline with ha hb; exact hb.symm
      have hpnlen : pn.dropLast.length = pn.length - 1 := by simp
      have hi1 : i < pn.dropLast.length := by
        rw [hpnlen]
        omega
      have hi2 : i + 1 < pn.dropLast.length := by
        rw [hpnlen] at hi1 ⊢
        rw [hidrop] at hilt
        omega
      constructor
      · rw [hp1]
        refine hptlike _ ?_
        have : pn.getD i 0 = pn.dropLast[i] := by
          rw [List.getElem_dropLast, List.getD_eq_getElem]
        rw [this]
        exact List.getElem_mem hi1
      · rw [hp2]
        refine hptlike _ ?_
        have : pn.getD (i + 1) 0 = pn.dropLast[i + 1] := by
          rw [List.getElem_dropLast, List.getD_eq_getElem]
        rw [this]
        exact List.getElem_mem hi2

theorem execDataActions_single_constraint (oracle : SvdOracle) (ds : DataState)
    (aid : ObjectID) (c : Constraint)
    (hcoh : coherent ds.objects)
    (hcons : ∀ c2 ∈ ds.constraints, ∀ i ∈ constraintOperandIDs c2, OperandOK ds.objects i)
    (hc : ∀ i ∈ constraintOperandIDs c, OperandOK ds.objects i) :
    ∃ xf,
      execDataActions oracle ds [⟨aid, .addConstraint c⟩] =
        (⟨applyWrites ds.objects
            (buildSolver ds.objects (ds.constraints ++ [c])).1.writes xf,
          ds.constraints ++ [c]⟩, true, false) := by
  have hall : ∀ c2 ∈ ds.constraints ++ [c], ∀ i ∈ constraintOperandIDs c2,
      OperandOK ds.objects i := by
    intro c2 hc2
    rcases List.mem_append.mp hc2 with h | h
    · exact hcons c2 h
    · simp only [List.mem_singleton] at h
      subst h
      exact hc
  obtain ⟨m2, hm2⟩ := transformConstraints_ok oracle ds.objects (ds.constraints ++ [c]) hcoh hall
  obtain ⟨xf, hxf⟩ := transformConstraints_form oracle ds.objects _ m2 hm2
  refine ⟨xf, ?_⟩
  simp only [execDataActions, List.foldl_cons, List.foldl_nil, executeDataAction,
    Bool.false_or, if_false]
  rw [hm2, hxf]
  rfl

theorem sendEvent_toolOnly (oracle : SvdOracle) (s : DrawingState) (e : Event)
    (hinv : KernelInv s)
    (hts : (generateAction s.toolState s.dataState e s.nextID).toolState = s.toolState)
    (hda : (generateAction s.toolState s.dataState e s.nextID).dataActions = [])
    (hnid : (generateAction s.toolState s.dataState e s.nextID).nextID = s.nextID)
    (hall : ∀ a ∈ (generateAction s.toolState s.dataState e s.nextID).toolActions,
        StepOK s.dataState.objects a) :
    KernelInv (sendEvent oracle s e).state ∧ (sendEvent oracle s e).threw = false ∧
    (sendEvent oracle s e).state.dataState = s.dataState := by
  obtain ⟨hnd, hcoh, hbound, hcons, htool⟩ := hinv
  have hfold := foldTool_StepOK s.dataState.objects _ hall
    ((generateAction s.toolState s.dataState e s.nextID).toolState, false,
     (generateAction s.toolState s.dataState e s.nextID).nextID)
    (by rw [hts, hnid]; exact htool) (by rw [hnid]; exact hbound)
  simp only [sendEvent, execToolActions_eq_foldl, hda, execDataActions, List.foldl_nil]
  refine ⟨⟨hnd, hcoh, ?_, hcons, hfold.1⟩, by trivial, by trivial⟩
  exact keysLE_mono _ _ _ hbound (le_trans (le_of_eq hnid.symm) hfold.2)

theorem execDataActions_single (oracle : SvdOracle) (ds : DataState) (a : DataAction) :
    execDataActions oracle ds [a] =
      ((executeDataAction oracle ds a).dataState, (executeDataAction oracle ds a).changed,
       (executeDataAction oracle ds a).threw) := rfl

theorem sendEvent_constraint (oracle : SvdOracle) (s : DrawingState) (e : Event) (c : Constraint)
    (hinv : KernelInv s)
    (hsel : ∃ sel, s.toolState.tool = .selector sel ∧ ∀ i ∈ constraintOperandIDs c, i ∈ sel)
    (hts : (generateAction s.toolState s.dataState e s.nextID).toolState = s.toolState)
    (hda : (generateAction s.toolState s.dataState e s.nextID).dataActions =
      [⟨s.nextID + 1, .addConstraint c⟩])
    (hta : (generateAction s.toolState s.dataState e s.nextID).toolActions =
      [.addHistory ⟨s.nextID + 1, .addConstraint c⟩])
    (hnid : (generateAction s.toolState s.dataState e s.nextID).nextID = s.nextID + 1) :
    KernelInv (sendEvent oracle s e).state ∧ (sendEvent oracle s e).threw = false ∧
    (LineInv s.dataState.objects → goodEvent e →
      LineInv (sendEvent oracle s e).state.dataState.objects) := by
  obtain ⟨hnd, hcoh, hbound, hcons, htool⟩ := hinv
  obtain ⟨sel, hselp, hsub⟩ := hsel
  have hc : ∀ i ∈ constraintOperandIDs c, OperandOK s.dataState.objects i := by
    intro i hi
    rw [hselp] at htool
    exact htool i (hsub i hi)
  obtain ⟨xf, hexec⟩ := execDataActions_single_constraint oracle s.dataState (s.nextID + 1) c
    hcoh hcons hc
  have hcall : ∀ c2 ∈ s.dataState.constraints ++ [c], ∀ i ∈ constraintOperandIDs c2,
      OperandOK s.dataState.objects i := by
    intro c2 hc2
    rcases List.mem_append.mp hc2 with h | h
    · exact hcons c2 h
    · simp only [List.mem_singleton] at h
      subst h
      exact hc
  simp only [sendEvent, execToolActions_eq_foldl, hts, hta, hda, hnid, hexec,
    List.foldl_cons, List.foldl_nil]
  have hkeys := applyWrites_keys
    (buildSolver s.dataState.objects (s.dataState.constraints ++ [c])).1.writes
    s.dataState.objects xf
  refine ⟨⟨?_, ?_, ?_, ?_, ?_⟩, by trivial, ?_⟩
  · exact keysNodup_of_keys_eq _ _ hkeys hnd
  · exact applyWrites_coherent _ _ _ hcoh
  · exact keysLE_of_keys_eq _ _ _ hkeys
      (keysLE_mono _ _ _ hbound (by show s.nextID ≤ s.nextID + 1; simp))
  · intro c2 hc2 i hi
    exact applyWrites_OperandOK _ _ _ i (hcall c2 hc2 i hi)
  · show ToolOK s.toolState.tool _ _
    rw [hselp]
    intro i hi
    rw [hselp] at htool
    exact applyWrites_OperandOK _ _ _ i (htool i hi)
  · intro hli _
    exact applyWrites_LineInv _ _ _ hnd hli

theorem sendEvent_textCommit (oracle : SvdOracle) (s : DrawingState) (e : Event)
    (m : ObjectMap) (nxtID : ObjectID)
    (hinv : KernelInv s)
    (htoolp : s.toolState.tool = .text m nxtID)
    (hts : (generateAction s.toolState s.dataState e s.nextID).toolState = s.toolState)
    (hda : (generateAction s.toolState s.dataState e s.nextID).dataActions =
      [⟨s.nextID + 1, .addObject m⟩])
    (hta : (generateAction s.toolState s.dataState e s.nextID).toolActions =
      [.selectTool .selector, .addHistory ⟨s.nextID + 1, .addObject m⟩])
    (hnid : (generateAction s.toolState s.dataState e s.nextID).nextID = s.nextID + 1) :
    KernelInv (sendEvent oracle s e).state ∧ (sendEvent oracle s e).threw = false ∧
    (LineInv s.dataState.objects → goodEvent e →
      LineInv (sendEvent oracle s e).state.dataState.objects) := by
  obtain ⟨hnd, hcoh, hbound, hcons, htool⟩ := hinv
  rw [htoolp] at htool
  obtain ⟨⟨hcm, hnm, hlm, hdm⟩, hnl⟩ := htool
  have hdexec : execDataActions oracle s.dataState [⟨s.nextID + 1, .addObject m⟩] =
      (⟨s.dataState.objects ++ m, s.dataState.constraints⟩, true, false) := by
    rw [execDataActions_single, execDataAction_addObject_eq oracle s.dataState _ m hnm hdm]
  have hk : s.toolState.tool.kind ≠ ToolKind.selector := by
    rw [htoolp]
    simp [Tool.kind]
  have hstep1 : toolStep (s.toolState, false, s.nextID + 1) (.selectTool .selector) =
      ({ s.toolState with tool := .selector [] }, true, s.nextID + 1) := by
    simp only [toolStep, executeToolAction, if_neg hk, Bool.false_or]
  simp only [sendEvent, execToolActions_eq_foldl, hts, hta, hda, hnid, hdexec,
    List.foldl_cons, List.foldl_nil, hstep1]
  refine ⟨⟨?_, ?_, ?_, ?_, ?_⟩, by trivial, ?_⟩
  · exact keysNodup_append _ _ hnd hnm hdm
  · exact coherent_append _ _ hcoh hcm
  · show keysLE _ (s.nextID + 1)
    refine keysLE_append _ _ _ (keysLE_mono _ _ _ hbound ?_) (keysLE_mono _ _ _ hlm ?_) <;>
      (show s.nextID ≤ s.nextID + 1; simp)
  · intro c2 hc2 i hi
    exact OperandOK_append_left _ _ i (hcons c2 hc2 i hi)
  · show ToolOK (Tool.selector []) _ _
    intro i hi
    simp at hi
  · intro hli _
    show LineInv (s.dataState.objects ++ m)
    exact LineInv_append_noLines _ _ hli hnl

theorem sendEvent_penCommit (oracle : SvdOracle) (s : DrawingState) (e : Event)
    (m : ObjectMap) (tid nxt : ObjectID)
    (hinv : KernelInv s)
    (htoolp : s.toolState.tool = .pen m tid nxt)
    (hts : (generateAction s.toolState s.dataState e s.nextID).toolState =
      { s.toolState with tool := .pen (filterObjectMap m [tid]) tid nxt })
    (hda : (generateAction s.toolState s.dataState e s.nextID).dataActions =
      [⟨s.nextID + 1, .addObject (filterObjectMap m [tid])⟩])
    (hta : (generateAction s.toolState s.dataState e s.nextID).toolActions =
      [.selectTool .selector, .addHistory ⟨s.nextID + 1, .addObject (filterObjectMap m [tid])⟩])
    (hnid : (generateAction s.toolState s.dataState e s.nextID).nextID = s.nextID + 1) :
    KernelInv (sendEvent oracle s e).state ∧ (sendEvent oracle s e).threw = false ∧
    (LineInv s.dataState.objects → goodEvent e →
      LineInv (sendEvent oracle s e).state.dataState.objects) := by
  obtain ⟨hnd, hcoh, hbound, hcons, htool⟩ := hinv
  rw [htoolp] at htool
  obtain ⟨⟨hcm, hnm, hlm, hdm⟩, hpen⟩ := htool
  have hpr_nd : keysNodup (filterObjectMap m [tid]) := keysNodup_filter m _ hnm
  have hpr_dis : disjointKeys (filterObjectMap m [tid]) s.dataState.objects :=
    disjointKeys_filter _ m _ hdm
  have hdexec : execDataActions oracle s.dataState
      [⟨s.nextID + 1, .addObject (filterObjectMap m [tid])⟩] =
      (⟨s.dataState.objects ++ filterObjectMap m [tid], s.dataState.constraints⟩, true, false) := by
    rw [execDataActions_single, execDataAction_addObject_eq oracle s.dataState _ _ hpr_nd hpr_dis]
  have hk : ({ s.toolState with tool := Tool.pen (filterObjectMap m [tid]) tid nxt } :
      ToolState).tool.kind ≠ ToolKind.selector := by
    simp [Tool.kind]
  have hstep1 : toolStep ({ s.toolState with tool := .pen (filterObjectMap m [tid]) tid nxt },
        false, s.nextID + 1) (.selectTool .selector) =
      ({ s.toolState with tool := .selector [] }, true, s.nextID + 1) := by
    simp only [toolStep, executeToolAction, if_neg hk, Bool.false_or]
  simp only [sendEvent, execToolActions_eq_foldl, hts, hta, hda, hnid, hdexec,
    List.foldl_cons, List.foldl_nil, hstep1]
  refine ⟨⟨?_, ?_, ?_, ?_, ?_⟩, by trivial, ?_⟩
  · exact keysNodup_append _ _ hnd hpr_nd hpr_dis
  · exact coherent_append _ _ hcoh (coherent_filter m _ hcm)
  · show keysLE _ (s.nextID + 1)
    refine keysLE_append _ _ _ (keysLE_mono _ _ _ hbound ?_)
      (keysLE_mono _ _ _ (keysLE_filter m _ s.nextID hlm) ?_) <;>
      (show s.nextID ≤ s.nextID + 1; simp)
  · intro c2 hc2 i hi
    exact OperandOK_append_left _ _ i (hcons c2 hc2 i hi)
  · show ToolOK (Tool.selector []) _ _
    intro i hi
    simp at hi
  · intro hli _
    show LineInv (s.dataState.objects ++ filterObjectMap m [tid])
    exact LineInv_append_penCommit s.dataState.objects m tid nxt s.nextID hli
      ⟨hcm, hnm, hlm, hdm⟩ hpen

theorem sendEvent_addObjectEvent (oracle : SvdOracle) (s : DrawingState)
    (guide : Bool) (od : CanvasObjectData) (hinv : KernelInv s) :
    KernelInv (sendEvent oracle s (.addObject guide od)).state ∧
    (sendEvent oracle s (.addObject guide od)).threw = false ∧
    (LineInv s.dataState.objects → goodEvent (.addObject guide od) →
      LineInv (sendEvent oracle s (.addObject guide od)).state.dataState.objects) := by
  obtain ⟨hnd, hcoh, hbound, hcons, htool⟩ := hinv
  have hone_nd : keysNodup [(s.nextID + 1, (⟨s.nextID + 1, guide, od⟩ : CanvasObject))] := by
    simp [keysNodup]
  have hone_dis : disjointKeys [(s.nextID + 1, (⟨s.nextID + 1, guide, od⟩ : CanvasObject))]
      s.dataState.objects := by
    intro e2 he2 f hf
    have h3 := hbound f hf
    simp only [List.mem_singleton] at he2
    subst he2
    intro hh
    rw [← hh] at h3
    simp at h3
  have hdexec : execDataActions oracle s.dataState
      [⟨s.nextID + 2, .addObject [(s.nextID + 1, ⟨s.nextID + 1, guide, od⟩)]⟩] =
      (⟨s.dataState.objects ++ [(s.nextID + 1, ⟨s.nextID + 1, guide, od⟩)],
        s.dataState.constraints⟩, true, false) := by
    rw [execDataActions_single, execDataAction_addObject_eq oracle s.dataState _ _ hone_nd hone_dis]
  have hgen : generateAction s.toolState s.dataState (.addObject guide od) s.nextID =
      ⟨[.addHistory ⟨s.nextID + 2, .addObject [(s.nextID + 1, ⟨s.nextID + 1, guide, od⟩)]⟩],
       [⟨s.nextID + 2, .addObject [(s.nextID + 1, ⟨s.nextID + 1, guide, od⟩)]⟩],
       s.toolState, s.nextID + 2, []⟩ := by
    simp [generateAction]
  simp only [sendEvent, execToolActions_eq_foldl, hgen, hdexec, List.foldl_cons, List.foldl_nil]
  refine ⟨⟨?_, ?_, ?_, ?_, ?_⟩, by trivial, ?_⟩
  · exact keysNodup_append _ _ hnd hone_nd hone_dis
  · refine coherent_append _ _ hcoh ?_
    intro e2 he2
    simp only [List.mem_singleton] at he2
    subst he2
    rfl
  · show keysLE _ (s.nextID + 2)
    refine keysLE_append _ _ _ (keysLE_mono _ _ _ hbound ?_) ?_
    · show s.nextID ≤ s.nextID + 2
      simp
    · intro e2 he2
      simp only [List.mem_singleton] at he2
      subst he2
      show s.nextID + 1 ≤ s.nextID + 2
      simp
  · intro c2 hc2 i hi
    exact OperandOK_append_left _ _ i (hcons c2 hc2 i hi)
  · show ToolOK s.toolState.tool _ (s.nextID + 2)
    refine ToolOK_append s.toolState.tool _ _ s.nextID (s.nextID + 2) htool
      (by show s.nextID ≤ s.nextID + 2; simp) ?_
    intro f hf
    simp only [List.mem_singleton] at hf
    subst hf
    show s.nextID < s.nextID + 1
    simp
  · intro hli hgood
    show LineInv (s.dataState.objects ++ [(s.nextID + 1, ⟨s.nextID + 1, guide, od⟩)])
    refine LineInv_append_noLines _ _ hli ?_
    intro e2 he2 a b
    simp only [List.mem_singleton] at he2
    subst he2
    show od ≠ CanvasObjectData.line a b
    cases hod : od with
    | line x y =>
      rw [hod] at hgood
      exact False.elim hgood
    | node q => simp
    | fixedNode q => simp
    | path ps ls => simp
    | text x st => simp

theorem getD_mem_of_lt (l : List ObjectID) (i : Nat) (h : i < l.length) :
    l.getD i 0 ∈ l := by
  rw [List.getD_eq_getElem _ _ h]
  exact List.getElem_mem h

theorem sendEvent_toolOnly_inv (oracle : SvdOracle) (s : DrawingState) (e : Event)
    (hinv : KernelInv s)
    (hts : (generateAction s.toolState s.dataState e s.nextID).toolState = s.toolState)
    (hda : (generateAction s.toolState s.dataState e s.nextID).dataActions = [])
    (hnid : (generateAction s.toolState s.dataState e s.nextID).nextID = s.nextID)
    (hall : ∀ a ∈ (generateAction s.toolState s.dataState e s.nextID).toolActions,
        StepOK s.dataState.objects a) :
    KernelInv (sendEvent oracle s e).state ∧ (sendEvent oracle s e).threw = false ∧
    (LineInv s.dataState.objects → goodEvent e →
      LineInv (sendEvent oracle s e).state.dataState.objects) := by
  obtain ⟨h1, h2, h3⟩ := sendEvent_toolOnly oracle s e hinv hts hda hnid hall
  refine ⟨h1, h2, fun hli _ => ?_⟩
  rw [h3]
  exact hli

theorem stepOK_of_alwaysSafe (objects : ObjectMap) (a : ToolAction) (h : alwaysSafe a) :
    StepOK objects a := by
  cases a with
  | addNode p => exact stepOK_addNode objects p
  | updateNextNode p => exact stepOK_updateNextNode objects p
  | selectTool tk => exact stepOK_selectTool objects tk
  | resizeView w hh => exact stepOK_resizeView objects w hh
  | setViewOffset o => exact stepOK_setViewOffset objects o
  | startPan p => exact stepOK_startPan objects p
  | stopPan => exact stepOK_stopPan objects
  | updatePan => exact stepOK_updatePan objects
  | updateNextText b p => exact stepOK_updateNextText objects b p
  | updateMousePoint p => exact stepOK_updateMousePoint objects p
  | addHistory a2 => exact stepOK_addHistory objects a2
  | selectObject oid => exact h.elim
  | deselectObject oid => exact stepOK_deselectObject objects oid

theorem mouseMove_gen (ts : ToolState) (ds : DataState) (p : Vec2D) (nid : ObjectID) :
    (generateAction ts ds (.mouseMove p) nid).toolState = ts ∧
    (generateAction ts ds (.mouseMove p) nid).dataActions = [] ∧
    (generateAction ts ds (.mouseMove p) nid).nextID = nid ∧
    ∀ a ∈ (generateAction ts ds (.mouseMove p) nid).toolActions, alwaysSafe a := by
  cases hpan : ts.pan with
  | idle =>
    cases htool : ts.tool with
    | selector sel => simp [generateAction, hpan, htool, alwaysSafe]
    | pen m tid nxt => simp [generateAction, hpan, htool, alwaysSafe]
    | text tm nid2 =>
      cases hlk : lookupObject tm nid2 with
      | none => simp [generateAction, hpan, htool, hlk, alwaysSafe]
      | some tobj =>
        cases hd : tobj.data <;> simp [generateAction, hpan, htool, hlk, hd, alwaysSafe]
  | panning start =>
    cases htool : ts.tool with
    | selector sel => simp [generateAction, hpan, htool, alwaysSafe]
    | pen m tid nxt => simp [generateAction, hpan, htool, alwaysSafe]
    | text tm nid2 =>
      cases hlk : lookupObject tm nid2 with
      | none => simp [generateAction, hpan, htool, hlk, alwaysSafe]
      | some tobj =>
        cases hd : tobj.data <;> simp [generateAction, hpan, htool, hlk, hd, alwaysSafe]

/-- The master step lemma: `sendEvent` preserves the kernel invariant and
never throws; under `goodEvent` it also preserves the Line endpoint
invariant. -/
theorem kernel_step (oracle : SvdOracle) (s : DrawingState) (e : Event) (hinv : KernelInv s) :
    KernelInv (sendEvent oracle s e).state ∧ (sendEvent oracle s e).threw = false ∧
    (LineInv s.dataState.objects → goodEvent e →
      LineInv (sendEvent oracle s e).state.dataState.objects) := by
  cases e with
  | mouseMove p =>
    obtain ⟨h1, h2, h3, h4⟩ := mouseMove_gen s.toolState s.dataState p s.nextID
    exact sendEvent_toolOnly_inv oracle s _ hinv h1 h2 h3
      (fun a ha => stepOK_of_alwaysSafe _ a (h4 a ha))
  | mouseDown ctrl button p =>
    by_cases hb : button = Button.secondary
    · cases hpan : s.toolState.pan with
      | idle =>
        refine sendEvent_toolOnly_inv oracle s _ hinv ?_ ?_ ?_ ?_ <;>
          simp [generateAction, hb, hpan]
        exact stepOK_startPan _ p
      | panning st =>
        refine sendEvent_toolOnly_inv oracle s _ hinv ?_ ?_ ?_ ?_ <;>
          simp [generateAction, hb, hpan]
    · cases htool : s.toolState.tool with
      | selector sel =>
        cases hhit : hitScanAux s.dataState.objects
            (transformViewportToData s.toolState p) s.dataState.objects with
        | some oid =>
          cases ctrl with
          | true =>
            refine sendEvent_toolOnly_inv oracle s _ hinv ?_ ?_ ?_ ?_ <;>
              simp [generateAction, hb, htool, hhit]
            exact stepOK_deselectObject _ oid
          | false =>
            refine sendEvent_toolOnly_inv oracle s _ hinv ?_ ?_ ?_ ?_ <;>
              simp [generateAction, hb, htool, hhit]
            exact stepOK_selectObject _ oid
              (hitScanAux_OperandOK s.dataState.objects _ hinv.objNodup hinv.objCoherent
                s.dataState.objects (fun e2 he2 => he2) oid hhit)
        | none =>
          cases ctrl with
          | true =>
            refine sendEvent_toolOnly_inv oracle s _ hinv ?_ ?_ ?_ ?_ <;>
              simp [generateAction, hb, htool, hhit]
          | false =>
            refine sendEvent_toolOnly_inv oracle s _ hinv ?_ ?_ ?_ ?_ <;>
              simp [generateAction, hb, htool, hhit]
            intro i hi
            exact stepOK_deselectObject _ i
      | pen m tid nxt =>
        refine sendEvent_toolOnly_inv oracle s _ hinv ?_ ?_ ?_ ?_ <;>
          simp [generateAction, hb, htool]
        exact stepOK_addNode _ p
      | text tm nid2 =>
        refine sendEvent_textCommit oracle s _ tm nid2 hinv htool ?_ ?_ ?_ ?_ <;>
          simp [generateAction, hb, htool]
  | mouseUp ctrl button p =>
    by_cases hb : button = Button.secondary
    · cases hpan : s.toolState.pan with
      | idle =>
        refine sendEvent_toolOnly_inv oracle s _ hinv ?_ ?_ ?_ ?_ <;>
          simp [generateAction, hb, hpan]
      | panning st =>
        refine sendEvent_toolOnly_inv oracle s _ hinv ?_ ?_ ?_ ?_ <;>
          simp [generateAction, hb, hpan]
        exact stepOK_stopPan _
    · refine sendEvent_toolOnly_inv oracle s _ hinv ?_ ?_ ?_ ?_ <;>
        simp [generateAction, hb]
  | keyDown key =>
    by_cases hp : key = "p"
    · refine sendEvent_toolOnly_inv oracle s _ hinv ?_ ?_ ?_ ?_ <;>
        simp [generateAction, hp]
      exact stepOK_selectTool _ .pen
    · by_cases hs : key = "s"
      · refine sendEvent_toolOnly_inv oracle s _ hinv ?_ ?_ ?_ ?_ <;>
          simp [generateAction, hp, hs]
        exact stepOK_selectTool _ .selector
      · by_cases he : key = "Enter"
        · subst he
          cases htool : s.toolState.tool with
          | selector sel =>
            refine sendEvent_toolOnly_inv oracle s _ hinv ?_ ?_ ?_ ?_ <;>
              simp [generateAction, hp, hs, htool]
          | text tm nid2 =>
            refine sendEvent_toolOnly_inv oracle s _ hinv ?_ ?_ ?_ ?_ <;>
              simp [generateAction, hp, hs, htool]
          | pen m tid nxt =>
            refine sendEvent_penCommit oracle s _ m tid nxt hinv htool ?_ ?_ ?_ ?_ <;>
              simp [generateAction, hp, hs, htool]
        · refine sendEvent_toolOnly_inv oracle s _ hinv ?_ ?_ ?_ ?_ <;>
            simp [generateAction, hp, hs, he]
  | keyUp key =>
    refine sendEvent_toolOnly_inv oracle s _ hinv ?_ ?_ ?_ ?_ <;>
      simp [generateAction]
  | resizeView w hh =>
    refine sendEvent_toolOnly_inv oracle s _ hinv ?_ ?_ ?_ ?_ <;>
      simp [generateAction]
    exact stepOK_resizeView _ w hh
  | scaleView sc =>
    refine sendEvent_toolOnly_inv oracle s _ hinv ?_ ?_ ?_ ?_ <;>
      simp [generateAction]
  | setViewOffset o =>
    refine sendEvent_toolOnly_inv oracle s _ hinv ?_ ?_ ?_ ?_ <;>
      simp [generateAction]
    exact stepOK_setViewOffset _ o
  | selectTextTool =>
    refine sendEvent_toolOnly_inv oracle s _ hinv ?_ ?_ ?_ ?_ <;>
      simp [generateAction]
    exact stepOK_selectTool _ .text
  | setTextValue sv =>
    refine sendEvent_toolOnly_inv oracle s _ hinv ?_ ?_ ?_ ?_ <;>
      simp [generateAction]
    exact stepOK_updateNextText _ sv s.toolState.mousePoint
  | addPerpendicularConstraint =>
    cases htool : s.toolState.tool with
    | selector sel =>
      by_cases hcard : sel.length = 2
      · refine sendEvent_constraint oracle s _
          (.perpendicular (sel.getD 0 0) (sel.getD 1 0)) hinv
          ⟨sel, htool, ?_⟩ ?_ ?_ ?_ ?_
        · intro i hi
          simp only [constraintOperandIDs, List.mem_cons, List.mem_singleton,
            List.not_mem_nil, or_false] at hi
          rcases hi with rfl | rfl
          · exact getD_mem_of_lt sel 0 (by omega)
          · exact getD_mem_of_lt sel 1 (by omega)
        all_goals simp [generateAction, htool, hcard]
      · refine sendEvent_toolOnly_inv oracle s _ hinv ?_ ?_ ?_ ?_ <;>
          simp [generateAction, htool, hcard]
    | pen m tid nxt =>
      refine sendEvent_toolOnly_inv oracle s _ hinv ?_ ?_ ?_ ?_ <;>
        simp [generateAction, htool]
    | text tm nid2 =>
      refine sendEvent_toolOnly_inv oracle s _ hinv ?_ ?_ ?_ ?_ <;>
        simp [generateAction, htool]
  | addCoincidentConstraint =>
    cases htool : s.toolState.tool with
    | selector sel =>
      by_cases hcard : sel.length = 2
      · refine sendEvent_constraint oracle s _
          (.coincident (sel.getD 0 0) (sel.getD 1 0)) hinv
          ⟨sel, htool, ?_⟩ ?_ ?_ ?_ ?_
        · intro i hi
          simp only [constraintOperandIDs, List.mem_cons, List.mem_singleton,
            List.not_mem_nil, or_false] at hi
          rcases hi with rfl | rfl
          · exact getD_mem_of_lt sel 0 (by omega)
          · exact getD_mem_of_lt sel 1 (by omega)
        all_goals simp [generateAction, htool, hcard]
      · refine sendEvent_toolOnly_inv oracle s _ hinv ?_ ?_ ?_ ?_ <;>
          simp [generateAction, htool, hcard]
    | pen m tid nxt =>
      refine sendEvent_toolOnly_inv oracle s _ hinv ?_ ?_ ?_ ?_ <;>
        simp [generateAction, htool]
    | text tm nid2 =>
      refine sendEvent_toolOnly_inv oracle s _ hinv ?_ ?_ ?_ ?_ <;>
        simp [generateAction, htool]
  | addHorizontalConstraint =>
    cases htool : s.toolState.tool with
    | selector sel =>
      by_cases hcard : sel.length = 1
      · refine sendEvent_constraint oracle s _ (.horizontal (sel.getD 0 0)) hinv
          ⟨sel, htool, ?_⟩ ?_ ?_ ?_ ?_
        · intro i hi
          simp only [constraintOperandIDs, List.mem_singleton] at hi
          subst hi
          exact getD_mem_of_lt sel 0 (by omega)
        all_goals simp [generateAction, htool, hcard]
      · refine sendEvent_toolOnly_inv oracle s _ hinv ?_ ?_ ?_ ?_ <;>
          simp [generateAction, htool, hcard]
    | pen m tid nxt =>
      refine sendEvent_toolOnly_inv oracle s _ hinv ?_ ?_ ?_ ?_ <;>
        simp [generateAction, htool]
    | text tm nid2 =>
      refine sendEvent_toolOnly_inv oracle s _ hinv ?_ ?_ ?_ ?_ <;>
        simp [generateAction, htool]
  | addVerticalConstraint =>
    cases htool : s.toolState.tool with
    | selector sel =>
      by_cases hcard : sel.length = 1
      · refine sendEvent_constraint oracle s _ (.vertical (sel.getD 0 0)) hinv
          ⟨sel, htool, ?_⟩ ?_ ?_ ?_ ?_
        · intro i hi
          simp only [constraintOperandIDs, List.mem_singleton] at hi
          subst hi
          exact getD_mem_of_lt sel 0 (by omega)
        all_goals simp [generateAction, htool, hcard]
      · refine sendEvent_toolOnly_inv oracle s _ hinv ?_ ?_ ?_ ?_ <;>
          simp [generateAction, htool, hcard]
    | pen m tid nxt =>
      refine sendEvent_toolOnly_inv oracle s _ hinv ?_ ?_ ?_ ?_ <;>
        simp [generateAction, htool]
    | text tm nid2 =>
      refine sendEvent_toolOnly_inv oracle s _ hinv ?_ ?_ ?_ ?_ <;>
        simp [generateAction, htool]
  | addDistanceConstraint d =>
    cases htool : s.toolState.tool with
    | selector sel =>
      by_cases hcard : sel.length = 1 ∨ sel.length = 2
      · have hmem : ∀ i ∈ constraintOperandIDs (.distance d (sel.getD 0 0) (sel.get? 1)),
            i ∈ sel := by
          intro i hi
          simp only [constraintOperandIDs, List.mem_cons] at hi
          rcases hi with rfl | hi
          · refine getD_mem_of_lt sel 0 ?_
            rcases hcard with h | h <;> omega
          · cases hg : sel.get? 1 with
            | none => rw [hg] at hi; simp at hi
            | some x =>
              rw [hg] at hi
              simp only [Option.toList_some, List.mem_singleton] at hi
              subst hi
              exact List.get?_mem hg
        rcases hcard with hc1 | hc2
        · refine sendEvent_constraint oracle s _ (.distance d (sel.getD 0 0) (sel.get? 1)) hinv
            ⟨sel, htool, hmem⟩ ?_ ?_ ?_ ?_
          all_goals simp [generateAction, htool, hc1]
        · refine sendEvent_constraint oracle s _ (.distance d (sel.getD 0 0) (sel.get? 1)) hinv
            ⟨sel, htool, hmem⟩ ?_ ?_ ?_ ?_
          all_goals simp [generateAction, htool, hc2]
      · push_neg at hcard
        refine sendEvent_toolOnly_inv oracle s _ hinv ?_ ?_ ?_ ?_ <;>
          simp [generateAction, htool, hcard.1, hcard.2]
    | pen m tid nxt =>
      refine sendEvent_toolOnly_inv oracle s _ hinv ?_ ?_ ?_ ?_ <;>
        simp [generateAction, htool]
    | text tm nid2 =>
      refine sendEvent_toolOnly_inv oracle s _ hinv ?_ ?_ ?_ ?_ <;>
        simp [generateAction, htool]
  | addObject guide od => exact sendEvent_addObjectEvent oracle s guide od hinv

theorem initial_KernelInv : KernelInv initialDrawingState := by
  refine ⟨?_, ?_, ?_, ?_, ?_⟩
  · simp [initialDrawingState, initialDataState, keysNodup]
  · intro e2 he2
    simp [initialDrawingState, initialDataState] at he2
  · intro e2 he2
    simp [initialDrawingState, initialDataState] at he2
  · intro c hc
    simp [initialDrawingState, initialDataState] at hc
  · show ToolOK (Tool.selector []) _ _
    intro i hi
    simp at hi

theorem reachable_KernelInv (oracle : SvdOracle) (s : DrawingState)
    (h : Reachable oracle s) : KernelInv s := by
  induction h with
  | init => exact initial_KernelInv
  | step e hr ih => exact (kernel_step oracle _ e ih).1

theorem goodReachable_inv (oracle : SvdOracle) (s : DrawingState)
    (h : GoodReachable oracle s) : KernelInv s ∧ LineInv s.dataState.objects := by
  induction h with
  | init =>
    refine ⟨initial_KernelInv, ?_⟩
    intro e2 he2
    simp [initialDrawingState, initialDataState] at he2
  | step e hg hr ih =>
    obtain ⟨h1, h2⟩ := ih
    obtain ⟨h3, _, h5⟩ := kernel_step oracle _ e h1
    exact ⟨h3, h5 h2 hg⟩

theorem newtonIterE_nil (oracle : SvdOracle) :
    ∀ n, newtonIterE oracle [] [] n [] = .ok [] := by
  intro n
  induction n with
  | zero => rfl
  | succ n ih =>
    show (newtonStepE oracle [] [] []) >>= (newtonIterE oracle [] [] n) = _
    rw [show newtonStepE oracle [] [] [] = .ok [] from rfl]
    rw [show ((Except.ok [] : Except String (List ℚ)) >>= (newtonIterE oracle [] [] n))
      = newtonIterE oracle [] [] n [] from rfl]
    rw [ih]

/-- C4, counterexample.  The claim quantifies over every state reachable
"including the AddObject ingress event", but `AddObject` accepts a bare
`Line` payload whose endpoints need not exist: after
`sendEvent (addObject false (line 5 6))` from the initial state the map
holds a `Line` under key 1 whose endpoints 5 and 6 resolve to nothing. -/
theorem line_endpoints_violation :
    Reachable oracle0 (sendEvent oracle0 initialDrawingState
      (.addObject false (.line 5 6))).state ∧
    lookupObject (sendEvent oracle0 initialDrawingState
      (.addObject false (.line 5 6))).state.dataState.objects 1 =
      some ⟨1, false, .line 5 6⟩ ∧
    lookupObject (sendEvent oracle0 initialDrawingState
      (.addObject false (.line 5 6))).state.dataState.objects 5 = none ∧
    lookupObject (sendEvent oracle0 initialDrawingState
      (.addObject false (.line 5 6))).state.dataState.objects 6 = none :=
  ⟨Reachable.step (.addObject false (.line 5 6)) Reachable.init, rfl, rfl, rfl⟩

/-- C4, amended.  In every state reachable from the initial Drawing state
by `sendEvent` calls whose `AddObject` payloads are not bare `Line`s,
every `Line` object's two endpoints resolve to `Node` or `FixedNode`
objects of the map. -/
theorem line_endpoints_invariant (oracle : SvdOracle) (s : DrawingState)
    (h : GoodReachable oracle s) : LineInv s.dataState.objects :=
  (goodReachable_inv oracle s h).2

theorem line_endpoints_invariant_witness :
    LineInv (sendEvent oracle0 (sendEvent oracle0 (sendEvent oracle0 (sendEvent oracle0
      initialDrawingState (.keyDown "p")).state
      (.mouseDown false Button.primary (10, 20))).state
      (.mouseDown false Button.primary (30, 40))).state
      (.keyDown "Enter")).state.dataState.objects :=
  line_endpoints_invariant oracle0 _
    (GoodReachable.step (.keyDown "Enter") trivial
      (GoodReachable.step (.mouseDown false Button.primary (30, 40)) trivial
        (GoodReachable.step (.mouseDown false Button.primary (10, 20)) trivial
          (GoodReachable.step (.keyDown "p") trivial GoodReachable.init))))

/-- C5, counterexample.  A data action with mistyped referents is NOT
skipped without mutating state: selecting two `Node`s and firing
`AddPerpendicularConstraint` (which expects two `Line`s) appends the
constraint to the store and notifies listeners ("changed"), rather than
propagating "no change". -/
theorem schema_violation_mutates :
    let s1 := (sendEvent oracle0 initialDrawingState (.addObject false (.node (0, 0)))).state
    let s2 := (sendEvent oracle0 s1 (.addObject false (.node (100, 0)))).state
    let s3 := (sendEvent oracle0 s2 (.mouseDown false Button.primary (0, 0))).state
    let s4 := (sendEvent oracle0 s3 (.mouseDown false Button.primary (100, 0))).state
    let r := sendEvent oracle0 s4 .addPerpendicularConstraint
    r.state.dataState.constraints = [.perpendicular 1 3] ∧
    r.notified = true ∧ r.threw = false ∧
    lookupObject s4.dataState.objects 1 = some ⟨1, false, .node (0, 0)⟩ ∧
    s4.toolState.tool = .selector [1, 3] := by
  norm_num +decide [sendEvent, generateAction, execToolActions, execDataActions,
    executeToolAction, executeDataAction, objectAssign, setObject, lookupObject,
    initialDrawingState, initialDataState, initialToolState, appendHistory,
    List.foldl_cons, List.foldl_nil, hitScanAux, hitNode, transformViewportToData,
    transformViewportToSVG, transformSVGToData, transformConstraints, buildSolver,
    processConstraint, newtonSolve, newtonIterE_nil, applyWrites,
    oracle0, vecGet, vecSet, vecSub, vecDot]

/-- C5, amended (positive half).  From every reachable state, `sendEvent`
completes normally for every event: the throwing branches inside the
solver's variable lookup are never reached, and all conditions are
reported through the returned Booleans (`notified`) and logged
diagnostics. -/
theorem sendEvent_no_throw (oracle : SvdOracle) (s : DrawingState) (e : Event)
    (h : Reachable oracle s) :
    (sendEvent oracle s e).threw = false :=
  (kernel_step oracle s e (reachable_KernelInv oracle s h)).2.1

theorem sendEvent_no_throw_witness :
    (sendEvent oracle0 initialDrawingState .addPerpendicularConstraint).threw = false :=
  sendEvent_no_throw oracle0 initialDrawingState .addPerpendicularConstraint Reachable.init
